import Mathlib

/-!
# Toolkit Flyout: a shallow embedding of `js/components/flyout.js`

The component is modelled by explicit state passing.  A JavaScript object used
as a string-keyed map (`dataMap`, `menus`, `timers`) is a finite map with
unique keys: the own properties of the object.  A read of a name that is not
an own property goes on to the prototype of the object, so the reads of the
model are the reads of the source for the names that `Object.prototype` does
not define (`objectPrototypeKeys`) on an object whose prototype was not
replaced; the theorems that rest on a read of a target say so.  DOM elements
are finite trees; the readings the component takes from the browser layout
(offsets, sizes) are inputs of the operation that reads them.
-/

namespace Toolkit

/-! ## JavaScript objects used as maps -/

/-- Replace the value stored under `k`, keeping the position of the key, or
add the pair at the end when `k` is not a key yet (property assignment). -/
def setEntries {α : Type} : List (String × α) → String → α → List (String × α)
  | [], k, v => [(k, v)]
  | (k', v') :: rest, k, v =>
    if k' = k then (k, v) :: rest else (k', v') :: setEntries rest k v

/-- The value of the own property `k` (property read). -/
def getEntries {α : Type} : List (String × α) → String → Option α
  | [], _ => none
  | (k', v') :: rest, k => if k' = k then some v' else getEntries rest k

/-- A JavaScript object used as a map from strings: its own properties in
insertion order, no key twice. -/
structure JsObject (α : Type) where
  /-- Its own properties, in insertion order. -/
  entries : List (String × α)
  /-- No key occurs twice. -/
  nodup : (entries.map Prod.fst).Nodup

namespace JsObject

/-- The empty object literal. -/
def empty {α : Type} : JsObject α := ⟨[], List.nodup_nil⟩

/-- The keys of the object. -/
def keys {α : Type} (o : JsObject α) : List String := o.entries.map Prod.fst

/-- Read of an own property: the value under the key, if the object has the
key itself.  What the object inherits is not found. -/
def get {α : Type} (o : JsObject α) (k : String) : Option α := getEntries o.entries k

/-- Assignment to a property: the own property is written.  In JavaScript the
name `__proto__` is the exception; `storeIndex` treats it for the URL
index. -/
def set {α : Type} (o : JsObject α) (k : String) (v : α) : JsObject α :=
  ⟨setEntries o.entries k v, by
    have key : ∀ (es : List (String × α)), (es.map Prod.fst).Nodup →
        ((setEntries es k v).map Prod.fst).Nodup ∧
        ∀ x, x ∈ (setEntries es k v).map Prod.fst → x = k ∨ x ∈ es.map Prod.fst := by
      intro es
      induction es with
      | nil => intro _; simp [setEntries]
      | cons e rest ih =>
        obtain ⟨k', v'⟩ := e
        intro h
        rw [List.map_cons, List.nodup_cons] at h
        by_cases hk : k' = k
        · subst hk
          simp only [setEntries, if_true, List.map_cons, List.nodup_cons]
          exact ⟨⟨h.1, h.2⟩, fun x hx => Or.inr hx⟩
        · simp only [setEntries, hk, if_false, List.map_cons, List.nodup_cons]
          obtain ⟨ih1, ih2⟩ := ih h.2
          refine ⟨⟨?_, ih1⟩, ?_⟩
          · intro hmem
            rcases ih2 k' hmem with h1 | h1
            · exact hk h1
            · exact h.1 h1
          · intro x hx
            rcases List.mem_cons.mp hx with h1 | h1
            · exact Or.inr (List.mem_cons.mpr (Or.inl h1))
            · rcases ih2 x h1 with h2 | h2
              · exact Or.inl h2
              · exact Or.inr (List.mem_cons.mpr (Or.inr h2))
    exact (key o.entries o.nodup).1⟩

/-- The delete operator: the object without the key. -/
def erase {α : Type} (o : JsObject α) (k : String) : JsObject α :=
  ⟨o.entries.filter (fun e => e.1 ≠ k), by
    exact o.nodup.sublist ((List.filter_sublist o.entries).map Prod.fst)⟩

end JsObject

/-- The names of the members every plain object inherits from
`Object.prototype`: a read of one of them on an object such as `menus` or
`dataMap` finds the inherited member, a function or an object, when the
object has no own property of that name.  The last three are members in
Firefox before version 58 only. -/
def objectPrototypeKeys : List String :=
  ["constructor", "hasOwnProperty", "isPrototypeOf", "propertyIsEnumerable",
   "toLocaleString", "toString", "valueOf", "__proto__", "__defineGetter__",
   "__defineSetter__", "__lookupGetter__", "__lookupSetter__",
   "toSource", "watch", "unwatch"]

/-! ## Sitemap data -/

/-- A node of the sitemap JSON: every property but the title may be absent. -/
inductive SitemapNode where
  | mk (url : Option String) (title : String) (children : Option (List SitemapNode))
      (className : Option String) (icon : Option String)
      (attributes : Option (List (String × String)))

namespace SitemapNode

/-- Property `url`. -/
def url : SitemapNode → Option String
  | mk u _ _ _ _ _ => u

/-- Property `title`. -/
def title : SitemapNode → String
  | mk _ t _ _ _ _ => t

/-- Property `children`. -/
def children : SitemapNode → Option (List SitemapNode)
  | mk _ _ c _ _ _ => c

/-- Property `className`. -/
def className : SitemapNode → Option String
  | mk _ _ _ c _ _ => c

/-- Property `icon`. -/
def icon : SitemapNode → Option String
  | mk _ _ _ _ i _ => i

/-- Property `attributes`. -/
def attributes : SitemapNode → Option (List (String × String))
  | mk _ _ _ _ _ a => a

end SitemapNode

/-- JavaScript truthiness of an optional string: present and not empty. -/
def truthy : Option String → Bool
  | some s => s != ""
  | none => false

/-! ## DOM elements and the jQuery calls the component makes -/

/-- The event handlers the component binds to the elements it builds. -/
inductive Handler where
  /-- Bound on an item with children: `onPositionChild` of that item. -/
  | onPositionChild
  /-- Bound on an item with children: `onHideChild` of that item. -/
  | onHideChild
  /-- Bound on a top-level menu: `clearTimer('hide')`. -/
  | clearHideTimer
  /-- Bound on a top-level menu: `startTimer('hide', options.hideDelay)`. -/
  | startHideTimer
deriving DecidableEq

/-- A value given to `css`: a JavaScript number, or the string obtained by
concatenating a string, a number and a string. -/
inductive CssValue where
  /-- A number. -/
  | num (v : ℚ)
  /-- The string `pre + v + post`. -/
  | concat (pre : String) (v : ℚ) (post : String)
deriving DecidableEq

/-- The string with the letters `A` to `Z` in lower case. -/
def lowerCase (name : String) : String := ⟨name.data.map Char.toLower⟩

/-- Whether a character is an ASCII letter, `_` or `:`. -/
def nameStartChar (c : Char) : Bool :=
  let n := c.toNat
  n = 58 || n = 95 || (65 ≤ n && n ≤ 90) || (97 ≤ n && n ≤ 122)

/-- Whether a character is an ASCII letter, an ASCII digit, `_`, `:`, `-` or
`.`. -/
def nameChar (c : Char) : Bool :=
  let n := c.toNat
  nameStartChar c || n = 45 || n = 46 || (48 ≤ n && n ≤ 57)

/-- Whether a string is a name made of ASCII letters, digits, `_`, `:`, `-`
and `.` that starts with a letter, `_` or `:`.  Every browser accepts such a
name in `setAttribute`; for a string it does not accept as a name (the empty
string, a string with a space) `setAttribute` throws, and with it the call of
`attr` that makes it. -/
def attributeName (name : String) : Bool :=
  match name.data with
  | [] => false
  | c :: cs => nameStartChar c && cs.all nameChar

/-- A DOM element as the component sees it: the markup it was created from,
its attributes, classes, text, inline style, whether it is shown, the
handlers bound to it and its child elements. -/
inductive Elem where
  | mk (markup : String) (attrs : List (String × String)) (classes : List String)
      (text : Option String) (style : List (String × CssValue)) (shown : Bool)
      (handlers : List (String × Handler)) (children : List Elem)

namespace Elem

/-- The markup the element was created from. -/
def markup : Elem → String
  | mk m _ _ _ _ _ _ _ => m

/-- Attributes of the element. -/
def attrs : Elem → List (String × String)
  | mk _ a _ _ _ _ _ _ => a

/-- Classes of the element. -/
def classes : Elem → List String
  | mk _ _ c _ _ _ _ _ => c

/-- Text of the element. -/
def text : Elem → Option String
  | mk _ _ _ t _ _ _ _ => t

/-- Inline style of the element. -/
def style : Elem → List (String × CssValue)
  | mk _ _ _ _ s _ _ _ => s

/-- Whether the element is shown. -/
def shown : Elem → Bool
  | mk _ _ _ _ _ s _ _ => s

/-- Handlers bound to the element, by event name. -/
def handlers : Elem → List (String × Handler)
  | mk _ _ _ _ _ _ h _ => h

/-- Child elements, in document order. -/
def children : Elem → List Elem
  | mk _ _ _ _ _ _ _ c => c

/-- The call `$(markup)` for the markup of one element without children, as
the templates of the component are: a new element, not attached, on which
nothing was set yet. -/
def create (markup : String) : Elem := mk markup [] [] none [] true [] []

/-- The call `attr(name, value)` with a name `setAttribute` accepts: the
attribute is set under its name in lower case, as jQuery and `setAttribute`
take the name of an attribute of an HTML element. -/
def attr : Elem → String → String → Elem
  | mk m a c t s sh h ch, name, value =>
    mk m (setEntries a (lowerCase name) value) c t s sh h ch

/-- The call `attr(object)`: every pair is set, in the order of the object. -/
def attrAll (e : Elem) (pairs : List (String × String)) : Elem :=
  pairs.foldl (fun acc p => acc.attr p.1 p.2) e

/-- The call `removeAttr(name)`; removing `style` clears the inline style. -/
def removeAttr : Elem → String → Elem
  | mk m a c t s sh h ch, name =>
    mk m (a.filter (fun p => p.1 ≠ name)) c t (if name = "style" then [] else s) sh h ch

/-- The call `text(value)`. -/
def setText : Elem → String → Elem
  | mk m a c _ s sh h ch, value => mk m a c (some value) s sh h ch

/-- The call `hasClass(name)`. -/
def hasClass (e : Elem) (name : String) : Bool := decide (name ∈ e.classes)

/-- The call `addClass(name)`. -/
def addClass : Elem → String → Elem
  | mk m a c t s sh h ch, name =>
    mk m a (if name ∈ c then c else c ++ [name]) t s sh h ch

/-- The call `removeClass(name)`. -/
def removeClass : Elem → String → Elem
  | mk m a c t s sh h ch, name => mk m a (c.filter (fun x => x ≠ name)) t s sh h ch

/-- The call `css(name, value)`. -/
def css : Elem → String → CssValue → Elem
  | mk m a c t s sh h ch, name, value => mk m a c t (setEntries s name value) sh h ch

/-- The call `on(event, handler)`. -/
def onEvent : Elem → String → Handler → Elem
  | mk m a c t s sh h ch, event, f => mk m a c t s sh (h ++ [(event, f)]) ch

/-- The call `append(child)`: the child becomes the last child. -/
def append : Elem → Elem → Elem
  | mk m a c t s sh h ch, child => mk m a c t s sh h (ch ++ [child])

/-- The call `child.prependTo(this)`: the child becomes the first child. -/
def prepend : Elem → Elem → Elem
  | mk m a c t s sh h ch, child => mk m a c t s sh h (child :: ch)

/-- Modelled from the spec: the Toolkit jQuery extension `aria(name, value)`
(not among the sources) sets the accessibility attribute `aria-name` to the
given flag. -/
def aria (e : Elem) (name : String) (value : Bool) : Elem :=
  e.attr ("aria-" ++ name) (if value then "true" else "false")

/-- Modelled from the spec: the Toolkit jQuery extension `conceal()` (not
among the sources) makes the element visually hidden. -/
def conceal : Elem → Elem
  | mk m a c t s _ h ch => mk m a c t s false h ch

/-- Modelled from the spec: the Toolkit jQuery extension `reveal()` (not among
the sources) makes the element visible. -/
def reveal : Elem → Elem
  | mk m a c t s _ h ch => mk m a c t s true h ch

/-- Modelled from the spec: the Toolkit selector `is(':shown')` (not among the
sources) holds of an element that is not visually hidden. -/
def isShown (e : Elem) : Bool := e.shown

end Elem

/-! ## Options -/

/-- The options of a flyout, with the defaults of the component. -/
structure Options where
  /-- Either "hover" or "click". -/
  mode : String := "hover"
  /-- Pixels added to the left offset of the trigger. -/
  xOffset : ℚ := 0
  /-- Pixels added to the top offset of the trigger. -/
  yOffset : ℚ := 0
  /-- Delay of the show timer, in milliseconds. -/
  showDelay : Nat := 350
  /-- Delay of the hide timer, in milliseconds. -/
  hideDelay : Nat := 1000
  /-- Largest number of items in one list of a menu; 0 switches grouping off. -/
  itemLimit : Nat := 15
  /-- Markup of a menu. -/
  template : String := "<div class=\"flyout\" data-flyout-menu></div>"
  /-- Markup of a heading item. -/
  headingTemplate : String := "<li class=\"flyout-heading\"></li>"
  /-- Extra class of a menu, when set. -/
  className : Option String := none

/-! ## Building a menu -/

/-- The call `array.slice(a, b)` for `0 ≤ a ≤ b`. -/
def slice {α : Type} (xs : List α) (a b : Nat) : List α := (xs.drop a).take (b - a)

/-- The loop `while (i < l) { groups.push(children.slice(i, i += limit)); }`
of `_buildMenu`, entered with a positive limit. -/
def sliceLoop {α : Type} (children : List α) (limit : Nat) (hl : 0 < limit) (i : Nat)
    (groups : List (List α)) : List (List α) :=
  if i < children.length then
    sliceLoop children limit hl (i + limit) (groups ++ [slice children i (i + limit)])
  else groups
termination_by children.length - i
decreasing_by omega

/-- The groups of `_buildMenu`: slices of `limit` children when a limit is set
and there are more children than the limit, else the children as one group. -/
def computeGroups {α : Type} (children : List α) (limit : Nat) : List (List α) :=
  if h : limit ≠ 0 ∧ children.length > limit then
    sliceLoop children limit (Nat.pos_of_ne_zero h.1) 0 []
  else [children]

/-- Every item of a group of the loop is one of the children. -/
theorem mem_of_mem_sliceLoop {α : Type} (children : List α) (limit : Nat) (hl : 0 < limit)
    (i : Nat) (groups : List (List α))
    (hg : ∀ g ∈ groups, ∀ c ∈ g, c ∈ children) :
    ∀ g ∈ sliceLoop children limit hl i groups, ∀ c ∈ g, c ∈ children := by
  induction i, groups using sliceLoop.induct children limit hl with
  | case1 i groups hi ih =>
    rw [sliceLoop, if_pos hi]
    apply ih
    intro g hmem c hc
    rcases List.mem_append.mp hmem with h1 | h1
    · exact hg g h1 c hc
    · rw [List.mem_singleton] at h1
      subst h1
      exact List.mem_of_mem_drop (List.mem_of_mem_take hc)
  | case2 i groups hi =>
    rw [sliceLoop, if_neg hi]
    exact hg

/-- Every item of a group is one of the children. -/
theorem mem_of_mem_computeGroups {α : Type} (children : List α) (limit : Nat) :
    ∀ g ∈ computeGroups children limit, ∀ c ∈ g, c ∈ children := by
  unfold computeGroups
  split
  · exact mem_of_mem_sliceLoop children limit _ 0 [] (by simp)
  · intro g hg c hc
    rw [List.mem_singleton] at hg
    subst hg
    exact hc

/-- A child of a node is smaller than the node. -/
theorem sizeOf_lt_of_mem_children (data : SitemapNode) (cs : List SitemapNode)
    (h : data.children = some cs) (c : SitemapNode) (hc : c ∈ cs) :
    sizeOf c < sizeOf data := by
  cases data with
  | mk u t ch cn ic attrs =>
    simp only [SitemapNode.children] at h
    subst h
    have h1 := List.sizeOf_lt_of_mem hc
    simp only [SitemapNode.mk.sizeOf_spec, Option.some.sizeOf_spec]
    omega

/-- The parent a menu is appended to. -/
inductive Parent where
  /-- The document body, `$('body')`; its contents are not tracked. -/
  | body
  /-- A list item of a menu. -/
  | item (li : Elem)

namespace Parent

/-- The test `parent.is('body')`. -/
def isBody : Parent → Bool
  | body => true
  | item _ => false

/-- The call `menu.appendTo(parent)`. -/
def append : Parent → Elem → Parent
  | body, _ => body
  | item li, menu => item (li.append menu)

/-- The list item after the calls made on it, given the item before them. -/
def itemOr : Parent → Elem → Elem
  | body, li => li
  | item li, _ => li

end Parent

/-- The tag of a child: a link with its icon for a child with a url, else a
heading text; then the attributes of the child. -/
def buildTag (child : SitemapNode) : Elem :=
  let tag :=
    if truthy child.url then
      (((Elem.create "<a/>").setText child.title).attr "href" (child.url.getD "")).attr
        "role" "menuitem"
        |>.prepend ((Elem.create "<span/>").addClass
            (if truthy child.icon then child.icon.getD "" else "caret-right"))
    else
      ((Elem.create "<span/>").setText child.title).attr "role" "presentation"
  match child.attributes with
  | some attributes => tag.attrAll attributes
  | none => tag

/-- The list item of a child, with its class and its tag appended. -/
def buildItem (opts : Options) (child : SitemapNode) : Elem :=
  let li := if truthy child.url then Elem.create "<li/>" else Elem.create opts.headingTemplate
  let li := if truthy child.className then li.addClass (child.className.getD "") else li
  li.append (buildTag child)

/-- Whether `children && children.length` holds. -/
def hasChildren (data : SitemapNode) : Bool :=
  match data.children with
  | some cs => cs.length != 0
  | none => false

/-- The method `_buildMenu(parent, data)`: the menu built, or none for null,
and the parent after the call. -/
def _buildMenu (opts : Options) (parent : Parent) (data : SitemapNode) : Option Elem × Parent :=
  match hch : data.children with
  | none => (none, parent)
  | some children =>
    if children.length = 0 then (none, parent)
    else
      let menu := (Elem.create opts.template).attr "role" "menu"
      let menu := if truthy opts.className then menu.addClass (opts.className.getD "") else menu
      let menu := if parent.isBody then menu.addClass "is-root" else menu.aria "expanded" false
      let groups := computeGroups children opts.itemLimit
      let menu := groups.attach.foldl (fun menu group =>
        let ul := group.1.attach.foldl (fun ul child =>
          let li := buildItem opts child.1
          let li :=
            if hasChildren child.1 then
              ((((_buildMenu opts (Parent.item li) child.1).2.itemOr li).addClass
                "has-children").aria "haspopup" true).onEvent "mouseenter"
                Handler.onPositionChild |>.onEvent "mouseleave" Handler.onHideChild
            else li
          ul.append li) (Elem.create "<ul/>")
        menu.append ul) menu
      let menu := menu.conceal
      let parent := parent.append menu
      let menu :=
        if opts.mode ≠ "click" ∧ parent.isBody then
          (menu.onEvent "mouseenter" Handler.clearHideTimer).onEvent "mouseleave"
            Handler.startHideTimer
        else menu
      (some menu, parent)
termination_by sizeOf data
decreasing_by
  exact sizeOf_lt_of_mem_children data children hch child.1
    (mem_of_mem_computeGroups children opts.itemLimit group.1 group.2 child.1 child.2)

/-- The menu element of `_buildMenu` before any list is appended to it. -/
def menuShell (opts : Options) (parent : Parent) : Elem :=
  let menu := (Elem.create opts.template).attr "role" "menu"
  let menu := if truthy opts.className then menu.addClass (opts.className.getD "") else menu
  if parent.isBody then menu.addClass "is-root" else menu.aria "expanded" false

/-- The list item of a child at the end of the body of the inner loop of
`_buildMenu`. -/
def finishItem (opts : Options) (child : SitemapNode) : Elem :=
  let li := buildItem opts child
  if hasChildren child then
    ((((_buildMenu opts (Parent.item li) child).2.itemOr li).addClass
      "has-children").aria "haspopup" true).onEvent "mouseenter"
      Handler.onPositionChild |>.onEvent "mouseleave" Handler.onHideChild
  else li

/-- The list `_buildMenu` builds for a group. -/
def buildList (opts : Options) (group : List SitemapNode) : Elem :=
  group.foldl (fun ul child => ul.append (finishItem opts child)) (Elem.create "<ul/>")

/-- The end of `_buildMenu`, after the lists are appended to the menu. -/
def finishMenu (opts : Options) (parent : Parent) (menu : Elem) : Option Elem × Parent :=
  let menu := menu.conceal
  let parent := parent.append menu
  let menu :=
    if opts.mode ≠ "click" ∧ parent.isBody then
      (menu.onEvent "mouseenter" Handler.clearHideTimer).onEvent "mouseleave"
        Handler.startHideTimer
    else menu
  (some menu, parent)

/-- The group containers of a menu: its direct children made from `<ul/>`. -/
def groupContainers (menu : Elem) : List Elem :=
  menu.children.filter (fun e => e.markup == "<ul/>")

/-! ## The component -/

/-- A trigger node wrapped by jQuery, as far as the component reads and writes
it. -/
structure Trigger where
  /-- Modelled from the spec: the value `readValue(node, options.getUrl)` of
  the base component (not among the sources), the target key resolved from the
  configured attribute or callback. -/
  value : Option String
  /-- The value of `attr('href')`. -/
  href : Option String
  /-- Classes of the node. -/
  classes : List String

/-- The function a timer runs when it fires. -/
inductive TimerFunc where
  /-- The method `position`. -/
  | position
  /-- The method `hide`. -/
  | hide
deriving DecidableEq

/-- A timeout the browser holds after `setTimeout`, until it fires or is
cleared. -/
structure Timeout where
  /-- The id `setTimeout` returned. -/
  id : Nat
  /-- The key `startTimer` was called with. -/
  key : String
  /-- The function to run. -/
  func : TimerFunc
  /-- The delay in milliseconds. -/
  delay : Nat
deriving DecidableEq

/-- The state of a flyout and of the part of the browser it acts on.  The
field `element` holds the key of the cached menu `this.element` refers to
(for the targets the model covers the component only ever assigns it an entry
of `menus`, and entries are never replaced).  A target that is undefined is
taken to be a key of no map. -/
structure Flyout where
  /-- The options of the instance. -/
  options : Options
  /-- Current URL to show a menu for. -/
  current : Option String
  /-- The menu `this.element` refers to, by its key in `menus`. -/
  element : Option String
  /-- The trigger `this.node`. -/
  node : Option Trigger
  /-- Menus by URL. -/
  menus : JsObject Elem
  /-- Raw sitemap data. -/
  data : Option SitemapNode
  /-- Data by URL: the own properties of `dataMap`. -/
  dataMap : JsObject SitemapNode
  /-- The prototype of `dataMap` when an assignment to `dataMap['__proto__']`
  has replaced it by a node; none while it is `Object.prototype`. -/
  dataMapProto : Option SitemapNode
  /-- Timer ids by key. -/
  timers : JsObject Nat
  /-- The timeouts pending in the browser. -/
  timeouts : List Timeout
  /-- The id the next `setTimeout` returns. -/
  nextTimeout : Nat
  /-- The events fired with `fireEvent`, oldest first. -/
  events : List String

/-- Read of an own property with a key that may be undefined; an undefined
key finds nothing. -/
def lookup {α : Type} (o : JsObject α) (key : Option String) : Option α :=
  match key with
  | some k => o.get k
  | none => none

/-- A flyout right after construction. -/
def Flyout.init (options : Options) : Flyout :=
  { options := options, current := none, element := none, node := none,
    menus := JsObject.empty, data := none, dataMap := JsObject.empty,
    dataMapProto := none, timers := JsObject.empty, timeouts := [], nextTimeout := 1, events := [] }

/-- Modelled from the spec: `fireEvent(name)` of the base component (not among
the sources) notifies the listeners; the model records the name. -/
def fireEvent (s : Flyout) (name : String) : Flyout :=
  { s with events := s.events ++ [name] }

/-- The browser call `clearTimeout(id)`: the timeout with that id, if any, is
no longer pending. -/
def clearTimeout (s : Flyout) (id : Option Nat) : Flyout :=
  match id with
  | some i => { s with timeouts := s.timeouts.filter (fun t => t.id ≠ i) }
  | none => s

/-- The method `clearTimer(key)`. -/
def clearTimer (s : Flyout) (key : String) : Flyout :=
  let s := clearTimeout s (s.timers.get key)
  { s with timers := s.timers.erase key }

/-- The method `isVisible()`: its result and the state after it, for a current
target that names no member of `Object.prototype`. -/
def isVisible (s : Flyout) : Bool × Flyout :=
  let s :=
    if truthy s.current ∧ (lookup s.menus s.current).isSome then
      { s with element := s.current }
    else s
  (match lookup s.menus s.element with
   | some menu => menu.isShown
   | none => false, s)

/-- The method `hide()`. -/
def hide (s : Flyout) : Flyout :=
  let s :=
    match s.node with
    | some node => { s with node := some { node with classes := node.classes.filter (fun c => c ≠ "is-active") } }
    | none => s
  let (visible, s) := isVisible s
  if ¬ visible then s
  else
    let s := fireEvent s "hiding"
    let s :=
      match s.element, lookup s.menus s.element with
      | some k, some menu => { s with menus := s.menus.set k menu.conceal }
      | _, _ => s
    let s := fireEvent s "hidden"
    { s with element := none, current := none }

/-- The assignment `this.dataMap[key] = node`.  It writes an own property,
but for the key `__proto__`: that name is the accessor inherited from
`Object.prototype`, whose setter makes the node the prototype of `dataMap` and
adds no property. -/
def storeIndex (s : Flyout) (key : String) (node : SitemapNode) : Flyout :=
  if key = "__proto__" then { s with dataMapProto := some node }
  else { s with dataMap := s.dataMap.set key node }

/-- The argument `depth` of `load`: a number, or a string, as when `$.getJSON`
calls `load` as its callback with the text status (`load(data, 'success',
jqXHR)`). -/
inductive Depth where
  /-- A number. -/
  | num (n : Nat)
  /-- A string. -/
  | text (t : String)
deriving DecidableEq

instance (n : Nat) : OfNat Depth n := ⟨Depth.num n⟩

/-- The value of `depth || 0`. -/
def Depth.orZero : Depth → Depth
  | Depth.num n => Depth.num n
  | Depth.text t => if t = "" then Depth.num 0 else Depth.text t

/-- The value of `depth + 1`: the next number, or the string with `1` at its
end. -/
def Depth.succ : Depth → Depth
  | Depth.num n => Depth.num (n + 1)
  | Depth.text t => Depth.text (t ++ "1")

mutual
/-- The method `load(data, depth)`. -/
def load (s : Flyout) (data : SitemapNode) (depth : Depth) : Flyout :=
  match data with
  | .mk url title children className icon attributes =>
    let node := SitemapNode.mk url title children className icon attributes
    let depth := depth.orZero
    let s := if depth = 0 then { s with data := some node } else s
    let s := if truthy url then storeIndex s (url.getD "") node else s
    match children with
    | some cs => loadChildren s cs depth
    | none => s
/-- The loop of `load` over the children, from the first to the last. -/
def loadChildren (s : Flyout) (children : List SitemapNode) (depth : Depth) : Flyout :=
  match children with
  | [] => s
  | c :: cs => loadChildren (load s c depth.succ) cs depth
end

/-- What `position()` reads from the layout.  The readings and the offsets of
the options are rationals and the sums made of them are exact, where the
source adds and compares IEEE doubles: the coordinates of the model are those
of the source where no sum rounds, as for whole numbers of pixels. -/
structure PositionReadings where
  /-- The value of `menu.outerHeight()`. -/
  menuHeight : ℚ
  /-- The value of `this.node.offset().left`. -/
  left : ℚ
  /-- The value of `this.node.offset().top`. -/
  top : ℚ
  /-- The value of `this.node.outerHeight()`. -/
  nodeHeight : ℚ
  /-- The value of `$(window).height()`. -/
  windowHeight : ℚ

/-- How a call ends: it returns, or it throws; either way with the state it
leaves. -/
inductive Outcome where
  /-- The call returned. -/
  | returned (s : Flyout)
  /-- The call threw. -/
  | threw (s : Flyout)

/-- The state a call leaves. -/
def Outcome.state : Outcome → Flyout
  | returned s => s
  | threw s => s

/-- The method `position()`, with exact sums (see `PositionReadings`). -/
def position (r : PositionReadings) (s : Flyout) : Outcome :=
  let target := s.current
  match lookup s.menus target, target with
  | some menu, some key =>
    let s := fireEvent s "showing"
    match s.node with
    | none => Outcome.threw s
    | some _ =>
      let height := r.menuHeight
      let x := r.left + s.options.xOffset
      let y := r.top + s.options.yOffset + r.nodeHeight
      let windowScroll := r.windowHeight
      let y := if y > windowScroll / 2 then r.top - s.options.yOffset - height else y
      let menu := ((menu.css "left" (CssValue.num x)).css "top" (CssValue.num y)).reveal
      let s := { s with menus := s.menus.set key menu }
      Outcome.returned (fireEvent s "shown")
  | _, _ => Outcome.returned s

/-- The browser call `setTimeout(func, delay)` made by `startTimer(key, _)`:
the id returned and the state with the timeout pending. -/
def setTimeout (s : Flyout) (key : String) (func : TimerFunc) (delay : Nat) : Nat × Flyout :=
  (s.nextTimeout,
    { s with
      timeouts := s.timeouts ++ [{ id := s.nextTimeout, key := key, func := func, delay := delay }],
      nextTimeout := s.nextTimeout + 1 })

/-- The method `startTimer(key, delay)`.  The function chosen is never
missing, so the test `if (func)` of the source always holds. -/
def startTimer (s : Flyout) (key : String) (delay : Nat) : Flyout :=
  let s := clearTimer s key
  let func := if key = "show" then TimerFunc.position else TimerFunc.hide
  let (id, s) := setTimeout s key func delay
  { s with timers := s.timers.set key id }

/-- The method `_getTarget(node)`; the node is absent when the method is
called without one. -/
def _getTarget (s : Flyout) (node : Option Trigger) : Option String :=
  match (match node with | some n => some n | none => s.node) with
  | some n => if truthy n.value then n.value else n.href
  | none => none

/-- The method `_getMenu()`: the menu returned, or none for null, and the
state after the call.  The reads `this.menus[target]` and
`this.dataMap[target]` are reads of own properties: the method is modelled for
the targets that name no member of `Object.prototype`, on an index whose
prototype was not replaced. -/
def _getMenu (s : Flyout) : Option Elem × Flyout :=
  let target := _getTarget s none
  let s := { s with current := target }
  match lookup s.menus target with
  | some menu => (some menu, s)
  | none =>
    match lookup s.dataMap target, target with
    | some data, some key =>
      match (_buildMenu s.options Parent.body data).1 with
      | none => (none, s)
      | some menu => (some menu, { s with menus := s.menus.set key menu })
    | _, _ => (none, s)

/-- The method `show(node)`. -/
def «show» (r : PositionReadings) (s : Flyout) (node : Trigger) : Outcome :=
  let target := _getTarget s (some node)
  let s :=
    if truthy s.current ∧ target ≠ s.current then
      startTimer (hide s) "show" s.options.showDelay
    else s
  let s := { s with node := some node }
  let (menu, s) := _getMenu s
  match menu with
  | none => Outcome.returned s
  | some _ =>
    let s := { s with node := s.node.map (fun n =>
      { n with classes := if "is-active" ∈ n.classes then n.classes else n.classes ++ ["is-active"] }) }
    if s.options.mode = "click" then position r s else Outcome.returned s

/-- The handler `onEnter`. -/
def onEnter (s : Flyout) : Flyout :=
  startTimer (clearTimer s "hide") "show" s.options.showDelay

/-- The handler `onLeave`. -/
def onLeave (s : Flyout) : Flyout :=
  startTimer (clearTimer s "show") "hide" s.options.showDelay

/-- A pending timeout fires: the browser drops it and runs its function.  An
id that is not pending does nothing. -/
def fireTimeout (r : PositionReadings) (s : Flyout) (id : Nat) : Outcome :=
  match s.timeouts.find? (fun t => t.id = id) with
  | none => Outcome.returned s
  | some t =>
    let s := { s with timeouts := s.timeouts.filter (fun t => t.id ≠ id) }
    match t.func with
    | TimerFunc.position => position r s
    | TimerFunc.hide => Outcome.returned (hide s)

/-- What `onPositionChild(parent)` reads from the layout. -/
structure ChildReadings where
  /-- The value of `children.outerWidth()`, after `aria`. -/
  childWidth : ℚ
  /-- The value of `win.height()`. -/
  windowHeight : ℚ
  /-- The value of `win.scrollTop()`. -/
  scrollTop : ℚ
  /-- The value of `win.width()`. -/
  windowWidth : ℚ
  /-- The value of `parent.offset().top`. -/
  parentTop : ℚ
  /-- The value of `parent.offset().left`. -/
  parentLeft : ℚ
  /-- The value of `parent.outerWidth()`. -/
  parentWidth : ℚ
  /-- The value of `parent.outerHeight()`. -/
  parentHeight : ℚ
  /-- The value of `menu.outerWidth()`, after the width is set. -/
  menuWidth : ℚ
  /-- The value of `menu.outerHeight()`, after the width is set. -/
  menuHeight : ℚ

/-- Modelled from the spec: the selector `this.ns('menu')` of the base
component (not among the sources) matches the menus of this component, the
elements created from the menu template. -/
def matchesMenu (opts : Options) (e : Elem) : Bool := e.markup == opts.template

/-- The set `parent.children(this.ns('menu'))`. -/
def childMenus (opts : Options) (parent : Elem) : List Elem :=
  parent.children.filter (matchesMenu opts)

/-- A jQuery call on the set `parent.children(this.ns('menu'))`: it is made on
every element of the set, in place. -/
def onChildMenus (opts : Options) (f : Elem → Elem) : Elem → Elem
  | Elem.mk m a c t st sh h ch =>
    Elem.mk m a c t st sh h (ch.map (fun e => if matchesMenu opts e then f e else e))

/-- The handler `onPositionChild(parent)`: the parent item after the call and
the state after it.  The test `if (!menu)` of the source never holds, a jQuery
set being an object, so nothing is returned early. -/
def onPositionChild (r : ChildReadings) (s : Flyout) (parent : Elem) : Elem × Flyout :=
  let count := ((childMenus s.options parent).map (fun menu => menu.children.length)).sum
  let winHeight := r.windowHeight + r.scrollTop
  let winWidth := r.windowWidth
  let parentTop := r.parentTop
  let parentHeight := r.parentHeight
  let parentRight := r.parentLeft + r.parentWidth
  let hWidth := parentRight + r.menuWidth
  let parent := onChildMenus s.options (fun menu =>
    let menu := (menu.aria "expanded" true).aria "hidden" true
    let menu := menu.css "width" (CssValue.concat "" (r.childWidth * count) "px")
    let menu := if hWidth ≥ winWidth then menu.addClass "push-left" else menu.removeClass "push-left"
    if parentTop > winHeight / 2 then
      menu.css "top" (CssValue.concat "-" (r.menuHeight - parentHeight) "px")
    else menu.css "top" (CssValue.num 0)) parent
  let parent := parent.addClass "is-open"
  let parent := onChildMenus s.options Elem.reveal parent
  (parent, fireEvent s "showChild")

/-- The handler `onHideChild(parent)`: the parent item after the call and the
state after it. -/
def onHideChild (s : Flyout) (parent : Elem) : Elem × Flyout :=
  let parent := parent.removeClass "is-open"
  let parent := onChildMenus s.options (fun menu =>
    ((((menu.removeAttr "style").aria "expanded" false).aria "hidden" false).conceal)) parent
  (parent, fireEvent s "hideChild")

/-! ## Traversal of the sitemap -/

mutual
/-- The nodes of a tree in depth-first pre-order, children in array order. -/
def preorder : SitemapNode → List SitemapNode
  | .mk url title children className icon attributes =>
    SitemapNode.mk url title children className icon attributes ::
      (match children with
       | some cs => preorderAll cs
       | none => [])
/-- The nodes of a list of trees, tree after tree. -/
def preorderAll : List SitemapNode → List SitemapNode
  | [] => []
  | c :: cs => preorder c ++ preorderAll cs
end

/-- The nodes of a list that carry the url `u`, in the order of the list. -/
def withUrl (u : String) (nodes : List SitemapNode) : List SitemapNode :=
  nodes.filter (fun n => n.url == some u)

/-- The last node of the tree, in pre-order, that carries the url `u`. -/
def lastWithUrl (T : SitemapNode) (u : String) : Option SitemapNode :=
  (withUrl u (preorder T)).getLast?

/-! ## Operations and reachable states -/

/-- The calls made on a flyout by its users, its handlers and its timers. -/
inductive Op where
  /-- The call `load(data)`. -/
  | load (data : SitemapNode)
  /-- The call `show(node)`. -/
  | «show» (r : PositionReadings) (node : Trigger)
  /-- The call `hide()`. -/
  | hide
  /-- The call `position()`. -/
  | position (r : PositionReadings)
  /-- The call `startTimer(key, delay)`. -/
  | startTimer (key : String) (delay : Nat)
  /-- The call `clearTimer(key)`. -/
  | clearTimer (key : String)
  /-- The handler `onEnter`. -/
  | onEnter
  /-- The handler `onLeave`. -/
  | onLeave
  /-- The timeout with the given id fires. -/
  | fire (r : PositionReadings) (id : Nat)

/-- The outcome of a call. -/
def Op.run (s : Flyout) : Op → Outcome
  | Op.load data => Outcome.returned (Toolkit.load s data 0)
  | Op.show r node => Toolkit.show r s node
  | Op.hide => Outcome.returned (Toolkit.hide s)
  | Op.position r => Toolkit.position r s
  | Op.startTimer key delay => Outcome.returned (Toolkit.startTimer s key delay)
  | Op.clearTimer key => Outcome.returned (Toolkit.clearTimer s key)
  | Op.onEnter => Outcome.returned (Toolkit.onEnter s)
  | Op.onLeave => Outcome.returned (Toolkit.onLeave s)
  | Op.fire r id => fireTimeout r s id

/-- The state after a sequence of calls, made one after the other. -/
def runAll (s : Flyout) : List Op → Flyout
  | [] => s
  | op :: ops => runAll (op.run s).state ops

/-! ## The timer set -/

/-- The timeouts pending for a key. -/
def pendingFor (s : Flyout) (key : String) : List Timeout :=
  s.timeouts.filter (fun t => t.key = key)

/-- The timer set: the pending timeout whose id is stored under the key, if
there is one. -/
def timerSet (s : Flyout) (key : String) : Option Timeout :=
  match s.timers.get key with
  | some id => s.timeouts.find? (fun t => t.id = id)
  | none => none

/-- The timers of a flyout are in order: the id of every pending timeout is
stored under the key of the timeout, an id stored under a key belongs to no
pending timeout of another key, and the ids in use are below the next id. -/
structure TimersOk (s : Flyout) : Prop where
  /-- The id of a pending timeout is stored under its key. -/
  tracked : ∀ t ∈ s.timeouts, s.timers.get t.key = some t.id
  /-- A pending timeout with the id stored under a key has that key. -/
  owned : ∀ key id, s.timers.get key = some id → ∀ t ∈ s.timeouts, t.id = id → t.key = key
  /-- The ids of the pending timeouts are below the next id. -/
  pendingBelow : ∀ t ∈ s.timeouts, t.id < s.nextTimeout
  /-- The ids stored are below the next id. -/
  storedBelow : ∀ key id, s.timers.get key = some id → id < s.nextTimeout

/-- The function `startTimer` schedules under a key. -/
def timerFunc (key : String) : TimerFunc :=
  if key = "show" then TimerFunc.position else TimerFunc.hide

/-! ## Parts of `show` -/

/-- The state of `show(node)` after the jump from another node is handled and
`this.node` is assigned. -/
def showPrelude (s : Flyout) (node : Trigger) : Flyout :=
  { (if truthy s.current ∧ _getTarget s (some node) ≠ s.current then
      startTimer (hide s) "show" s.options.showDelay
    else s) with node := some node }

/-- The state after `this.node.addClass('is-active')`. -/
def markActive (s : Flyout) : Flyout :=
  { s with node := s.node.map (fun n =>
      { n with classes := if "is-active" ∈ n.classes then n.classes else n.classes ++ ["is-active"] }) }

/-! ## Visibility -/

/-- The keys of the cached top-level menus that are visible. -/
def visibleMenus (s : Flyout) : List String :=
  (s.menus.entries.filter (fun e => e.2.isShown)).map Prod.fst

/-- The visibility of the cached menus is in order: a visible menu is the menu
of the current target, and no menu and no sitemap node is stored under the
empty string. -/
structure VisibilityOk (s : Flyout) : Prop where
  /-- A visible menu is the menu of the current target. -/
  shownIsCurrent : ∀ k m, s.menus.get k = some m → m.shown = true → s.current = some k
  /-- The keys of the menu cache are not empty. -/
  menuKeys : ∀ k m, s.menus.get k = some m → k ≠ ""
  /-- The keys of the URL index are not empty. -/
  dataKeys : ∀ k n, s.dataMap.get k = some n → k ≠ ""

/-- The menu `this.element` refers to after `isVisible()`. -/
def elementAfter (s : Flyout) : Option String :=
  if truthy s.current ∧ (lookup s.menus s.current).isSome then s.current else s.element

/-- The state of `hide()` after the class is removed from the trigger. -/
def unmarkActive (s : Flyout) : Flyout :=
  match s.node with
  | some node =>
    { s with node := some { node with classes := node.classes.filter (fun c => c ≠ "is-active") } }
  | none => s

/-- The left coordinate `position()` gives the menu. -/
def placedLeft (r : PositionReadings) (opts : Options) : ℚ := r.left + opts.xOffset

/-- The top coordinate `position()` gives the menu. -/
def placedTop (r : PositionReadings) (opts : Options) : ℚ :=
  if r.top + opts.yOffset + r.nodeHeight > r.windowHeight / 2 then
    r.top - opts.yOffset - r.menuHeight
  else r.top + opts.yOffset + r.nodeHeight

/-- The menu after `menu.css({left: x, top: y}).reveal()` in `position()`. -/
def placed (r : PositionReadings) (opts : Options) (menu : Elem) : Elem :=
  ((menu.css "left" (CssValue.num (placedLeft r opts))).css "top"
    (CssValue.num (placedTop r opts))).reveal

/-- The target of a trigger: `readValue(node, getUrl) || node.attr('href')`. -/
def targetOf (node : Trigger) : Option String :=
  if truthy node.value then node.value else node.href

/-! ## What an item shows -/

/-- What is seen of the tag of a list item. -/
structure TagView where
  /-- The markup the tag was created from. -/
  markup : String
  /-- The text of the tag. -/
  text : Option String
  /-- The attribute `href` of the tag. -/
  href : Option String
  /-- The attribute `role` of the tag. -/
  role : Option String
deriving DecidableEq

/-- The view of a tag. -/
def viewOfTag (tag : Elem) : TagView :=
  { markup := tag.markup, text := tag.text, href := getEntries tag.attrs "href",
    role := getEntries tag.attrs "role" }

/-- The view of the tag of a list item: of its first child. -/
def tagView (li : Elem) : Option TagView := li.children.head?.map viewOfTag

/-- The actionable item of a child: a link with role `menuitem` to the url of
the child, labelled with its title. -/
def linkOf (child : SitemapNode) : TagView :=
  { markup := "<a/>", text := some child.title, href := child.url, role := some "menuitem" }

/-! ## Values given to `css` as the browser reads them -/

/-- The string a JavaScript number gives when concatenated to a string, for a
whole number: its decimal digits, after a minus sign when it is negative. -/
def numberString (v : ℚ) : Option String :=
  if v.den = 1 then some (toString v.num) else none

/-- The string a value given to `css` is, when it is a string of a whole
number. -/
def CssValue.render : CssValue → Option String
  | CssValue.num _ => none
  | CssValue.concat pre v post => (numberString v).map (fun digits => pre ++ digits ++ post)

/-- The length in pixels a value given to `css` stands for, if it is one: a
number is taken as pixels; the string of a number followed by `px` is a length
when it has at most one sign, so `'-' + v + 'px'` is the length `-v` for
`v ≥ 0` and no length for `v < 0`, where the string starts with two minus
signs. -/
def CssValue.length : CssValue → Option ℚ
  | CssValue.num v => some v
  | CssValue.concat pre v post =>
    if post = "px" then
      if pre = "" then some v
      else if pre = "-" then (if 0 ≤ v then some (-v) else none)
      else none
    else none

/-! ## The entries of the menu cache -/

/-- The element `m'` is the element `m` after calls of `conceal()` and of
`css({left, top}).reveal()` on it: the same cached entry, displayed
differently. -/
inductive SameEntry (m : Elem) : Elem → Prop where
  /-- The element itself. -/
  | same : SameEntry m m
  /-- After `conceal()`. -/
  | concealed (x : Elem) : SameEntry m x → SameEntry m x.conceal
  /-- After `css({left, top}).reveal()` in `position()`. -/
  | placed (r : PositionReadings) (opts : Options) (x : Elem) :
      SameEntry m x → SameEntry m (placed r opts x)

/-! ## Tooltip: reading the title and the content of a node

The method `_read` of `src/modules/Tooltip.js`. -/

namespace Tooltip

/-- A node as `_read` sees it: its element storage (`store`, `retrieve`) and
its attributes (`get`).  The values are strings. -/
structure Node where
  /-- The element storage of the node. -/
  storage : JsObject String
  /-- The attributes of the node. -/
  attributes : JsObject String

/-- An option `getTitle` or `getContent`: the name of an attribute, or a
function of the node. -/
inductive Reader where
  /-- The name of the attribute to read. -/
  | attribute (name : String)
  /-- A function called with the node. -/
  | callback (f : Node → Option String)

/-- The options `_read` uses. -/
structure ReadOptions where
  /-- Where the title is read from. -/
  getTitle : Reader := Reader.attribute "title"
  /-- Where the content is read from. -/
  getContent : Reader := Reader.attribute "data-tooltip"

/-- The call `node.retrieve(key, null)`: the value stored under the key, or
null. -/
def retrieve (node : Node) (key : String) : Option String := node.storage.get key

/-- The method `_read(type)` of a tooltip whose current node is `node`. -/
def _read (options : ReadOptions) (node : Node) (type : String) : Option String :=
  let data := retrieve node ("tooltip:" ++ type)
  let key := if type = "title" then options.getTitle else options.getContent
  if truthy data then data
  else
    match key with
    | Reader.callback f => f node
    | Reader.attribute name => node.attributes.get name

end Tooltip

/-! ## Example inputs -/

/-- A tree in which the url "/a/1" occurs twice. -/
def duplicateTree : SitemapNode :=
  .mk (some "/a") "A"
    (some [.mk (some "/a/1") "One" none none none none,
           .mk (some "/a/1") "Other" none none none none]) none none none

/-- A tree with a node whose url is the empty string and a node whose url is
`__proto__`. -/
def unindexedTree : SitemapNode :=
  .mk (some "/a") "A"
    (some [.mk (some "") "Empty" none none none none,
           .mk (some "__proto__") "Proto" none none none none]) none none none

/-- A node with five children, none of which has children. -/
def fiveChildren : SitemapNode :=
  .mk (some "/n") "N"
    (some [.mk (some "/n/1") "1" none none none none,
           .mk (some "/n/2") "2" none none none none,
           .mk none "3" none none none none,
           .mk (some "/n/4") "4" none none none none,
           .mk (some "/n/5") "5" none none none none]) none none none

/-- The sitemap of the end-to-end scenario of the specification. -/
def specTree : SitemapNode :=
  .mk (some "/a") "A"
    (some [.mk (some "/a/1") "One" none none none none,
           .mk (some "/a/2") "Two" none none none none]) none none none

/-- A sitemap with two targets that have menus. -/
def twoTargets : SitemapNode :=
  .mk none "Root"
    (some [specTree,
           .mk (some "/b") "B" (some [.mk (some "/b/1") "Uno" none none none none])
             none none none]) none none none

/-- A trigger that links to "/a". -/
def triggerA : Trigger := { value := none, href := some "/a", classes := [] }

/-- A trigger that links to "/b". -/
def triggerB : Trigger := { value := none, href := some "/b", classes := [] }

/-- Readings of a trigger near the top of a tall window. -/
def readingsTop : PositionReadings :=
  { menuHeight := 100, left := 10, top := 20, nodeHeight := 30, windowHeight := 600 }

/-- The calls that make the menu of "/a" visible: load, hover, show timer. -/
def openA : List Op :=
  [Op.load twoTargets, Op.show readingsTop triggerA, Op.position readingsTop]

/-- A flyout whose current target "/a" has a cached menu and a trigger. -/
def withMenuA : Flyout :=
  { Flyout.init {} with
    current := some "/a", node := some triggerA,
    menus := JsObject.empty.set "/a" (menuShell {} Parent.body).conceal }

/-- Readings of a trigger low in the window. -/
def readingsLow : PositionReadings :=
  { menuHeight := 100, left := 10, top := 400, nodeHeight := 30, windowHeight := 600 }

/-- A list item with a submenu of one list of two items, as `_buildMenu`
appends it: the submenu is concealed and marked collapsed. -/
def itemWithSubmenu : Elem :=
  ((Elem.create "<li/>").append ((Elem.create "<a/>").setText "More")).append
    ((((Elem.create ({} : Options).template).attr "role" "menu").aria "expanded" false).append
      (((Elem.create "<ul/>").append (Elem.create "<li/>")).append (Elem.create "<li/>"))).conceal

/-- Readings of a submenu that fits exactly: the right edge of the parent
item, 800, plus the width of the submenu, 200, is the width of the window. -/
def readingsExactFit : ChildReadings :=
  { childWidth := 200, windowHeight := 600, scrollTop := 0, windowWidth := 1000,
    parentTop := 100, parentLeft := 700, parentWidth := 100, parentHeight := 30,
    menuWidth := 200, menuHeight := 60 }

/-- The sitemap of "/a" after its children are gone. -/
def leafA : SitemapNode := .mk (some "/a") "A" none none none none

/-- The menu of "/a" is built, then the data is loaded again with "/a" as a
leaf. -/
def staleOps : List Op :=
  [Op.load twoTargets, Op.show readingsTop triggerA, Op.hide, Op.load leafA]

/-- A trigger that links to "/a/1", a node without children. -/
def triggerLeaf : Trigger := { value := none, href := some "/a/1", classes := [] }

/-- A trigger that links to a url the sitemap does not have. -/
def triggerUnknown : Trigger := { value := none, href := some "/nowhere", classes := [] }

/-- A child with a url whose attributes set `href`. -/
def overrideChild : SitemapNode :=
  .mk (some "/a/1") "One" none none none (some [("href", "/elsewhere")])

/-- A sitemap whose node "/a" has that child. -/
def overrideTree : SitemapNode := .mk (some "/a") "A" (some [overrideChild]) none none none

/-- Readings of a submenu, 20 high, shorter than its parent item, 30 high,
which lies below the middle of the window. -/
def readingsShortSubmenu : ChildReadings :=
  { childWidth := 200, windowHeight := 600, scrollTop := 0, windowWidth := 1000,
    parentTop := 500, parentLeft := 100, parentWidth := 100, parentHeight := 30,
    menuWidth := 200, menuHeight := 20 }

/-- A node that stores the empty string as its tooltip title and has the
attribute `title`. -/
def emptyTitleNode : Tooltip.Node :=
  { storage := JsObject.empty.set "tooltip:title" "",
    attributes := JsObject.empty.set "title" "Hello" }

/-- A node that stores a tooltip title and has the attribute `title`. -/
def storedTitleNode : Tooltip.Node :=
  { storage := JsObject.empty.set "tooltip:title" "Stored",
    attributes := JsObject.empty.set "title" "Hello" }

/-! # Theorems -/

/-! ## Facts about objects used as maps -/

theorem getEntries_setEntries_self {α : Type} (es : List (String × α)) (k : String) (v : α) :
    getEntries (setEntries es k v) k = some v := by
  induction es with
  | nil => simp [setEntries, getEntries]
  | cons e rest ih =>
    obtain ⟨k', v'⟩ := e
    by_cases hk : k' = k
    · simp [setEntries, getEntries, hk]
    · simp [setEntries, getEntries, hk, ih]

theorem getEntries_setEntries_of_ne {α : Type} (es : List (String × α)) (k j : String) (v : α)
    (h : j ≠ k) : getEntries (setEntries es k v) j = getEntries es j := by
  induction es with
  | nil => simp [setEntries, getEntries, Ne.symm h]
  | cons e rest ih =>
    obtain ⟨k', v'⟩ := e
    by_cases hk : k' = k
    · subst hk
      simp [setEntries, getEntries, Ne.symm h]
    · by_cases hj : k' = j
      · subst hj
        simp [setEntries, getEntries, hk]
      · simp [setEntries, getEntries, hk, hj, ih]

theorem mem_keys_of_getEntries {α : Type} (es : List (String × α)) (k : String) (v : α)
    (h : getEntries es k = some v) : k ∈ es.map Prod.fst := by
  induction es with
  | nil => simp [getEntries] at h
  | cons e rest ih =>
    obtain ⟨k', v'⟩ := e
    by_cases hk : k' = k
    · simp [hk]
    · simp only [getEntries, hk, if_false] at h
      simp [ih h]

theorem JsObject.get_set_self {α : Type} (o : JsObject α) (k : String) (v : α) :
    (o.set k v).get k = some v :=
  getEntries_setEntries_self o.entries k v

theorem JsObject.get_set_of_ne {α : Type} (o : JsObject α) (k j : String) (v : α)
    (h : j ≠ k) : (o.set k v).get j = o.get j :=
  getEntries_setEntries_of_ne o.entries k j v h

/-- A key with a value occurs exactly once among the keys. -/
theorem JsObject.count_keys_of_get {α : Type} (o : JsObject α) (k : String) (v : α)
    (h : o.get k = some v) : o.keys.count k = 1 :=
  List.count_eq_one_of_mem o.nodup (mem_keys_of_getEntries o.entries k v h)

/-! ## Loading -/

/-- The assignment `dataMap[key] = node` leaves everything but the index and
its prototype as it is. -/
theorem storeIndex_frame (s : Flyout) (key : String) (node : SitemapNode) :
    (storeIndex s key node).timers = s.timers ∧ (storeIndex s key node).timeouts = s.timeouts ∧
      (storeIndex s key node).nextTimeout = s.nextTimeout ∧
      (storeIndex s key node).menus = s.menus ∧ (storeIndex s key node).current = s.current ∧
      (storeIndex s key node).element = s.element ∧ (storeIndex s key node).node = s.node ∧
      (storeIndex s key node).options = s.options ∧ (storeIndex s key node).events = s.events ∧
      (storeIndex s key node).data = s.data := by
  unfold storeIndex
  split <;> simp

/-- The own property of the index under `u` after the assignment
`dataMap[key] = node`. -/
theorem get_dataMap_storeIndex (s : Flyout) (key : String) (node : SitemapNode) (u : String) :
    (storeIndex s key node).dataMap.get u
      = if key = u ∧ u ≠ "__proto__" then some node else s.dataMap.get u := by
  unfold storeIndex
  by_cases hk : key = "__proto__"
  · rw [if_pos hk]
    by_cases hu : key = u
    · rw [if_neg (by rw [← hu]; exact fun h => h.2 hk)]
    · rw [if_neg (fun h => hu h.1)]
  · rw [if_neg hk]
    by_cases hu : key = u
    · subst hu
      rw [if_pos ⟨rfl, hk⟩]
      exact JsObject.get_set_self _ _ _
    · rw [if_neg (fun h => hu h.1)]
      exact JsObject.get_set_of_ne _ _ _ _ (Ne.symm hu)

/-- The index after the assignment `dataMap[data.url] = data` guarded by
`if (data.url)`. -/
theorem get_dataMap_store (s : Flyout) (node : SitemapNode) (url : Option String)
    (u : String) (hu : u ≠ "") (hp : u ≠ "__proto__") :
    (if truthy url then storeIndex s (url.getD "") node else s).dataMap.get u
      = (if url = some u then some node else none).or (s.dataMap.get u) := by
  cases url with
  | none => simp [truthy]
  | some w =>
    by_cases hw : w = u
    · subst hw
      simp [truthy, hu, get_dataMap_storeIndex, hp]
    · by_cases he : w = ""
      · simp [truthy, he, hw, Ne.symm hu]
      · simp [truthy, he, hw, get_dataMap_storeIndex]

/-- Storing the root leaves the index as it is. -/
theorem dataMap_store_root (s : Flyout) (depth : Depth) (node : SitemapNode) :
    (if depth = 0 then { s with data := some node } else s).dataMap = s.dataMap := by
  split <;> rfl

/-- The last node with the url `u` of a list with one more node in front. -/
theorem getLast?_withUrl_cons (u : String) (n : SitemapNode) (rest : List SitemapNode) :
    (withUrl u (n :: rest)).getLast?
      = ((withUrl u rest).getLast?).or (if n.url = some u then some n else none) := by
  unfold withUrl
  by_cases h : n.url = some u
  · rw [List.filter_cons_of_pos (by simp [h]), List.getLast?_cons, if_pos h]
    cases (List.filter (fun n => n.url == some u) rest).getLast? <;> rfl
  · rw [List.filter_cons_of_neg (by simp [h]), if_neg h]
    cases (List.filter (fun n => n.url == some u) rest).getLast? <;> rfl

/-- The last node with the url `u` of two lists, one after the other. -/
theorem getLast?_withUrl_append (u : String) (xs ys : List SitemapNode) :
    (withUrl u (xs ++ ys)).getLast? = ((withUrl u ys).getLast?).or ((withUrl u xs).getLast?) := by
  unfold withUrl
  rw [List.filter_append, List.getLast?_append]

theorem option_or_assoc {α : Type} (a b c : Option α) : (a.or b).or c = a.or (b.or c) := by
  cases a <;> rfl

mutual
/-- The index entry of a url that is neither empty nor `__proto__` after
`load`: the last node of the tree that carries it, else the entry before. -/
theorem get_dataMap_load (s : Flyout) (T : SitemapNode) (depth : Depth) (u : String)
    (hu : u ≠ "") (hp : u ≠ "__proto__") :
    (load s T depth).dataMap.get u = ((withUrl u (preorder T)).getLast?).or (s.dataMap.get u) := by
  match T with
  | .mk url title children className icon attributes =>
    cases children with
    | none =>
      rw [load, preorder, get_dataMap_store _ _ url u hu hp, dataMap_store_root,
        getLast?_withUrl_cons]
      rfl
    | some cs =>
      rw [load, preorder, get_dataMap_loadChildren _ cs depth.orZero u hu hp,
        get_dataMap_store _ _ url u hu hp, dataMap_store_root, getLast?_withUrl_cons,
        option_or_assoc]
      rfl
theorem get_dataMap_loadChildren (s : Flyout) (cs : List SitemapNode) (depth : Depth)
    (u : String) (hu : u ≠ "") (hp : u ≠ "__proto__") :
    (loadChildren s cs depth).dataMap.get u
      = ((withUrl u (preorderAll cs)).getLast?).or (s.dataMap.get u) := by
  match cs with
  | [] => rw [loadChildren, preorderAll]; rfl
  | c :: rest =>
    rw [loadChildren, preorderAll,
      get_dataMap_loadChildren (load s c depth.succ) rest depth u hu hp,
      get_dataMap_load s c depth.succ u hu hp, getLast?_withUrl_append, option_or_assoc]
end

/-- Counterexample to C1 as stated: the tree has a node that carries the url
`""` and a node that carries the url `__proto__`; after `load` the index has
no entry under either url and neither is a key.  The first node fails the test
`if (data.url)`; the second is made the prototype of the index by the
assignment `dataMap['__proto__'] = data`. -/
theorem load_skips_empty_and_proto_url :
    (SitemapNode.mk (some "") "Empty" none none none none ∈ preorder unindexedTree ∧
        (load (Flyout.init {}) unindexedTree 0).dataMap.get "" = none ∧
        (load (Flyout.init {}) unindexedTree 0).dataMap.keys.count "" = 0) ∧
      (SitemapNode.mk (some "__proto__") "Proto" none none none none ∈ preorder unindexedTree ∧
        (load (Flyout.init {}) unindexedTree 0).dataMap.get "__proto__" = none ∧
        (load (Flyout.init {}) unindexedTree 0).dataMap.keys.count "__proto__" = 0 ∧
        (load (Flyout.init {}) unindexedTree 0).dataMapProto
          = some (.mk (some "__proto__") "Proto" none none none none)) ∧
      (load (Flyout.init {}) unindexedTree 0).dataMap.keys = ["/a"] := by
  refine ⟨⟨?_, rfl, rfl⟩, ⟨?_, rfl, rfl, rfl⟩, rfl⟩ <;>
    simp [unindexedTree, preorder, preorderAll]

/-- C1, amended. After `load(T)`, called with any depth (a number, or the
string `$.getJSON` passes), for every node of the tree `T` that carries a url
other than the empty string and `__proto__`,
the index `dataMap` has an entry under that url; the entry is the last node of
`T`, in depth-first pre-order with children in array order, that carries the
url; and the url is a key of the index exactly once. -/
theorem load_indexes_last_node (s : Flyout) (T n : SitemapNode) (u : String) (depth : Depth)
    (hn : n ∈ preorder T) (hu : n.url = some u) (hne : u ≠ "") (hp : u ≠ "__proto__") :
    ∃ m, lastWithUrl T u = some m ∧ m ∈ preorder T ∧ m.url = some u ∧
      (load s T depth).dataMap.get u = some m ∧
      (load s T depth).dataMap.keys.count u = 1 := by
  have hmem : n ∈ withUrl u (preorder T) := by
    unfold withUrl
    exact List.mem_filter.mpr ⟨hn, by simp [hu]⟩
  have hlast : ∃ m, (withUrl u (preorder T)).getLast? = some m := by
    cases h : (withUrl u (preorder T)).getLast? with
    | none =>
      rw [List.getLast?_eq_none_iff] at h
      rw [h] at hmem
      exact absurd hmem (List.not_mem_nil n)
    | some m => exact ⟨m, rfl⟩
  obtain ⟨m, hm⟩ := hlast
  have hm2 : m ∈ withUrl u (preorder T) := List.mem_of_getLast?_eq_some hm
  have hget : (load s T depth).dataMap.get u = some m := by
    rw [get_dataMap_load s T depth u hne hp, hm]
    rfl
  refine ⟨m, hm, (List.mem_filter.mp hm2).1, ?_, hget, JsObject.count_keys_of_get _ u m hget⟩
  have := (List.mem_filter.mp hm2).2
  simpa using this

/-- C1, amended, at a tree in which a url occurs twice. -/
theorem load_indexes_last_node_witness :
    ∃ m, lastWithUrl duplicateTree "/a/1" = some m ∧ m ∈ preorder duplicateTree ∧
      m.url = some "/a/1" ∧
      (load (Flyout.init {}) duplicateTree 0).dataMap.get "/a/1" = some m ∧
      (load (Flyout.init {}) duplicateTree 0).dataMap.keys.count "/a/1" = 1 :=
  load_indexes_last_node (Flyout.init {}) duplicateTree
    (.mk (some "/a/1") "One" none none none none) "/a/1" 0
    (by simp [duplicateTree, preorder, preorderAll]) rfl (by decide) (by decide)

theorem load_duplicate_last_wins :
    ((load (Flyout.init {}) duplicateTree 0).dataMap.get "/a/1").map SitemapNode.title
      = some "Other" := by
  decide

/-- The depth `load` passes on to the children is never 0. -/
theorem Depth.orZero_succ_ne_zero (depth : Depth) : depth.succ.orZero ≠ 0 := by
  cases depth with
  | num n =>
    show Depth.num (n + 1) ≠ Depth.num 0
    intro h
    exact Nat.succ_ne_zero n (Depth.num.inj h)
  | text t =>
    show (if t ++ "1" = "" then Depth.num 0 else Depth.text (t ++ "1")) ≠ Depth.num 0
    have hne : t ++ "1" ≠ "" := by
      intro h
      have := congrArg String.length h
      simp at this
      exact absurd this.2 (by decide)
    rw [if_neg hne]
    intro h
    cases h

/-- The assignment to the index leaves `this.data` as it is. -/
theorem data_storeIndex (s : Flyout) (key : String) (node : SitemapNode) :
    (storeIndex s key node).data = s.data := (storeIndex_frame s key node).2.2.2.2.2.2.2.2.2

mutual
/-- A call of `load` with a depth that is not 0 leaves `this.data` as it is. -/
theorem data_load (s : Flyout) (T : SitemapNode) (depth : Depth) (h : depth.orZero ≠ 0) :
    (load s T depth).data = s.data := by
  match T with
  | .mk url title children className icon attributes =>
    cases children with
    | none =>
      rw [load]
      simp only [if_neg h]
      split
      · exact data_storeIndex _ _ _
      · rfl
    | some cs =>
      rw [load]
      simp only [if_neg h]
      rw [data_loadChildren]
      split
      · exact data_storeIndex _ _ _
      · rfl
theorem data_loadChildren (s : Flyout) (cs : List SitemapNode) (depth : Depth) :
    (loadChildren s cs depth).data = s.data := by
  match cs with
  | [] => rw [loadChildren]
  | c :: rest =>
    rw [loadChildren, data_loadChildren, data_load s c depth.succ (Depth.orZero_succ_ne_zero depth)]
end

/-- The call `load(data, 'success', jqXHR)` that `$.getJSON` makes in the
constructor: the test `depth === 0` fails for the string, so `this.data` is
not assigned, and the index is filled as for any depth. -/
theorem load_textStatus (s : Flyout) (T : SitemapNode) :
    (load s T (Depth.text "success")).data = s.data :=
  data_load s T (Depth.text "success") (by decide)

/-! ## Elements: what each jQuery call leaves as it is -/

@[simp] theorem Elem.markup_attr (e : Elem) (name value : String) :
    (e.attr name value).markup = e.markup := by
  cases e; rfl

@[simp] theorem Elem.markup_removeAttr (e : Elem) (name : String) :
    (e.removeAttr name).markup = e.markup := by
  cases e; rfl

@[simp] theorem Elem.markup_setText (e : Elem) (value : String) :
    (e.setText value).markup = e.markup := by
  cases e; rfl

@[simp] theorem Elem.markup_addClass (e : Elem) (name : String) :
    (e.addClass name).markup = e.markup := by
  cases e; rfl

@[simp] theorem Elem.markup_removeClass (e : Elem) (name : String) :
    (e.removeClass name).markup = e.markup := by
  cases e; rfl

@[simp] theorem Elem.markup_css (e : Elem) (name : String) (value : CssValue) :
    (e.css name value).markup = e.markup := by
  cases e; rfl

@[simp] theorem Elem.markup_onEvent (e : Elem) (event : String) (f : Handler) :
    (e.onEvent event f).markup = e.markup := by
  cases e; rfl

@[simp] theorem Elem.markup_append (e : Elem) (child : Elem) :
    (e.append child).markup = e.markup := by
  cases e; rfl

@[simp] theorem Elem.markup_prepend (e : Elem) (child : Elem) :
    (e.prepend child).markup = e.markup := by
  cases e; rfl

@[simp] theorem Elem.markup_aria (e : Elem) (name : String) (value : Bool) :
    (e.aria name value).markup = e.markup := by
  cases e; rfl

@[simp] theorem Elem.markup_conceal (e : Elem) :
    e.conceal.markup = e.markup := by
  cases e; rfl

@[simp] theorem Elem.markup_reveal (e : Elem) :
    e.reveal.markup = e.markup := by
  cases e; rfl

@[simp] theorem Elem.attrs_setText (e : Elem) (value : String) :
    (e.setText value).attrs = e.attrs := by
  cases e; rfl

@[simp] theorem Elem.attrs_addClass (e : Elem) (name : String) :
    (e.addClass name).attrs = e.attrs := by
  cases e; rfl

@[simp] theorem Elem.attrs_removeClass (e : Elem) (name : String) :
    (e.removeClass name).attrs = e.attrs := by
  cases e; rfl

@[simp] theorem Elem.attrs_css (e : Elem) (name : String) (value : CssValue) :
    (e.css name value).attrs = e.attrs := by
  cases e; rfl

@[simp] theorem Elem.attrs_onEvent (e : Elem) (event : String) (f : Handler) :
    (e.onEvent event f).attrs = e.attrs := by
  cases e; rfl

@[simp] theorem Elem.attrs_append (e : Elem) (child : Elem) :
    (e.append child).attrs = e.attrs := by
  cases e; rfl

@[simp] theorem Elem.attrs_prepend (e : Elem) (child : Elem) :
    (e.prepend child).attrs = e.attrs := by
  cases e; rfl

@[simp] theorem Elem.attrs_conceal (e : Elem) :
    e.conceal.attrs = e.attrs := by
  cases e; rfl

@[simp] theorem Elem.attrs_reveal (e : Elem) :
    e.reveal.attrs = e.attrs := by
  cases e; rfl

@[simp] theorem Elem.classes_attr (e : Elem) (name value : String) :
    (e.attr name value).classes = e.classes := by
  cases e; rfl

@[simp] theorem Elem.classes_removeAttr (e : Elem) (name : String) :
    (e.removeAttr name).classes = e.classes := by
  cases e; rfl

@[simp] theorem Elem.classes_setText (e : Elem) (value : String) :
    (e.setText value).classes = e.classes := by
  cases e; rfl

@[simp] theorem Elem.classes_css (e : Elem) (name : String) (value : CssValue) :
    (e.css name value).classes = e.classes := by
  cases e; rfl

@[simp] theorem Elem.classes_onEvent (e : Elem) (event : String) (f : Handler) :
    (e.onEvent event f).classes = e.classes := by
  cases e; rfl

@[simp] theorem Elem.classes_append (e : Elem) (child : Elem) :
    (e.append child).classes = e.classes := by
  cases e; rfl

@[simp] theorem Elem.classes_prepend (e : Elem) (child : Elem) :
    (e.prepend child).classes = e.classes := by
  cases e; rfl

@[simp] theorem Elem.classes_aria (e : Elem) (name : String) (value : Bool) :
    (e.aria name value).classes = e.classes := by
  cases e; rfl

@[simp] theorem Elem.classes_conceal (e : Elem) :
    e.conceal.classes = e.classes := by
  cases e; rfl

@[simp] theorem Elem.classes_reveal (e : Elem) :
    e.reveal.classes = e.classes := by
  cases e; rfl

@[simp] theorem Elem.text_attr (e : Elem) (name value : String) :
    (e.attr name value).text = e.text := by
  cases e; rfl

@[simp] theorem Elem.text_removeAttr (e : Elem) (name : String) :
    (e.removeAttr name).text = e.text := by
  cases e; rfl

@[simp] theorem Elem.text_addClass (e : Elem) (name : String) :
    (e.addClass name).text = e.text := by
  cases e; rfl

@[simp] theorem Elem.text_removeClass (e : Elem) (name : String) :
    (e.removeClass name).text = e.text := by
  cases e; rfl

@[simp] theorem Elem.text_css (e : Elem) (name : String) (value : CssValue) :
    (e.css name value).text = e.text := by
  cases e; rfl

@[simp] theorem Elem.text_onEvent (e : Elem) (event : String) (f : Handler) :
    (e.onEvent event f).text = e.text := by
  cases e; rfl

@[simp] theorem Elem.text_append (e : Elem) (child : Elem) :
    (e.append child).text = e.text := by
  cases e; rfl

@[simp] theorem Elem.text_prepend (e : Elem) (child : Elem) :
    (e.prepend child).text = e.text := by
  cases e; rfl

@[simp] theorem Elem.text_aria (e : Elem) (name : String) (value : Bool) :
    (e.aria name value).text = e.text := by
  cases e; rfl

@[simp] theorem Elem.text_conceal (e : Elem) :
    e.conceal.text = e.text := by
  cases e; rfl

@[simp] theorem Elem.text_reveal (e : Elem) :
    e.reveal.text = e.text := by
  cases e; rfl

@[simp] theorem Elem.style_attr (e : Elem) (name value : String) :
    (e.attr name value).style = e.style := by
  cases e; rfl

@[simp] theorem Elem.style_setText (e : Elem) (value : String) :
    (e.setText value).style = e.style := by
  cases e; rfl

@[simp] theorem Elem.style_addClass (e : Elem) (name : String) :
    (e.addClass name).style = e.style := by
  cases e; rfl

@[simp] theorem Elem.style_removeClass (e : Elem) (name : String) :
    (e.removeClass name).style = e.style := by
  cases e; rfl

@[simp] theorem Elem.style_onEvent (e : Elem) (event : String) (f : Handler) :
    (e.onEvent event f).style = e.style := by
  cases e; rfl

@[simp] theorem Elem.style_append (e : Elem) (child : Elem) :
    (e.append child).style = e.style := by
  cases e; rfl

@[simp] theorem Elem.style_prepend (e : Elem) (child : Elem) :
    (e.prepend child).style = e.style := by
  cases e; rfl

@[simp] theorem Elem.style_aria (e : Elem) (name : String) (value : Bool) :
    (e.aria name value).style = e.style := by
  cases e; rfl

@[simp] theorem Elem.style_conceal (e : Elem) :
    e.conceal.style = e.style := by
  cases e; rfl

@[simp] theorem Elem.style_reveal (e : Elem) :
    e.reveal.style = e.style := by
  cases e; rfl

@[simp] theorem Elem.shown_attr (e : Elem) (name value : String) :
    (e.attr name value).shown = e.shown := by
  cases e; rfl

@[simp] theorem Elem.shown_removeAttr (e : Elem) (name : String) :
    (e.removeAttr name).shown = e.shown := by
  cases e; rfl

@[simp] theorem Elem.shown_setText (e : Elem) (value : String) :
    (e.setText value).shown = e.shown := by
  cases e; rfl

@[simp] theorem Elem.shown_addClass (e : Elem) (name : String) :
    (e.addClass name).shown = e.shown := by
  cases e; rfl

@[simp] theorem Elem.shown_removeClass (e : Elem) (name : String) :
    (e.removeClass name).shown = e.shown := by
  cases e; rfl

@[simp] theorem Elem.shown_css (e : Elem) (name : String) (value : CssValue) :
    (e.css name value).shown = e.shown := by
  cases e; rfl

@[simp] theorem Elem.shown_onEvent (e : Elem) (event : String) (f : Handler) :
    (e.onEvent event f).shown = e.shown := by
  cases e; rfl

@[simp] theorem Elem.shown_append (e : Elem) (child : Elem) :
    (e.append child).shown = e.shown := by
  cases e; rfl

@[simp] theorem Elem.shown_prepend (e : Elem) (child : Elem) :
    (e.prepend child).shown = e.shown := by
  cases e; rfl

@[simp] theorem Elem.shown_aria (e : Elem) (name : String) (value : Bool) :
    (e.aria name value).shown = e.shown := by
  cases e; rfl

@[simp] theorem Elem.handlers_attr (e : Elem) (name value : String) :
    (e.attr name value).handlers = e.handlers := by
  cases e; rfl

@[simp] theorem Elem.handlers_removeAttr (e : Elem) (name : String) :
    (e.removeAttr name).handlers = e.handlers := by
  cases e; rfl

@[simp] theorem Elem.handlers_setText (e : Elem) (value : String) :
    (e.setText value).handlers = e.handlers := by
  cases e; rfl

@[simp] theorem Elem.handlers_addClass (e : Elem) (name : String) :
    (e.addClass name).handlers = e.handlers := by
  cases e; rfl

@[simp] theorem Elem.handlers_removeClass (e : Elem) (name : String) :
    (e.removeClass name).handlers = e.handlers := by
  cases e; rfl

@[simp] theorem Elem.handlers_css (e : Elem) (name : String) (value : CssValue) :
    (e.css name value).handlers = e.handlers := by
  cases e; rfl

@[simp] theorem Elem.handlers_append (e : Elem) (child : Elem) :
    (e.append child).handlers = e.handlers := by
  cases e; rfl

@[simp] theorem Elem.handlers_prepend (e : Elem) (child : Elem) :
    (e.prepend child).handlers = e.handlers := by
  cases e; rfl

@[simp] theorem Elem.handlers_aria (e : Elem) (name : String) (value : Bool) :
    (e.aria name value).handlers = e.handlers := by
  cases e; rfl

@[simp] theorem Elem.handlers_conceal (e : Elem) :
    e.conceal.handlers = e.handlers := by
  cases e; rfl

@[simp] theorem Elem.handlers_reveal (e : Elem) :
    e.reveal.handlers = e.handlers := by
  cases e; rfl

@[simp] theorem Elem.children_attr (e : Elem) (name value : String) :
    (e.attr name value).children = e.children := by
  cases e; rfl

@[simp] theorem Elem.children_removeAttr (e : Elem) (name : String) :
    (e.removeAttr name).children = e.children := by
  cases e; rfl

@[simp] theorem Elem.children_setText (e : Elem) (value : String) :
    (e.setText value).children = e.children := by
  cases e; rfl

@[simp] theorem Elem.children_addClass (e : Elem) (name : String) :
    (e.addClass name).children = e.children := by
  cases e; rfl

@[simp] theorem Elem.children_removeClass (e : Elem) (name : String) :
    (e.removeClass name).children = e.children := by
  cases e; rfl

@[simp] theorem Elem.children_css (e : Elem) (name : String) (value : CssValue) :
    (e.css name value).children = e.children := by
  cases e; rfl

@[simp] theorem Elem.children_onEvent (e : Elem) (event : String) (f : Handler) :
    (e.onEvent event f).children = e.children := by
  cases e; rfl

@[simp] theorem Elem.children_aria (e : Elem) (name : String) (value : Bool) :
    (e.aria name value).children = e.children := by
  cases e; rfl

@[simp] theorem Elem.children_conceal (e : Elem) :
    e.conceal.children = e.children := by
  cases e; rfl

@[simp] theorem Elem.children_reveal (e : Elem) :
    e.reveal.children = e.children := by
  cases e; rfl

@[simp] theorem Elem.children_append_eq (e child : Elem) :
    (e.append child).children = e.children ++ [child] := by
  cases e; rfl

@[simp] theorem Elem.children_prepend_eq (e child : Elem) :
    (e.prepend child).children = child :: e.children := by
  cases e; rfl

@[simp] theorem Elem.shown_conceal_eq (e : Elem) : e.conceal.shown = false := by
  cases e; rfl

@[simp] theorem Elem.shown_reveal_eq (e : Elem) : e.reveal.shown = true := by
  cases e; rfl

@[simp] theorem Elem.children_create (m : String) : (Elem.create m).children = [] := rfl

@[simp] theorem Elem.markup_create (m : String) : (Elem.create m).markup = m := rfl

/-! ## Building a menu -/

/-- The method `_buildMenu` in terms of its parts. -/
theorem _buildMenu_eq (opts : Options) (parent : Parent) (data : SitemapNode) :
    _buildMenu opts parent data =
      match data.children with
      | none => (none, parent)
      | some children =>
        if children.length = 0 then (none, parent)
        else finishMenu opts parent
          ((computeGroups children opts.itemLimit).foldl
            (fun menu group => menu.append (buildList opts group)) (menuShell opts parent)) := by
  rw [_buildMenu]
  split
  · rename_i h
    rw [h]
  · rename_i children h
    rw [h]
    simp only []
    split
    · rfl
    · have hin : ∀ group : { g // g ∈ computeGroups children opts.itemLimit },
          List.foldl (fun ul (child : { c // c ∈ group.1 }) =>
            ul.append (finishItem opts child.1)) (Elem.create "<ul/>") group.1.attach
            = buildList opts group.1 :=
        fun group => List.foldl_attach group.1
          (fun ul child => ul.append (finishItem opts child)) (Elem.create "<ul/>")
      have hout := List.foldl_attach (computeGroups children opts.itemLimit)
        (fun menu group => menu.append (buildList opts group)) (menuShell opts parent)
      unfold finishMenu
      simp only []
      rw [← hout]
      simp only [← hin]
      rfl

/-! ## Grouping -/

/-- The loop appends to the groups it is given the slices of the children
from `i` on: their concatenation is the children from `i` on. -/
theorem flatten_sliceLoop {α : Type} (children : List α) (limit : Nat) (hl : 0 < limit)
    (i : Nat) (groups : List (List α)) :
    (sliceLoop children limit hl i groups).flatten = groups.flatten ++ children.drop i := by
  induction i, groups using sliceLoop.induct children limit hl with
  | case1 i groups hi ih =>
    rw [sliceLoop, if_pos hi, ih, List.flatten_append, List.flatten_singleton, List.append_assoc]
    congr 1
    unfold slice
    rw [Nat.add_sub_cancel_left, ← List.drop_drop, List.take_append_drop]
  | case2 i groups hi =>
    rw [sliceLoop, if_neg hi, List.drop_eq_nil_of_le (Nat.le_of_not_lt hi), List.append_nil]

/-- A property of the groups given to the loop, and of every slice of `limit`
places that starts inside the children, holds of every group of the loop. -/
theorem forall_sliceLoop {α : Type} (children : List α) (limit : Nat) (hl : 0 < limit)
    (P : List α → Prop)
    (hP : ∀ i, i < children.length → P (slice children i (i + limit)))
    (i : Nat) (groups : List (List α)) (hg : ∀ g ∈ groups, P g) :
    ∀ g ∈ sliceLoop children limit hl i groups, P g := by
  induction i, groups using sliceLoop.induct children limit hl with
  | case1 i groups hi ih =>
    rw [sliceLoop, if_pos hi]
    apply ih
    intro g hmem
    rcases List.mem_append.mp hmem with h1 | h1
    · exact hg g h1
    · rw [List.mem_singleton] at h1
      subst h1
      exact hP i hi
  | case2 i groups hi =>
    rw [sliceLoop, if_neg hi]
    exact hg

/-- A slice of `limit` places that starts inside the list has at most `limit`
items and is not empty. -/
theorem slice_bounds {α : Type} (xs : List α) (limit : Nat) (hl : 0 < limit) (i : Nat)
    (hi : i < xs.length) :
    (slice xs i (i + limit)).length ≤ limit ∧ slice xs i (i + limit) ≠ [] := by
  have hlen : (slice xs i (i + limit)).length = min limit (xs.length - i) := by
    unfold slice
    rw [List.length_take, List.length_drop, Nat.add_sub_cancel_left]
  refine ⟨by omega, ?_⟩
  intro hnil
  rw [hnil] at hlen
  simp only [List.length_nil] at hlen
  omega

/-- The number of groups of the loop. -/
theorem length_sliceLoop {α : Type} (children : List α) (limit : Nat) (hl : 0 < limit)
    (i : Nat) (groups : List (List α)) :
    (sliceLoop children limit hl i groups).length
      = groups.length + (children.length - i + limit - 1) / limit := by
  induction i, groups using sliceLoop.induct children limit hl with
  | case1 i groups hi ih =>
    rw [sliceLoop, if_pos hi, ih, List.length_append, List.length_singleton]
    by_cases hc : i + limit ≤ children.length
    · have h1 : children.length - i + limit - 1
          = (children.length - (i + limit) + limit - 1) + limit := by omega
      rw [h1, Nat.add_div_right _ hl]
      omega
    · have h1 : children.length - (i + limit) + limit - 1 = limit - 1 := by omega
      have h2 : children.length - i + limit - 1 = (children.length - i - 1) + limit := by omega
      rw [h1, h2, Nat.add_div_right _ hl, Nat.div_eq_of_lt (by omega),
        Nat.div_eq_of_lt (by omega)]
  | case2 i groups hi =>
    rw [sliceLoop, if_neg hi]
    have h1 : children.length - i + limit - 1 = limit - 1 := by omega
    rw [h1, Nat.div_eq_of_lt (by omega)]
    rfl

/-- The number of groups, for a positive limit: the children over the limit,
rounded up. -/
theorem length_computeGroups {α : Type} (children : List α) (limit : Nat) (hl : 0 < limit)
    (hne : children ≠ []) :
    (computeGroups children limit).length = (children.length + limit - 1) / limit := by
  have hlen : 0 < children.length := List.length_pos.mpr hne
  unfold computeGroups
  split
  · rw [length_sliceLoop]
    simp
  · rename_i h
    have h2 : children.length ≤ limit := by
      by_contra hc
      exact h ⟨Nat.pos_iff_ne_zero.mp hl, by omega⟩
    have h3 : (children.length + limit - 1) / limit = 1 := by
      have h4 : children.length + limit - 1 = (children.length - 1) + limit := by omega
      rw [h4, Nat.add_div_right _ hl, Nat.div_eq_of_lt (by omega)]
    rw [h3]
    rfl

/-- Rounding up the quotient of two natural numbers. -/
theorem ceil_div_eq (n limit : Nat) (hl : 0 < limit) :
    ⌈(n : ℚ) / (limit : ℚ)⌉₊ = (n + limit - 1) / limit := by
  have hq : (0 : ℚ) < (limit : ℚ) := by exact_mod_cast hl
  apply le_antisymm
  · rw [Nat.ceil_le, div_le_iff₀ hq]
    have h1 : n ≤ (n + limit - 1) / limit * limit := by
      have := Nat.div_add_mod (n + limit - 1) limit
      have hm := Nat.mod_lt (n + limit - 1) hl
      rw [Nat.mul_comm] at this
      omega
    exact_mod_cast h1
  · have h2 : (n + limit - 1) / limit * limit ≤ n + limit - 1 := Nat.div_mul_le_self _ _
    by_cases hn : n = 0
    · subst hn
      rw [Nat.zero_add, Nat.div_eq_of_lt (by omega)]
      exact Nat.zero_le _
    · have h3 : (n + limit - 1) / limit - 1 < ⌈(n : ℚ) / (limit : ℚ)⌉₊ := by
        rw [Nat.lt_ceil, lt_div_iff₀ hq]
        have h4 : ((n + limit - 1) / limit - 1) * limit < n := by
          rw [Nat.sub_mul, Nat.one_mul]
          omega
        exact_mod_cast h4
      omega

/-- C3. For children that are not empty and a positive item limit, the groups
of `_buildMenu` are contiguous slices of the children that, one after the
other in group order, give back the children (nothing dropped, duplicated or
reordered); every group has at most `itemLimit` items and none is empty. -/
theorem computeGroups_partition {α : Type} (children : List α) (limit : Nat)
    (hne : children ≠ []) (hl : 0 < limit) :
    (computeGroups children limit).flatten = children ∧
      (∀ g ∈ computeGroups children limit, ∃ a b, g = slice children a b) ∧
      (∀ g ∈ computeGroups children limit, g.length ≤ limit) ∧
      (∀ g ∈ computeGroups children limit, g ≠ []) := by
  have hP : ∀ g ∈ computeGroups children limit,
      (∃ a b, g = slice children a b) ∧ g.length ≤ limit ∧ g ≠ [] := by
    unfold computeGroups
    split
    · exact forall_sliceLoop children limit _
        (fun g => (∃ a b, g = slice children a b) ∧ g.length ≤ limit ∧ g ≠ [])
        (fun i hi => ⟨⟨i, i + limit, rfl⟩, slice_bounds children limit hl i hi⟩) 0 [] (by simp)
    · rename_i h
      intro g hg
      rw [List.mem_singleton] at hg
      subst hg
      refine ⟨⟨0, g.length, by simp [slice]⟩, ?_, hne⟩
      by_contra hc
      exact h ⟨Nat.pos_iff_ne_zero.mp hl, by omega⟩
  refine ⟨?_, fun g hg => (hP g hg).1, fun g hg => (hP g hg).2.1, fun g hg => (hP g hg).2.2⟩
  unfold computeGroups
  split
  · rw [flatten_sliceLoop]
    rfl
  · simp

/-- C3 at five children and a limit of two. -/
theorem computeGroups_partition_witness :
    (computeGroups [1, 2, 3, 4, 5] 2).flatten = [1, 2, 3, 4, 5] ∧
      (∀ g ∈ computeGroups [1, 2, 3, 4, 5] 2, ∃ a b, g = slice [1, 2, 3, 4, 5] a b) ∧
      (∀ g ∈ computeGroups [1, 2, 3, 4, 5] 2, g.length ≤ 2) ∧
      (∀ g ∈ computeGroups [1, 2, 3, 4, 5] 2, g ≠ []) :=
  computeGroups_partition [1, 2, 3, 4, 5] 2 (by simp) (by decide)

/-- The lists appended to a menu come after the children it had. -/
theorem children_foldl_append {α : Type} (f : α → Elem) (xs : List α) (e : Elem) :
    (xs.foldl (fun acc x => acc.append (f x)) e).children = e.children ++ xs.map f := by
  induction xs generalizing e with
  | nil => simp
  | cons x rest ih => simp [ih]

/-- Appending children leaves the markup of an element as it is. -/
theorem markup_foldl_append {α : Type} (f : α → Elem) (xs : List α) (e : Elem) :
    (xs.foldl (fun acc x => acc.append (f x)) e).markup = e.markup := by
  induction xs generalizing e with
  | nil => simp
  | cons x rest ih => simp [ih]

@[simp] theorem children_menuShell (opts : Options) (parent : Parent) :
    (menuShell opts parent).children = [] := by
  unfold menuShell
  simp only []
  split <;> split <;> simp

@[simp] theorem children_buildList (opts : Options) (group : List SitemapNode) :
    (buildList opts group).children = group.map (finishItem opts) := by
  unfold buildList
  rw [children_foldl_append]
  simp

@[simp] theorem markup_buildList (opts : Options) (group : List SitemapNode) :
    (buildList opts group).markup = "<ul/>" := by
  unfold buildList
  rw [markup_foldl_append]
  simp

/-- The menu `finishMenu` returns has the children of the menu it is given. -/
theorem children_finishMenu (opts : Options) (parent : Parent) (menu : Elem) :
    ∃ m, (finishMenu opts parent menu).1 = some m ∧ m.children = menu.children := by
  unfold finishMenu
  simp only []
  split
  · exact ⟨_, rfl, by simp⟩
  · exact ⟨_, rfl, by simp⟩

/-- The menu `_buildMenu` returns for children that are not empty: its
children are the lists built for the groups, in group order. -/
theorem children_buildMenu (opts : Options) (parent : Parent) (data : SitemapNode)
    (cs : List SitemapNode) (hcs : data.children = some cs) (hne : cs.length ≠ 0) :
    ∃ m, (_buildMenu opts parent data).1 = some m ∧
      m.children = (computeGroups cs opts.itemLimit).map (buildList opts) := by
  rw [_buildMenu_eq, hcs]
  simp only [hne, if_false]
  obtain ⟨m, hm, hch⟩ := children_finishMenu opts parent
    ((computeGroups cs opts.itemLimit).foldl
      (fun menu group => menu.append (buildList opts group)) (menuShell opts parent))
  refine ⟨m, hm, ?_⟩
  rw [hch, children_foldl_append]
  simp

/-- The method `_buildMenu` returns null exactly when there are no children. -/
theorem buildMenu_eq_none_iff (opts : Options) (parent : Parent) (data : SitemapNode) :
    (_buildMenu opts parent data).1 = none ↔
      (data.children = none ∨ ∃ cs, data.children = some cs ∧ cs.length = 0) := by
  cases hcs : data.children with
  | none =>
    rw [_buildMenu_eq, hcs]
    simp
  | some cs =>
    by_cases hne : cs.length = 0
    · rw [_buildMenu_eq, hcs]
      simp only [hne, if_true]
      exact ⟨fun _ => Or.inr ⟨cs, rfl, hne⟩, fun _ => trivial⟩
    · obtain ⟨m, hm, _⟩ := children_buildMenu opts parent data cs hcs hne
      rw [hm]
      constructor
      · intro h
        exact absurd h (by simp)
      · rintro (h | ⟨cs2, h1, h2⟩)
        · exact absurd h (by simp)
        · rw [Option.some.injEq] at h1
          subst h1
          exact absurd h2 hne

/-- C2. The method `_buildMenu(parent, node)` returns null if and only if
`node.children` is absent or has length 0; otherwise, for every item limit
greater than 0, it returns a menu whose direct children are exactly
`ceil(len(node.children) / itemLimit)` group containers (`ul` elements). -/
theorem buildMenu_null_iff_and_group_count (opts : Options) (parent : Parent)
    (data : SitemapNode) :
    ((_buildMenu opts parent data).1 = none ↔
      (data.children = none ∨ ∃ cs, data.children = some cs ∧ cs.length = 0)) ∧
    (∀ cs, data.children = some cs → cs.length ≠ 0 → 0 < opts.itemLimit →
      ∃ menu, (_buildMenu opts parent data).1 = some menu ∧
        (groupContainers menu).length = ⌈(cs.length : ℚ) / (opts.itemLimit : ℚ)⌉₊ ∧
        menu.children.length = ⌈(cs.length : ℚ) / (opts.itemLimit : ℚ)⌉₊) := by
  refine ⟨buildMenu_eq_none_iff opts parent data, ?_⟩
  intro cs hcs hne hl
  obtain ⟨m, hm, hch⟩ := children_buildMenu opts parent data cs hcs hne
  have hnil : cs ≠ [] := fun h => hne (by rw [h]; rfl)
  refine ⟨m, hm, ?_, ?_⟩
  · unfold groupContainers
    rw [hch, ceil_div_eq _ _ hl, ← length_computeGroups cs opts.itemLimit hl hnil,
      List.filter_eq_self.mpr, List.length_map]
    intro e he
    obtain ⟨g, _, hg⟩ := List.mem_map.mp he
    rw [← hg]
    simp
  · rw [hch, ceil_div_eq _ _ hl, ← length_computeGroups cs opts.itemLimit hl hnil,
      List.length_map]

/-- C2 at a node with five children and a limit of two: three lists. -/
theorem buildMenu_group_count_witness :
    ∃ menu, (_buildMenu { itemLimit := 2 } Parent.body fiveChildren).1 = some menu ∧
      (groupContainers menu).length = ⌈((5 : Nat) : ℚ) / ((2 : Nat) : ℚ)⌉₊ ∧
      menu.children.length = ⌈((5 : Nat) : ℚ) / ((2 : Nat) : ℚ)⌉₊ :=
  (buildMenu_null_iff_and_group_count { itemLimit := 2 } Parent.body fiveChildren).2
    _ rfl (by decide) (by decide)

/-! ## Timers -/

theorem getEntries_filter_self {α : Type} (es : List (String × α)) (k : String) :
    getEntries (es.filter (fun e => e.1 ≠ k)) k = none := by
  induction es with
  | nil => rfl
  | cons e rest ih =>
    obtain ⟨k', v'⟩ := e
    by_cases hk : k' = k
    · simpa [List.filter_cons, hk] using ih
    · simpa [List.filter_cons, hk, getEntries] using ih

theorem getEntries_filter_of_ne {α : Type} (es : List (String × α)) (k j : String)
    (h : j ≠ k) : getEntries (es.filter (fun e => e.1 ≠ k)) j = getEntries es j := by
  induction es with
  | nil => rfl
  | cons e rest ih =>
    obtain ⟨k', v'⟩ := e
    by_cases hk : k' = k
    · subst hk
      simpa [List.filter_cons, getEntries, Ne.symm h] using ih
    · by_cases hj : k' = j
      · subst hj
        simp [List.filter_cons, hk, getEntries]
      · simpa [List.filter_cons, hk, hj, getEntries] using ih

theorem JsObject.get_erase_self {α : Type} (o : JsObject α) (k : String) :
    (o.erase k).get k = none :=
  getEntries_filter_self o.entries k

theorem JsObject.get_erase_of_ne {α : Type} (o : JsObject α) (k j : String) (h : j ≠ k) :
    (o.erase k).get j = o.get j :=
  getEntries_filter_of_ne o.entries k j h

/-- What `clearTimer` leaves: the other timeouts, the other stored ids. -/
theorem timeouts_clearTimer (s : Flyout) (key : String) :
    (clearTimer s key).timeouts
      = s.timeouts.filter (fun t => s.timers.get key ≠ some t.id) := by
  unfold clearTimer clearTimeout
  cases h : s.timers.get key with
  | none => simp
  | some id =>
    simp only []
    apply List.filter_congr
    intro t _
    by_cases ht : t.id = id
    · simp [ht]
    · simp [ht, Ne.symm ht]

theorem timers_clearTimer (s : Flyout) (key : String) :
    (clearTimer s key).timers = s.timers.erase key := by
  unfold clearTimer clearTimeout
  cases s.timers.get key <;> rfl

theorem nextTimeout_clearTimer (s : Flyout) (key : String) :
    (clearTimer s key).nextTimeout = s.nextTimeout := by
  unfold clearTimer clearTimeout
  cases s.timers.get key <;> rfl

theorem timeouts_startTimer (s : Flyout) (key : String) (delay : Nat) :
    (startTimer s key delay).timeouts
      = s.timeouts.filter (fun t => s.timers.get key ≠ some t.id)
        ++ [{ id := s.nextTimeout, key := key, func := timerFunc key, delay := delay }] := by
  unfold startTimer setTimeout
  simp only []
  rw [timeouts_clearTimer, nextTimeout_clearTimer]
  rfl

theorem timers_startTimer (s : Flyout) (key : String) (delay : Nat) :
    (startTimer s key delay).timers = (s.timers.erase key).set key s.nextTimeout := by
  unfold startTimer setTimeout
  simp only []
  rw [timers_clearTimer, nextTimeout_clearTimer]

theorem nextTimeout_startTimer (s : Flyout) (key : String) (delay : Nat) :
    (startTimer s key delay).nextTimeout = s.nextTimeout + 1 := by
  unfold startTimer setTimeout
  simp only []
  rw [nextTimeout_clearTimer]
/-! ## What each method leaves as it is -/

theorem hide_frame (s : Flyout) :
    (hide s).timers = s.timers ∧ (hide s).timeouts = s.timeouts ∧
      (hide s).nextTimeout = s.nextTimeout ∧ (hide s).dataMap = s.dataMap ∧
      (hide s).data = s.data ∧ (hide s).options = s.options := by
  unfold hide isVisible fireEvent
  simp only []
  repeat' split
  all_goals simp

theorem position_frame (r : PositionReadings) (s : Flyout) :
    (position r s).state.timers = s.timers ∧ (position r s).state.timeouts = s.timeouts ∧
      (position r s).state.nextTimeout = s.nextTimeout ∧
      (position r s).state.dataMap = s.dataMap ∧ (position r s).state.data = s.data ∧
      (position r s).state.options = s.options ∧ (position r s).state.current = s.current ∧
      (position r s).state.element = s.element ∧ (position r s).state.node = s.node := by
  unfold position fireEvent
  simp only []
  repeat' split
  all_goals simp [Outcome.state]

theorem getMenu_frame (s : Flyout) :
    (_getMenu s).2.timers = s.timers ∧ (_getMenu s).2.timeouts = s.timeouts ∧
      (_getMenu s).2.nextTimeout = s.nextTimeout ∧ (_getMenu s).2.dataMap = s.dataMap ∧
      (_getMenu s).2.data = s.data ∧ (_getMenu s).2.options = s.options ∧
      (_getMenu s).2.element = s.element ∧ (_getMenu s).2.node = s.node ∧
      (_getMenu s).2.events = s.events := by
  unfold _getMenu
  simp only []
  repeat' split
  all_goals simp

/-- The two assignments at the head of `load` leave everything but the data,
the index and its prototype as it is. -/
theorem loadHead_frame (s : Flyout) (depth : Depth) (url : Option String) (node : SitemapNode) :
    let s' := if truthy url then
        storeIndex (if depth = 0 then { s with data := some node } else s) (url.getD "") node
      else (if depth = 0 then { s with data := some node } else s)
    s'.timers = s.timers ∧ s'.timeouts = s.timeouts ∧ s'.nextTimeout = s.nextTimeout ∧
      s'.menus = s.menus ∧ s'.current = s.current ∧ s'.element = s.element ∧
      s'.node = s.node ∧ s'.options = s.options ∧ s'.events = s.events := by
  intro s'
  have h0 : ∀ t : Flyout, t = (if depth = 0 then { s with data := some node } else s) →
      t.timers = s.timers ∧ t.timeouts = s.timeouts ∧ t.nextTimeout = s.nextTimeout ∧
      t.menus = s.menus ∧ t.current = s.current ∧ t.element = s.element ∧
      t.node = s.node ∧ t.options = s.options ∧ t.events = s.events := by
    intro t ht
    rw [ht]
    split <;> simp
  obtain ⟨a1, a2, a3, a4, a5, a6, a7, a8, a9⟩ := h0 _ rfl
  by_cases hu : truthy url = true
  · have hs' : s' = storeIndex (if depth = 0 then { s with data := some node } else s)
        (url.getD "") node := if_pos hu
    obtain ⟨b1, b2, b3, b4, b5, b6, b7, b8, b9, _⟩ := storeIndex_frame
      (if depth = 0 then { s with data := some node } else s) (url.getD "") node
    rw [hs', b1, b2, b3, b4, b5, b6, b7, b8, b9]
    exact ⟨a1, a2, a3, a4, a5, a6, a7, a8, a9⟩
  · have hs' : s' = (if depth = 0 then { s with data := some node } else s) := if_neg hu
    rw [hs']
    exact ⟨a1, a2, a3, a4, a5, a6, a7, a8, a9⟩

mutual
theorem load_frame (s : Flyout) (T : SitemapNode) (depth : Depth) :
    (load s T depth).timers = s.timers ∧ (load s T depth).timeouts = s.timeouts ∧
      (load s T depth).nextTimeout = s.nextTimeout ∧ (load s T depth).menus = s.menus ∧
      (load s T depth).current = s.current ∧ (load s T depth).element = s.element ∧
      (load s T depth).node = s.node ∧ (load s T depth).options = s.options ∧
      (load s T depth).events = s.events := by
  match T with
  | .mk url title children className icon attributes =>
    cases children with
    | none =>
      rw [load]
      exact loadHead_frame s depth.orZero url
        (SitemapNode.mk url title none className icon attributes)
    | some cs =>
      rw [load]
      have h := loadChildren_frame
        (if truthy url then
          storeIndex (if depth.orZero = 0 then
              { s with data := some (SitemapNode.mk url title (some cs) className icon attributes) }
             else s) (url.getD "")
              (SitemapNode.mk url title (some cs) className icon attributes)
         else
          (if depth.orZero = 0 then
              { s with data := some (SitemapNode.mk url title (some cs) className icon attributes) }
             else s)) cs depth.orZero
      have g := loadHead_frame s depth.orZero url
        (SitemapNode.mk url title (some cs) className icon attributes)
      simp only [] at h g ⊢
      obtain ⟨h1, h2, h3, h4, h5, h6, h7, h8, h9⟩ := h
      obtain ⟨g1, g2, g3, g4, g5, g6, g7, g8, g9⟩ := g
      rw [h1, h2, h3, h4, h5, h6, h7, h8, h9]
      exact ⟨g1, g2, g3, g4, g5, g6, g7, g8, g9⟩
theorem loadChildren_frame (s : Flyout) (cs : List SitemapNode) (depth : Depth) :
    (loadChildren s cs depth).timers = s.timers ∧
      (loadChildren s cs depth).timeouts = s.timeouts ∧
      (loadChildren s cs depth).nextTimeout = s.nextTimeout ∧
      (loadChildren s cs depth).menus = s.menus ∧
      (loadChildren s cs depth).current = s.current ∧
      (loadChildren s cs depth).element = s.element ∧
      (loadChildren s cs depth).node = s.node ∧
      (loadChildren s cs depth).options = s.options ∧
      (loadChildren s cs depth).events = s.events := by
  match cs with
  | [] => rw [loadChildren]; simp
  | c :: rest =>
    rw [loadChildren]
    obtain ⟨h1, h2, h3, h4, h5, h6, h7, h8, h9⟩ := loadChildren_frame (load s c depth.succ) rest depth
    obtain ⟨g1, g2, g3, g4, g5, g6, g7, g8, g9⟩ := load_frame s c depth.succ
    rw [h1, h2, h3, h4, h5, h6, h7, h8, h9, g1, g2, g3, g4, g5, g6, g7, g8, g9]
    simp
end
/-- The timers are in order in a state with the timers of a state in which
they are. -/
theorem TimersOk.ok_of_eq {s s' : Flyout} (hs : TimersOk s) (h1 : s'.timers = s.timers)
    (h2 : s'.timeouts = s.timeouts) (h3 : s'.nextTimeout = s.nextTimeout) : TimersOk s' := by
  constructor
  · rw [h1, h2]; exact hs.tracked
  · rw [h1, h2]; exact hs.owned
  · rw [h2, h3]; exact hs.pendingBelow
  · rw [h1, h3]; exact hs.storedBelow

/-- A timeout that stays pending after the timer of a key is cleared has
another key. -/
theorem key_ne_of_tracked (s : Flyout) (hs : TimersOk s) (key : String) (t : Timeout)
    (ht : t ∈ s.timeouts) (hid : s.timers.get key ≠ some t.id) : t.key ≠ key := by
  intro hk
  have := hs.tracked t ht
  rw [hk] at this
  exact hid this

theorem TimersOk.ok_clearTimer {s : Flyout} (hs : TimersOk s) (key : String) :
    TimersOk (clearTimer s key) := by
  constructor
  · intro t ht
    rw [timeouts_clearTimer, List.mem_filter] at ht
    have hne := key_ne_of_tracked s hs key t ht.1 (by simpa using ht.2)
    rw [timers_clearTimer, JsObject.get_erase_of_ne _ _ _ hne]
    exact hs.tracked t ht.1
  · intro k id hk t ht hid
    rw [timeouts_clearTimer, List.mem_filter] at ht
    rw [timers_clearTimer] at hk
    by_cases hkk : k = key
    · rw [hkk, JsObject.get_erase_self] at hk
      exact absurd hk (by simp)
    · rw [JsObject.get_erase_of_ne _ _ _ hkk] at hk
      exact hs.owned k id hk t ht.1 hid
  · intro t ht
    rw [timeouts_clearTimer, List.mem_filter] at ht
    rw [nextTimeout_clearTimer]
    exact hs.pendingBelow t ht.1
  · intro k id hk
    rw [timers_clearTimer] at hk
    rw [nextTimeout_clearTimer]
    by_cases hkk : k = key
    · rw [hkk, JsObject.get_erase_self] at hk
      exact absurd hk (by simp)
    · rw [JsObject.get_erase_of_ne _ _ _ hkk] at hk
      exact hs.storedBelow k id hk

theorem TimersOk.ok_startTimer {s : Flyout} (hs : TimersOk s) (key : String) (delay : Nat) :
    TimersOk (startTimer s key delay) := by
  constructor
  · intro t ht
    rw [timeouts_startTimer, List.mem_append, List.mem_filter, List.mem_singleton] at ht
    rw [timers_startTimer]
    rcases ht with ht | ht
    · have hne := key_ne_of_tracked s hs key t ht.1 (by simpa using ht.2)
      rw [JsObject.get_set_of_ne _ _ _ _ hne, JsObject.get_erase_of_ne _ _ _ hne]
      exact hs.tracked t ht.1
    · rw [ht]
      exact JsObject.get_set_self _ _ _
  · intro k id hk t ht hid
    rw [timeouts_startTimer, List.mem_append, List.mem_filter, List.mem_singleton] at ht
    rw [timers_startTimer] at hk
    by_cases hkk : k = key
    · rw [hkk, JsObject.get_set_self] at hk
      rcases ht with ht | ht
      · have := hs.pendingBelow t ht.1
        rw [Option.some.injEq] at hk
        omega
      · rw [ht, hkk]
    · rw [JsObject.get_set_of_ne _ _ _ _ hkk, JsObject.get_erase_of_ne _ _ _ hkk] at hk
      rcases ht with ht | ht
      · exact hs.owned k id hk t ht.1 hid
      · have := hs.storedBelow k id hk
        rw [ht] at hid
        simp only [] at hid
        omega
  · intro t ht
    rw [timeouts_startTimer, List.mem_append, List.mem_filter, List.mem_singleton] at ht
    rw [nextTimeout_startTimer]
    rcases ht with ht | ht
    · have := hs.pendingBelow t ht.1
      omega
    · rw [ht]
      exact Nat.lt_succ_self _
  · intro k id hk
    rw [timers_startTimer] at hk
    rw [nextTimeout_startTimer]
    by_cases hkk : k = key
    · rw [hkk, JsObject.get_set_self, Option.some.injEq] at hk
      omega
    · rw [JsObject.get_set_of_ne _ _ _ _ hkk, JsObject.get_erase_of_ne _ _ _ hkk] at hk
      have := hs.storedBelow k id hk
      omega

theorem TimersOk.ok_init (options : Options) : TimersOk (Flyout.init options) := by
  constructor <;> simp [Flyout.init, JsObject.empty, JsObject.get, getEntries]

/-- The timeouts pending for a key after `startTimer` for that key: the new
one only. -/
theorem pendingFor_startTimer (s : Flyout) (hs : TimersOk s) (key : String) (delay : Nat) :
    pendingFor (startTimer s key delay) key
      = [{ id := s.nextTimeout, key := key, func := timerFunc key, delay := delay }] := by
  unfold pendingFor
  rw [timeouts_startTimer, List.filter_append, List.filter_filter]
  have h1 : List.filter (fun t => decide (t.key = key) && decide (s.timers.get key ≠ some t.id))
      s.timeouts = [] := by
    rw [List.filter_eq_nil_iff]
    intro t ht hc
    simp only [Bool.and_eq_true, decide_eq_true_eq] at hc
    exact key_ne_of_tracked s hs key t ht hc.2 hc.1
  rw [h1]
  simp

/-- C4. In a state whose timers are in order (every state the component
reaches, see `timersOk_runAll`): after `startTimer(X, d1)` and then
`startTimer(X, d2)` exactly one timeout is pending for `X`, the one of the
second call, which is the entry of the timer set for `X`; the timeout of the
first call was pending in between and is pending no more; and `clearTimer(X)`
with nothing pending for `X` leaves the pending timeouts and the timer set as
they are (the method is total: it cannot throw). -/
theorem startTimer_twice_one_pending (s : Flyout) (key : String) (d1 d2 : Nat)
    (hs : TimersOk s) :
    pendingFor (startTimer (startTimer s key d1) key d2) key
        = [{ id := s.nextTimeout + 1, key := key, func := timerFunc key, delay := d2 }] ∧
      timerSet (startTimer (startTimer s key d1) key d2) key
        = some { id := s.nextTimeout + 1, key := key, func := timerFunc key, delay := d2 } ∧
      pendingFor (startTimer s key d1) key
        = [{ id := s.nextTimeout, key := key, func := timerFunc key, delay := d1 }] ∧
      (∀ t ∈ (startTimer (startTimer s key d1) key d2).timeouts, t.id ≠ s.nextTimeout) ∧
      (pendingFor s key = [] →
        (clearTimer s key).timeouts = s.timeouts ∧
        ∀ k, timerSet (clearTimer s key) k = timerSet s k) := by
  have hs1 := hs.ok_startTimer key d1
  have hp2 := pendingFor_startTimer (startTimer s key d1) hs1 key d2
  rw [nextTimeout_startTimer] at hp2
  refine ⟨hp2, ?_, pendingFor_startTimer s hs key d1, ?_, ?_⟩
  · have hmem : ({ id := s.nextTimeout + 1, key := key, func := timerFunc key, delay := d2 } :
        Timeout) ∈ (startTimer (startTimer s key d1) key d2).timeouts := by
      have : ({ id := s.nextTimeout + 1, key := key, func := timerFunc key, delay := d2 } :
          Timeout) ∈ pendingFor (startTimer (startTimer s key d1) key d2) key := by
        rw [hp2]; exact List.mem_singleton.mpr rfl
      exact (List.mem_filter.mp this).1
    unfold timerSet
    rw [timers_startTimer, JsObject.get_set_self, nextTimeout_startTimer]
    simp only []
    cases hf : List.find? (fun t => decide (t.id = s.nextTimeout + 1))
        (startTimer (startTimer s key d1) key d2).timeouts with
    | none =>
      rw [List.find?_eq_none] at hf
      exact absurd (hf _ hmem) (by simp)
    | some t =>
      have ht := List.mem_of_find?_eq_some hf
      have hid : t.id = s.nextTimeout + 1 := by simpa using List.find?_some hf
      have hs2 := hs1.ok_startTimer key d2
      have hk : t.key = key := by
        apply hs2.owned key (s.nextTimeout + 1) _ t ht hid
        rw [timers_startTimer, JsObject.get_set_self, nextTimeout_startTimer]
      have : t ∈ pendingFor (startTimer (startTimer s key d1) key d2) key :=
        List.mem_filter.mpr ⟨ht, by simp [hk]⟩
      rw [hp2, List.mem_singleton] at this
      rw [this]
  · intro t ht
    rw [timeouts_startTimer, List.mem_append, List.mem_filter, List.mem_singleton] at ht
    rcases ht with ht | ht
    · intro hid
      have h2 := ht.2
      rw [timers_startTimer, JsObject.get_set_self, hid] at h2
      simp at h2
    · rw [ht, nextTimeout_startTimer]
      simp
  · intro hidle
    have hto : (clearTimer s key).timeouts = s.timeouts := by
      rw [timeouts_clearTimer, List.filter_eq_self]
      intro t ht
      simp only [ne_eq, decide_not, Bool.not_eq_true', decide_eq_false_iff_not]
      intro hget
      have hk := hs.owned key t.id hget t ht rfl
      have : t ∈ pendingFor s key := List.mem_filter.mpr ⟨ht, by simp [hk]⟩
      rw [hidle] at this
      exact absurd this (List.not_mem_nil t)
    refine ⟨hto, ?_⟩
    intro k
    unfold timerSet
    rw [hto, timers_clearTimer]
    by_cases hk : k = key
    · subst hk
      rw [JsObject.get_erase_self]
      cases hget : s.timers.get k with
      | none => rfl
      | some id =>
        simp only []
        symm
        rw [List.find?_eq_none]
        intro t ht hid
        have hid2 : t.id = id := by simpa using hid
        have hk := hs.owned k id hget t ht hid2
        have : t ∈ pendingFor s k := List.mem_filter.mpr ⟨ht, by simp [hk]⟩
        rw [hidle] at this
        exact absurd this (List.not_mem_nil t)
    · rw [JsObject.get_erase_of_ne _ _ _ hk]
/-- The method `show` in terms of its parts. -/
theorem show_eq (r : PositionReadings) (s : Flyout) (node : Trigger) :
    «show» r s node =
      match (_getMenu (showPrelude s node)).1 with
      | none => Outcome.returned (_getMenu (showPrelude s node)).2
      | some _ =>
        if (_getMenu (showPrelude s node)).2.options.mode = "click" then
          position r (markActive (_getMenu (showPrelude s node)).2)
        else Outcome.returned (markActive (_getMenu (showPrelude s node)).2) := by
  unfold «show» showPrelude markActive
  rfl

/-- The timers after the first part of `show`: those before, or those after
the show timer is started. -/
theorem TimersOk.ok_showPrelude {s : Flyout} (hs : TimersOk s) (node : Trigger) :
    TimersOk (showPrelude s node) := by
  unfold Toolkit.showPrelude
  split
  · have h1 : TimersOk (hide s) :=
      hs.ok_of_eq (hide_frame s).1 (hide_frame s).2.1 (hide_frame s).2.2.1
    exact (h1.ok_startTimer "show" s.options.showDelay).ok_of_eq rfl rfl rfl
  · exact hs.ok_of_eq rfl rfl rfl

theorem TimersOk.ok_getMenu {s : Flyout} (hs : TimersOk s) : TimersOk (_getMenu s).2 :=
  hs.ok_of_eq (getMenu_frame s).1 (getMenu_frame s).2.1 (getMenu_frame s).2.2.1

theorem TimersOk.ok_position {s : Flyout} (hs : TimersOk s) (r : PositionReadings) :
    TimersOk (position r s).state :=
  hs.ok_of_eq (position_frame r s).1 (position_frame r s).2.1 (position_frame r s).2.2.1

theorem TimersOk.ok_show {s : Flyout} (hs : TimersOk s) (r : PositionReadings) (node : Trigger) :
    TimersOk («show» r s node).state := by
  rw [show_eq]
  have h2 : TimersOk (_getMenu (Toolkit.showPrelude s node)).2 := (hs.ok_showPrelude node).ok_getMenu
  have h3 : TimersOk (markActive (_getMenu (Toolkit.showPrelude s node)).2) :=
    h2.ok_of_eq rfl rfl rfl
  split
  · exact h2
  · split
    · exact h3.ok_position r
    · exact h3

theorem TimersOk.ok_fireTimeout {s : Flyout} (hs : TimersOk s) (r : PositionReadings) (id : Nat) :
    TimersOk (fireTimeout r s id).state := by
  unfold Toolkit.fireTimeout
  split
  · exact hs
  · have h1 : TimersOk { s with timeouts := s.timeouts.filter (fun t => t.id ≠ id) } := by
      constructor
      · intro t ht
        exact hs.tracked t (List.mem_filter.mp ht).1
      · intro k i hk t ht hid
        exact hs.owned k i hk t (List.mem_filter.mp ht).1 hid
      · intro t ht
        exact hs.pendingBelow t (List.mem_filter.mp ht).1
      · exact hs.storedBelow
    simp only []
    split
    · exact h1.ok_position r
    · exact h1.ok_of_eq (hide_frame _).1 (hide_frame _).2.1 (hide_frame _).2.2.1

/-- Every call keeps the timers in order. -/
theorem TimersOk.ok_run {s : Flyout} (hs : TimersOk s) (op : Op) : TimersOk (op.run s).state := by
  cases op with
  | load data =>
    exact hs.ok_of_eq (load_frame s data 0).1 (load_frame s data 0).2.1 (load_frame s data 0).2.2.1
  | «show» r node => exact hs.ok_show r node
  | hide => exact hs.ok_of_eq (hide_frame s).1 (hide_frame s).2.1 (hide_frame s).2.2.1
  | position r => exact hs.ok_position r
  | startTimer key delay => exact hs.ok_startTimer key delay
  | clearTimer key => exact hs.ok_clearTimer key
  | onEnter => exact (hs.ok_clearTimer "hide").ok_startTimer "show" s.options.showDelay
  | onLeave => exact (hs.ok_clearTimer "show").ok_startTimer "hide" s.options.showDelay
  | fire r id => exact hs.ok_fireTimeout r id

/-- The timers are in order in every state the component reaches. -/
theorem timersOk_runAll (options : Options) (ops : List Op) :
    TimersOk (runAll (Flyout.init options) ops) := by
  have key : ∀ (ops : List Op) (s : Flyout), TimersOk s → TimersOk (runAll s ops) := by
    intro ops
    induction ops with
    | nil => intro s hs; exact hs
    | cons op rest ih => intro s hs; exact ih _ (hs.ok_run op)
  exact key ops _ (TimersOk.ok_init options)
/-- C4 in a new flyout: the show timer started twice, the hide timer cleared
with nothing pending. -/
theorem startTimer_twice_one_pending_witness :
    TimersOk (Flyout.init {}) ∧
      pendingFor (startTimer (startTimer (Flyout.init {}) "show" 350) "show" 100) "show"
        = [{ id := 2, key := "show", func := TimerFunc.position, delay := 100 }] ∧
      (pendingFor (Flyout.init {}) "hide" = [] →
        (clearTimer (Flyout.init {}) "hide").timeouts = (Flyout.init {}).timeouts ∧
        ∀ k, timerSet (clearTimer (Flyout.init {}) "hide") k = timerSet (Flyout.init {}) k) :=
  ⟨TimersOk.ok_init {},
    (startTimer_twice_one_pending (Flyout.init {}) "show" 350 100 (TimersOk.ok_init {})).1,
    (startTimer_twice_one_pending (Flyout.init {}) "hide" 350 100 (TimersOk.ok_init {})).2.2.2.2⟩

/-- Starting the show timer twice, evaluated: the second timeout is the only
one pending. -/
theorem startTimer_twice_evaluated :
    (startTimer (startTimer (Flyout.init {}) "show" 350) "show" 100).timeouts
      = [{ id := 2, key := "show", func := TimerFunc.position, delay := 100 }] := by
  decide

/-! ## Visibility of the cached menus -/

theorem getEntries_of_mem {α : Type} (es : List (String × α)) (k : String) (v : α)
    (hn : (es.map Prod.fst).Nodup) (hm : (k, v) ∈ es) : getEntries es k = some v := by
  induction es with
  | nil => exact absurd hm (List.not_mem_nil _)
  | cons e rest ih =>
    obtain ⟨k', v'⟩ := e
    rw [List.map_cons, List.nodup_cons] at hn
    rcases List.mem_cons.mp hm with h | h
    · rw [Prod.mk.injEq] at h
      simp [getEntries, h.1, h.2]
    · have hk : k' ≠ k := by
        intro hk
        apply hn.1
        rw [hk]
        exact List.mem_map.mpr ⟨(k, v), h, rfl⟩
      simp [getEntries, hk, ih hn.2 h]

/-- The menu `finishMenu` returns is concealed. -/
theorem shown_finishMenu (opts : Options) (parent : Parent) (menu m : Elem)
    (h : (finishMenu opts parent menu).1 = some m) : m.shown = false := by
  unfold finishMenu at h
  simp only [] at h
  split at h
  · rw [Option.some.injEq] at h
    rw [← h]
    simp
  · rw [Option.some.injEq] at h
    rw [← h]
    simp

/-- A menu `_buildMenu` returns is concealed. -/
theorem shown_buildMenu (opts : Options) (parent : Parent) (data : SitemapNode) (m : Elem)
    (h : (_buildMenu opts parent data).1 = some m) : m.shown = false := by
  rw [_buildMenu_eq] at h
  split at h
  · exact absurd h (by simp)
  · split at h
    · exact absurd h (by simp)
    · exact shown_finishMenu _ _ _ _ h

/-- The state after `isVisible()`. -/
theorem isVisible_state (s : Flyout) :
    (isVisible s).2 = { s with element := elementAfter s } := by
  unfold isVisible elementAfter
  split <;> rfl

/-- The result of `isVisible()`. -/
theorem isVisible_result (s : Flyout) :
    (isVisible s).1 = (match lookup s.menus (elementAfter s) with
      | some menu => menu.isShown
      | none => false) := by
  unfold isVisible elementAfter
  split <;> rfl

theorem unmarkActive_frame (s : Flyout) :
    (unmarkActive s).menus = s.menus ∧ (unmarkActive s).current = s.current ∧
      (unmarkActive s).element = s.element ∧ (unmarkActive s).events = s.events := by
  unfold unmarkActive
  split <;> simp

theorem elementAfter_unmarkActive (s : Flyout) :
    elementAfter (unmarkActive s) = elementAfter s := by
  unfold elementAfter
  rw [(unmarkActive_frame s).1, (unmarkActive_frame s).2.1, (unmarkActive_frame s).2.2.1]

/-- The method `hide` in terms of its parts. -/
theorem hide_eq (s : Flyout) :
    hide s =
      if ¬ (isVisible (unmarkActive s)).1 = true then (isVisible (unmarkActive s)).2
      else
        { (fireEvent
            (match (fireEvent (isVisible (unmarkActive s)).2 "hiding").element,
                lookup (fireEvent (isVisible (unmarkActive s)).2 "hiding").menus
                  (fireEvent (isVisible (unmarkActive s)).2 "hiding").element with
              | some k, some menu =>
                { fireEvent (isVisible (unmarkActive s)).2 "hiding" with
                  menus := (fireEvent (isVisible (unmarkActive s)).2 "hiding").menus.set k
                    menu.conceal }
              | _, _ => fireEvent (isVisible (unmarkActive s)).2 "hiding") "hidden") with
          element := none, current := none } := by
  rfl

/-- The two ways `hide` ends. -/
theorem hide_cases (s : Flyout) :
    ((isVisible s).1 = false ∧ (hide s).menus = s.menus ∧ (hide s).current = s.current ∧
        (hide s).events = s.events) ∨
      ((isVisible s).1 = true ∧ ∃ k m, elementAfter s = some k ∧
        s.menus.get k = some m ∧ m.shown = true ∧ (hide s).menus = s.menus.set k m.conceal ∧
        (hide s).current = none ∧ (hide s).element = none ∧
        (hide s).events = s.events ++ ["hiding", "hidden"]) := by
  obtain ⟨f1, f2, f3, f4⟩ := unmarkActive_frame s
  have hres : (isVisible (unmarkActive s)).1 = (isVisible s).1 := by
    rw [isVisible_result, isVisible_result, elementAfter_unmarkActive, f1]
  rw [hide_eq, hres, isVisible_state, elementAfter_unmarkActive]
  cases hv : (isVisible s).1 with
  | false =>
    left
    simp [f1, f2, f4]
  | true =>
    right
    rw [isVisible_result] at hv
    simp only [not_true_eq_false, if_false, true_and]
    cases he : elementAfter s with
    | none => rw [he] at hv; simp [lookup] at hv
    | some k =>
      rw [he] at hv
      simp only [lookup] at hv
      cases hm : s.menus.get k with
      | none => rw [hm] at hv; simp at hv
      | some m =>
        rw [hm] at hv
        refine ⟨k, m, rfl, hm, hv, ?_⟩
        simp [lookup, f1, f4, hm, fireEvent]
/-- The method `position()` when there is no menu for the current target. -/
theorem position_of_no_menu (r : PositionReadings) (s : Flyout)
    (h : lookup s.menus s.current = none) : position r s = Outcome.returned s := by
  unfold position
  simp only []
  split
  · rename_i menu key h1 h2
    rw [h] at h1
    exact absurd h1 (by simp)
  · rfl

/-- The method `position()` when there is a menu for the current target and
a trigger. -/
theorem position_of_menu (r : PositionReadings) (s : Flyout) (c : String) (m : Elem)
    (n : Trigger) (hc : s.current = some c) (hm : s.menus.get c = some m)
    (hn : s.node = some n) :
    position r s = Outcome.returned
      (fireEvent { fireEvent s "showing" with menus := s.menus.set c (placed r s.options m) }
        "shown") := by
  unfold position
  simp only [hc, lookup, hm, fireEvent, hn]
  rfl

/-- The method `position()` when there is a menu for the current target and
no trigger: it throws after firing `showing`. -/
theorem position_of_no_node (r : PositionReadings) (s : Flyout) (c : String) (m : Elem)
    (hc : s.current = some c) (hm : s.menus.get c = some m) (hn : s.node = none) :
    position r s = Outcome.threw (fireEvent s "showing") := by
  unfold position
  simp only [hc, lookup, hm, fireEvent, hn]

/-- The menus after `position()`: those before, or those before with the menu
of the current target placed and revealed. -/
theorem position_menus (r : PositionReadings) (s : Flyout) :
    (position r s).state.menus = s.menus ∨
      ∃ c m, s.current = some c ∧ s.menus.get c = some m ∧
        (position r s).state.menus = s.menus.set c (placed r s.options m) := by
  cases hc : s.current with
  | none =>
    left
    rw [position_of_no_menu r s (by rw [hc]; rfl)]
    rfl
  | some c =>
    cases hm : s.menus.get c with
    | none =>
      left
      rw [position_of_no_menu r s (by rw [hc]; exact hm)]
      rfl
    | some m =>
      cases hn : s.node with
      | none =>
        left
        rw [position_of_no_node r s c m hc hm hn]
        rfl
      | some n =>
        right
        refine ⟨c, m, rfl, hm, ?_⟩
        rw [position_of_menu r s c m n hc hm hn]
        rfl

theorem VisibilityOk.vis_of_eq {s s' : Flyout} (hs : VisibilityOk s) (h1 : s'.menus = s.menus)
    (h2 : s'.current = s.current) (h3 : s'.dataMap = s.dataMap) : VisibilityOk s' := by
  constructor
  · rw [h1, h2]; exact hs.shownIsCurrent
  · rw [h1]; exact hs.menuKeys
  · rw [h3]; exact hs.dataKeys

theorem VisibilityOk.vis_init (options : Options) : VisibilityOk (Flyout.init options) := by
  constructor <;> simp [Flyout.init, JsObject.empty, JsObject.get, getEntries]

/-- After `hide()` no cached menu is visible. -/
theorem hide_conceals_all {s : Flyout} (hs : VisibilityOk s) :
    ∀ k m, (hide s).menus.get k = some m → m.shown = false := by
  intro k m hk
  rcases hide_cases s with ⟨hv, hm, _, _⟩ | ⟨_, c, mc, he, hget, hshown, hm, _, _, _⟩
  · rw [hm] at hk
    by_contra hsh
    have hsh : m.shown = true := by simpa using hsh
    have hc := hs.shownIsCurrent k m hk hsh
    have hne := hs.menuKeys k m hk
    rw [isVisible_result] at hv
    have he : elementAfter s = some k := by
      unfold elementAfter
      rw [if_pos]
      · exact hc
      · rw [hc]
        simp [truthy, hne, lookup, hk]
    rw [he] at hv
    simp only [lookup, hk] at hv
    rw [Elem.isShown, hsh] at hv
    exact absurd hv (by simp)
  · rw [hm] at hk
    have hcur := hs.shownIsCurrent c mc hget hshown
    by_cases hkc : k = c
    · rw [hkc, JsObject.get_set_self, Option.some.injEq] at hk
      rw [← hk]
      simp
    · rw [JsObject.get_set_of_ne _ _ _ _ hkc] at hk
      by_contra hsh
      have hsh : m.shown = true := by simpa using hsh
      have := hs.shownIsCurrent k m hk hsh
      rw [hcur, Option.some.injEq] at this
      exact hkc this.symm

/-- A key with a value after an assignment to a key that had one already had
a value before. -/
theorem JsObject.get_set_isSome {α : Type} (o : JsObject α) (k j : String) (v w : α)
    (h : (o.set k v).get j = some w) (hk : (o.get k).isSome) : (o.get j).isSome := by
  by_cases hjk : j = k
  · rw [hjk]; exact hk
  · rw [JsObject.get_set_of_ne _ _ _ _ hjk] at h
    rw [h]; rfl

theorem VisibilityOk.vis_hide {s : Flyout} (hs : VisibilityOk s) : VisibilityOk (hide s) := by
  constructor
  · intro k m hk hsh
    rw [hide_conceals_all hs k m hk] at hsh
    exact absurd hsh (by simp)
  · intro k m hk
    rcases hide_cases s with ⟨_, hm, _, _⟩ | ⟨_, c, mc, _, hget, _, hm, _, _, _⟩
    · rw [hm] at hk
      exact hs.menuKeys k m hk
    · rw [hm] at hk
      have := JsObject.get_set_isSome _ _ _ _ _ hk (by rw [hget]; rfl)
      obtain ⟨m', hm'⟩ := Option.isSome_iff_exists.mp this
      exact hs.menuKeys k m' hm'
  · rw [(hide_frame s).2.2.2.1]
    exact hs.dataKeys

theorem VisibilityOk.vis_position {s : Flyout} (hs : VisibilityOk s) (r : PositionReadings) :
    VisibilityOk (position r s).state := by
  obtain ⟨_, _, _, hd, _, _, hcur, _, _⟩ := position_frame r s
  rcases position_menus r s with hm | ⟨c, mc, hc, hget, hm⟩
  · exact hs.vis_of_eq hm hcur hd
  · constructor
    · intro k m hk hsh
      rw [hcur]
      rw [hm] at hk
      by_cases hkc : k = c
      · rw [hkc]; exact hc
      · rw [JsObject.get_set_of_ne _ _ _ _ hkc] at hk
        exact hs.shownIsCurrent k m hk hsh
    · intro k m hk
      rw [hm] at hk
      have := JsObject.get_set_isSome _ _ _ _ _ hk (by rw [hget]; rfl)
      obtain ⟨m', hm'⟩ := Option.isSome_iff_exists.mp this
      exact hs.menuKeys k m' hm'
    · rw [hd]
      exact hs.dataKeys
theorem clearTimer_frame (s : Flyout) (key : String) :
    (clearTimer s key).menus = s.menus ∧ (clearTimer s key).current = s.current ∧
      (clearTimer s key).dataMap = s.dataMap ∧ (clearTimer s key).element = s.element ∧
      (clearTimer s key).node = s.node ∧ (clearTimer s key).options = s.options ∧
      (clearTimer s key).events = s.events ∧ (clearTimer s key).data = s.data := by
  unfold clearTimer clearTimeout
  cases s.timers.get key <;> simp

theorem startTimer_frame (s : Flyout) (key : String) (delay : Nat) :
    (startTimer s key delay).menus = s.menus ∧ (startTimer s key delay).current = s.current ∧
      (startTimer s key delay).dataMap = s.dataMap ∧
      (startTimer s key delay).element = s.element ∧ (startTimer s key delay).node = s.node ∧
      (startTimer s key delay).options = s.options ∧
      (startTimer s key delay).events = s.events ∧ (startTimer s key delay).data = s.data := by
  obtain ⟨h1, h2, h3, h4, h5, h6, h7, h8⟩ := clearTimer_frame s key
  unfold startTimer setTimeout
  simp [h1, h2, h3, h4, h5, h6, h7, h8]

theorem getTarget_some (s : Flyout) (node : Trigger) :
    _getTarget s (some node) = targetOf node := rfl

theorem getTarget_none (s : Flyout) (node : Trigger) (h : s.node = some node) :
    _getTarget s none = targetOf node := by
  unfold _getTarget
  simp only [h]
  rfl

/-- The current target after `_getMenu()`. -/
theorem getMenu_current (s : Flyout) : (_getMenu s).2.current = _getTarget s none := by
  unfold _getMenu
  simp only []
  repeat' split
  all_goals rfl

/-- The method `_getMenu()` when the menu of the target is cached. -/
theorem getMenu_of_cached (s : Flyout) (m : Elem)
    (h : lookup s.menus (_getTarget s none) = some m) :
    _getMenu s = (some m, { s with current := _getTarget s none }) := by
  unfold _getMenu
  simp only [h]

/-- The method `_getMenu()` when no menu of the target is cached and
`_buildMenu` returns a menu for the node of the target. -/
theorem getMenu_of_built (s : Flyout) (key : String) (data : SitemapNode) (m : Elem)
    (ht : _getTarget s none = some key) (hm : s.menus.get key = none)
    (hd : s.dataMap.get key = some data)
    (hb : (_buildMenu s.options Parent.body data).1 = some m) :
    _getMenu s = (some m, { s with current := some key, menus := s.menus.set key m }) := by
  unfold _getMenu
  simp only [ht, lookup, hm, hd, hb]

/-- The method `_getMenu()` when no menu of the target is cached and none can
be built: the target has no node in the index, or `_buildMenu` returns null
for its node. -/
theorem getMenu_of_none (s : Flyout) (hm : lookup s.menus (_getTarget s none) = none)
    (hd : ∀ key data, _getTarget s none = some key → s.dataMap.get key = some data →
      (_buildMenu s.options Parent.body data).1 = none) :
    _getMenu s = (none, { s with current := _getTarget s none }) := by
  unfold _getMenu
  simp only [hm]
  split
  · rename_i data key h1 h2
    rw [h2] at h1
    have := hd key data h2 h1
    simp only [] at this ⊢
    rw [this]
  · rfl

/-- The menus after `_getMenu()`: those before, or those before and the menu
built for the target, which had none. -/
theorem getMenu_menus (s : Flyout) :
    (_getMenu s).2.menus = s.menus ∨
      ∃ key data m, _getTarget s none = some key ∧ s.menus.get key = none ∧
        s.dataMap.get key = some data ∧
        (_buildMenu s.options Parent.body data).1 = some m ∧
        (_getMenu s).1 = some m ∧
        (_getMenu s).2.menus = s.menus.set key m := by
  cases hm : lookup s.menus (_getTarget s none) with
  | some m =>
    left
    rw [getMenu_of_cached s m hm]
  | none =>
    by_cases hd : ∀ key data, _getTarget s none = some key → s.dataMap.get key = some data →
        (_buildMenu s.options Parent.body data).1 = none
    · left
      rw [getMenu_of_none s hm hd]
    · right
      push_neg at hd
      obtain ⟨key, data, ht, hdata, hb⟩ := hd
      obtain ⟨m, hb⟩ := Option.ne_none_iff_exists'.mp hb
      rw [ht] at hm
      refine ⟨key, data, m, ht, hm, hdata, hb, ?_, ?_⟩
      · rw [getMenu_of_built s key data m ht hm hdata hb]
      · rw [getMenu_of_built s key data m ht hm hdata hb]
/-- The two ways the first part of `show` goes. -/
theorem showPrelude_cases (s : Flyout) (node : Trigger) :
    (truthy s.current = true ∧ targetOf node ≠ s.current ∧
        showPrelude s node
          = { startTimer (hide s) "show" s.options.showDelay with node := some node }) ∨
      (¬ (truthy s.current = true ∧ targetOf node ≠ s.current) ∧
        showPrelude s node = { s with node := some node }) := by
  unfold showPrelude
  rw [getTarget_some]
  by_cases h : truthy s.current = true ∧ targetOf node ≠ s.current
  · left
    rw [if_pos h]
    exact ⟨h.1, h.2, rfl⟩
  · right
    rw [if_neg h]
    exact ⟨h, rfl⟩

theorem showPrelude_frame (s : Flyout) (node : Trigger) :
    (showPrelude s node).dataMap = s.dataMap ∧ (showPrelude s node).options = s.options ∧
      (showPrelude s node).data = s.data ∧ (showPrelude s node).node = some node := by
  rcases showPrelude_cases s node with ⟨_, _, h⟩ | ⟨_, h⟩
  · rw [h]
    obtain ⟨_, _, h3, _, _, h6, _, h8⟩ := startTimer_frame (hide s) "show" s.options.showDelay
    obtain ⟨_, _, _, g4, g5, g6⟩ := hide_frame s
    refine ⟨?_, ?_, ?_, rfl⟩
    · exact h3.trans g4
    · exact h6.trans g6
    · exact h8.trans g5
  · rw [h]
    simp

/-- The entry of the index under the empty string is not touched by the
assignment `dataMap[data.url] = data` guarded by `if (data.url)`. -/
theorem get_dataMap_store_empty (s : Flyout) (node : SitemapNode) (url : Option String) :
    (if truthy url then storeIndex s (url.getD "") node else s).dataMap.get ""
      = s.dataMap.get "" := by
  cases url with
  | none => simp [truthy]
  | some w =>
    by_cases he : w = ""
    · simp [truthy, he]
    · simp [truthy, he, get_dataMap_storeIndex]

mutual
/-- Loading stores nothing under the empty string. -/
theorem get_dataMap_load_empty (s : Flyout) (T : SitemapNode) (depth : Depth) :
    (load s T depth).dataMap.get "" = s.dataMap.get "" := by
  match T with
  | .mk url title children className icon attributes =>
    cases children with
    | none =>
      rw [load, get_dataMap_store_empty, dataMap_store_root]
    | some cs =>
      rw [load, get_dataMap_loadChildren_empty, get_dataMap_store_empty, dataMap_store_root]
theorem get_dataMap_loadChildren_empty (s : Flyout) (cs : List SitemapNode) (depth : Depth) :
    (loadChildren s cs depth).dataMap.get "" = s.dataMap.get "" := by
  match cs with
  | [] => rw [loadChildren]
  | c :: rest =>
    rw [loadChildren, get_dataMap_loadChildren_empty, get_dataMap_load_empty]
end

theorem VisibilityOk.vis_load {s : Flyout} (hs : VisibilityOk s) (T : SitemapNode) :
    VisibilityOk (load s T 0) := by
  obtain ⟨_, _, _, h4, h5, _⟩ := load_frame s T 0
  constructor
  · rw [h4, h5]; exact hs.shownIsCurrent
  · rw [h4]; exact hs.menuKeys
  · intro k n hk hempty
    rw [hempty, get_dataMap_load_empty] at hk
    exact hs.dataKeys "" n hk rfl

theorem VisibilityOk.vis_show {s : Flyout} (hs : VisibilityOk s) (r : PositionReadings)
    (node : Trigger) : VisibilityOk («show» r s node).state := by
  have hpre : (∀ k m, (showPrelude s node).menus.get k = some m → m.shown = true →
        targetOf node = some k) ∧
      (∀ k m, (showPrelude s node).menus.get k = some m → k ≠ "") := by
    rcases showPrelude_cases s node with ⟨_, _, h⟩ | ⟨hno, h⟩
    · rw [h]
      have h1 := (startTimer_frame (Toolkit.hide s) "show" s.options.showDelay).1
      refine ⟨?_, ?_⟩
      · intro k m hk hsh
        have hk2 : (Toolkit.hide s).menus.get k = some m := by rw [← h1]; exact hk
        rw [hide_conceals_all hs k m hk2] at hsh
        exact absurd hsh (by simp)
      · intro k m hk
        have hk2 : (Toolkit.hide s).menus.get k = some m := by rw [← h1]; exact hk
        exact hs.vis_hide.menuKeys k m hk2
    · rw [h]
      refine ⟨?_, hs.menuKeys⟩
      intro k m hk hsh
      have hc := hs.shownIsCurrent k m hk hsh
      have hne := hs.menuKeys k m hk
      by_contra hcon
      apply hno
      rw [hc]
      exact ⟨by simp [truthy, hne], hcon⟩
  obtain ⟨hp1, hp2⟩ := hpre
  obtain ⟨fd, _, _, fn⟩ := showPrelude_frame s node
  have hget : VisibilityOk (_getMenu (showPrelude s node)).2 := by
    have hcur := getMenu_current (showPrelude s node)
    rw [getTarget_none _ node fn] at hcur
    have hdm := (getMenu_frame (showPrelude s node)).2.2.2.1
    constructor
    · intro k m hk hsh
      rw [hcur]
      rcases getMenu_menus (showPrelude s node) with hm | ⟨key, data, mb, _, _, _, hb, _, hm⟩
      · rw [hm] at hk
        exact hp1 k m hk hsh
      · rw [hm] at hk
        by_cases hkk : k = key
        · rw [hkk, JsObject.get_set_self, Option.some.injEq] at hk
          rw [← hk, shown_buildMenu _ _ _ _ hb] at hsh
          exact absurd hsh (by simp)
        · rw [JsObject.get_set_of_ne _ _ _ _ hkk] at hk
          exact hp1 k m hk hsh
    · intro k m hk
      rcases getMenu_menus (showPrelude s node) with hm | ⟨key, data, mb, _, _, hd, _, _, hm⟩
      · rw [hm] at hk
        exact hp2 k m hk
      · rw [hm] at hk
        by_cases hkk : k = key
        · rw [hkk]
          rw [fd] at hd
          exact hs.dataKeys key data hd
        · rw [JsObject.get_set_of_ne _ _ _ _ hkk] at hk
          exact hp2 k m hk
    · rw [hdm, fd]
      exact hs.dataKeys
  have hmark : VisibilityOk (markActive (_getMenu (showPrelude s node)).2) :=
    hget.vis_of_eq rfl rfl rfl
  rw [show_eq]
  split
  · exact hget
  · split
    · exact hmark.vis_position r
    · exact hmark

theorem VisibilityOk.vis_fireTimeout {s : Flyout} (hs : VisibilityOk s) (r : PositionReadings)
    (id : Nat) : VisibilityOk (fireTimeout r s id).state := by
  unfold Toolkit.fireTimeout
  split
  · exact hs
  · have h1 : VisibilityOk { s with timeouts := s.timeouts.filter (fun t => t.id ≠ id) } :=
      hs.vis_of_eq rfl rfl rfl
    simp only []
    split
    · exact h1.vis_position r
    · exact h1.vis_hide

theorem VisibilityOk.vis_startTimer {s : Flyout} (hs : VisibilityOk s) (key : String) (delay : Nat) :
    VisibilityOk (startTimer s key delay) :=
  hs.vis_of_eq (startTimer_frame s key delay).1 (startTimer_frame s key delay).2.1
    (startTimer_frame s key delay).2.2.1

theorem VisibilityOk.vis_clearTimer {s : Flyout} (hs : VisibilityOk s) (key : String) :
    VisibilityOk (clearTimer s key) :=
  hs.vis_of_eq (clearTimer_frame s key).1 (clearTimer_frame s key).2.1 (clearTimer_frame s key).2.2.1

/-- Every call keeps the visibility of the cached menus in order. -/
theorem VisibilityOk.vis_run {s : Flyout} (hs : VisibilityOk s) (op : Op) :
    VisibilityOk (op.run s).state := by
  cases op with
  | load data => exact hs.vis_load data
  | «show» r node => exact hs.vis_show r node
  | hide => exact hs.vis_hide
  | position r => exact hs.vis_position r
  | startTimer key delay => exact hs.vis_startTimer key delay
  | clearTimer key => exact hs.vis_clearTimer key
  | onEnter => exact (hs.vis_clearTimer "hide").vis_startTimer "show" s.options.showDelay
  | onLeave => exact (hs.vis_clearTimer "show").vis_startTimer "hide" s.options.showDelay
  | fire r id => exact hs.vis_fireTimeout r id

/-- The visibility is in order in every state the component reaches. -/
theorem visibilityOk_runAll (options : Options) (ops : List Op) :
    VisibilityOk (runAll (Flyout.init options) ops) := by
  have key : ∀ (ops : List Op) (s : Flyout), VisibilityOk s → VisibilityOk (runAll s ops) := by
    intro ops
    induction ops with
    | nil => intro s hs; exact hs
    | cons op rest ih => intro s hs; exact ih _ (hs.vis_run op)
  exact key ops _ (VisibilityOk.vis_init options)

/-- A list without repetition whose members are all the same has at most one
member. -/
theorem length_le_one_of_all_eq {α : Type} (xs : List α) (hn : xs.Nodup)
    (h : ∀ x ∈ xs, ∀ y ∈ xs, x = y) : xs.length ≤ 1 := by
  match xs with
  | [] => simp
  | [_] => simp
  | a :: b :: rest =>
    have hab : a = b := h a (by simp) b (by simp)
    rw [List.nodup_cons] at hn
    exact absurd (by rw [hab]; simp) hn.1

/-- With the visibility in order at most one cached menu is visible. -/
theorem VisibilityOk.visibleMenus_le_one {s : Flyout} (hs : VisibilityOk s) :
    (visibleMenus s).length ≤ 1 := by
  apply length_le_one_of_all_eq
  · unfold visibleMenus
    exact s.menus.nodup.sublist ((List.filter_sublist s.menus.entries).map Prod.fst)
  · have key : ∀ x ∈ visibleMenus s, s.current = some x := by
      intro x hx
      unfold visibleMenus at hx
      obtain ⟨⟨k, m⟩, hmem, hk⟩ := List.mem_map.mp hx
      rw [List.mem_filter] at hmem
      simp only [] at hk
      subst hk
      exact hs.shownIsCurrent k m (getEntries_of_mem _ _ _ s.menus.nodup hmem.1) hmem.2
    intro x hx y hy
    have h1 := key x hx
    have h2 := key y hy
    rw [h1, Option.some.injEq] at h2
    exact h2
/-- A visible menu is cached under its key and shown. -/
theorem mem_visibleMenus (s : Flyout) (k : String) :
    k ∈ visibleMenus s ↔ ∃ m, s.menus.get k = some m ∧ m.shown = true := by
  unfold visibleMenus
  constructor
  · intro hx
    obtain ⟨⟨k', m⟩, hmem, hk⟩ := List.mem_map.mp hx
    rw [List.mem_filter] at hmem
    simp only [] at hk
    subst hk
    exact ⟨m, getEntries_of_mem _ _ _ s.menus.nodup hmem.1, hmem.2⟩
  · rintro ⟨m, hget, hsh⟩
    have hmem : (k, m) ∈ s.menus.entries := by
      have key : ∀ es : List (String × Elem), getEntries es k = some m → (k, m) ∈ es := by
        intro es
        induction es with
        | nil => intro h; simp [getEntries] at h
        | cons e rest ih =>
          obtain ⟨k', v'⟩ := e
          intro h
          by_cases hk : k' = k
          · simp only [getEntries, hk, if_true, Option.some.injEq] at h
            rw [hk, h]
            exact List.mem_cons_self _ _
          · simp only [getEntries, hk, if_false] at h
            exact List.mem_cons_of_mem _ (ih h)
      exact key _ hget
    exact List.mem_map.mpr ⟨(k, m), List.mem_filter.mpr ⟨hmem, hsh⟩, rfl⟩

/-- After its first part `show` leaves the timers as they are. -/
theorem show_timeouts (r : PositionReadings) (s : Flyout) (node : Trigger) :
    («show» r s node).state.timeouts = (showPrelude s node).timeouts := by
  rw [show_eq]
  have h1 := (getMenu_frame (showPrelude s node)).2.1
  split
  · exact h1
  · split
    · exact ((position_frame r _).2.1).trans h1
    · exact h1

/-- The call `show(node)` leaves the cached menu of every key other than the
target of the node as its first part left it. -/
theorem show_menus_get_of_ne_target (r : PositionReadings) (s : Flyout) (node : Trigger)
    (k : String) (hk : targetOf node ≠ some k) :
    («show» r s node).state.menus.get k = (showPrelude s node).menus.get k := by
  have fn := (showPrelude_frame s node).2.2.2
  have hcur := getMenu_current (showPrelude s node)
  rw [getTarget_none _ node fn] at hcur
  have hget : (_getMenu (showPrelude s node)).2.menus.get k = (showPrelude s node).menus.get k := by
    rcases getMenu_menus (showPrelude s node) with hm | ⟨key, _, mb, ht, _, _, _, _, hm⟩
    · rw [hm]
    · rw [hm]
      rw [getTarget_none _ node fn] at ht
      have hne : k ≠ key := by
        intro h
        apply hk
        rw [ht, h]
      rw [JsObject.get_set_of_ne _ _ _ _ hne]
  rw [show_eq]
  split
  · exact hget
  · split
    · rcases position_menus r (markActive (_getMenu (showPrelude s node)).2) with
        hm | ⟨c, mc, hc, _, hm⟩
      · rw [hm]
        exact hget
      · rw [hm]
        have hc2 : targetOf node = some c := hcur.symm.trans hc
        have hne : k ≠ c := by
          intro h
          apply hk
          rw [hc2, h]
        rw [JsObject.get_set_of_ne _ _ _ _ hne]
        exact hget
    · exact hget

/-- C5. In every state reached from the initial state by any sequence of
calls (`load`, `show`, `hide`, `position`, the timer methods and handlers, and
timers firing) at most one top-level menu of the cache is visible.  In such a
state with a visible menu under `c`, `show(node)` for a node with another
target runs `hide()` first: `hide()` conceals the menu under `c`, leaves no
menu visible, fires `hiding` and `hidden` and touches no timeout; only then is
the show timer started, in the state `hide()` left, and it is the one timeout
pending for `show` when `show(node)` ends, with the old menu still
concealed. -/
theorem at_most_one_menu_visible (options : Options) (ops : List Op) :
    (visibleMenus (runAll (Flyout.init options) ops)).length ≤ 1 ∧
      ∀ (r : PositionReadings) (node : Trigger) (c : String),
        c ∈ visibleMenus (runAll (Flyout.init options) ops) → targetOf node ≠ some c →
        showPrelude (runAll (Flyout.init options) ops) node
            = { startTimer (hide (runAll (Flyout.init options) ops)) "show"
                  (runAll (Flyout.init options) ops).options.showDelay with
                node := some node } ∧
          ((hide (runAll (Flyout.init options) ops)).menus.get c).map Elem.shown = some false ∧
          visibleMenus (hide (runAll (Flyout.init options) ops)) = [] ∧
          (hide (runAll (Flyout.init options) ops)).events
            = (runAll (Flyout.init options) ops).events ++ ["hiding", "hidden"] ∧
          (hide (runAll (Flyout.init options) ops)).timeouts
            = (runAll (Flyout.init options) ops).timeouts ∧
          pendingFor («show» r (runAll (Flyout.init options) ops) node).state "show"
            = [{ id := (runAll (Flyout.init options) ops).nextTimeout, key := "show",
                 func := TimerFunc.position,
                 delay := (runAll (Flyout.init options) ops).options.showDelay }] ∧
          ((«show» r (runAll (Flyout.init options) ops) node).state.menus.get c).map Elem.shown
            = some false := by
  have hv := visibilityOk_runAll options ops
  have ht := timersOk_runAll options ops
  generalize runAll (Flyout.init options) ops = s at hv ht ⊢
  refine ⟨hv.visibleMenus_le_one, ?_⟩
  intro r node c hc hne
  obtain ⟨m, hget, hsh⟩ := (mem_visibleMenus s c).mp hc
  have hcur := hv.shownIsCurrent c m hget hsh
  have hck := hv.menuKeys c m hget
  have hjump : truthy s.current = true ∧ targetOf node ≠ s.current := by
    rw [hcur]
    exact ⟨by simp [truthy, hck], hne⟩
  have hpre : showPrelude s node
      = { startTimer (hide s) "show" s.options.showDelay with node := some node } := by
    rcases showPrelude_cases s node with ⟨_, _, h⟩ | ⟨hno, _⟩
    · exact h
    · exact absurd hjump hno
  have hnone := hide_conceals_all hv
  have hhide : ∃ m', (hide s).menus.get c = some m' := by
    rcases hide_cases s with ⟨_, hm, _, _⟩ | ⟨_, k, mk, _, hgk, _, hm, _, _, _⟩
    · rw [hm]; exact ⟨m, hget⟩
    · rw [hm]
      by_cases hkc : c = k
      · rw [hkc, JsObject.get_set_self]; exact ⟨_, rfl⟩
      · rw [JsObject.get_set_of_ne _ _ _ _ hkc]; exact ⟨m, hget⟩
  obtain ⟨m', hm'⟩ := hhide
  have hev : (hide s).events = s.events ++ ["hiding", "hidden"] := by
    rcases hide_cases s with ⟨hvis, _, _, _⟩ | ⟨_, _, _, _, _, _, _, _, _, he⟩
    · rw [isVisible_result] at hvis
      have he : elementAfter s = some c := by
        unfold elementAfter
        rw [if_pos]
        · exact hcur
        · rw [hcur]
          simp [truthy, hck, lookup, hget]
      rw [he] at hvis
      simp only [lookup, hget] at hvis
      rw [Elem.isShown, hsh] at hvis
      exact absurd hvis (by simp)
    · exact he
  have hto := (hide_frame s).2.1
  refine ⟨hpre, ?_, ?_, hev, hto, ?_, ?_⟩
  · rw [hm']
    simp [hnone c m' hm']
  · cases hvm : visibleMenus (hide s) with
    | nil => rfl
    | cons k rest =>
      have : k ∈ visibleMenus (hide s) := by rw [hvm]; exact List.mem_cons_self _ _
      obtain ⟨mk, hk1, hk2⟩ := (mem_visibleMenus _ k).mp this
      rw [hnone k mk hk1] at hk2
      exact absurd hk2 (by simp)
  · rw [pendingFor, show_timeouts, hpre]
    have hth : TimersOk (hide s) := ht.ok_of_eq (hide_frame s).1 (hide_frame s).2.1 (hide_frame s).2.2.1
    have := pendingFor_startTimer (hide s) hth "show" s.options.showDelay
    rw [(hide_frame s).2.2.1] at this
    exact this
  · rw [show_menus_get_of_ne_target r s node c hne, hpre]
    have h1 := (startTimer_frame (hide s) "show" s.options.showDelay).1
    have : ({ startTimer (hide s) "show" s.options.showDelay with node := some node } :
        Flyout).menus = (hide s).menus := h1
    rw [this, hm']
    simp [hnone c m' hm']
/-- The call `show(node)`, not in click mode, when nothing is to be hidden
first, no menu of the target is cached and `_buildMenu` returns a menu for
the node of the target: the menu is cached, concealed as built, and the
trigger is marked. -/
theorem show_of_built (r : PositionReadings) (s : Flyout) (node : Trigger) (key : String)
    (data : SitemapNode) (m : Elem)
    (hno : ¬ (truthy s.current = true ∧ targetOf node ≠ s.current))
    (ht : targetOf node = some key) (hm : s.menus.get key = none)
    (hd : s.dataMap.get key = some data)
    (hb : (_buildMenu s.options Parent.body data).1 = some m)
    (hmode : s.options.mode ≠ "click") :
    «show» r s node = Outcome.returned
      (markActive { s with node := some node, current := some key,
                            menus := s.menus.set key m }) := by
  have hpre : showPrelude s node = { s with node := some node } := by
    rcases showPrelude_cases s node with ⟨h1, h2, _⟩ | ⟨_, h⟩
    · exact absurd ⟨h1, h2⟩ hno
    · exact h
  have hget := getMenu_of_built { s with node := some node } key data m
    (by rw [getTarget_none _ node rfl]; exact ht) hm hd hb
  rw [show_eq, hpre, hget]
  simp only []
  rw [if_neg hmode]

/-- After the calls of `openA` the menu of "/a" is visible. -/
theorem mem_visibleMenus_openA : "/a" ∈ visibleMenus (runAll (Flyout.init {}) openA) := by
  obtain ⟨m, hb, _⟩ := children_buildMenu {} Parent.body specTree _ rfl (by decide)
  have h1 : («show» readingsTop (load (Flyout.init {}) twoTargets 0) triggerA)
      = Outcome.returned (markActive { load (Flyout.init {}) twoTargets 0 with
          node := some triggerA, current := some "/a",
          menus := (load (Flyout.init {}) twoTargets 0).menus.set "/a" m }) :=
    show_of_built readingsTop _ triggerA "/a" specTree m (by decide) rfl rfl rfl hb (by decide)
  rw [mem_visibleMenus]
  refine ⟨placed readingsTop {} m, ?_, by simp [placed]⟩
  simp only [openA, runAll, Op.run, h1, Outcome.state]
  rw [position_of_menu readingsTop _ "/a" m _ rfl (JsObject.get_set_self _ _ _) rfl]
  exact JsObject.get_set_self _ _ _

/-- C5 after the menu of "/a" is made visible: showing for "/b" conceals it. -/
theorem at_most_one_menu_visible_witness :
    "/a" ∈ visibleMenus (runAll (Flyout.init {}) openA) ∧ targetOf triggerB ≠ some "/a" ∧
      ((«show» readingsTop (runAll (Flyout.init {}) openA) triggerB).state.menus.get "/a").map
        Elem.shown = some false :=
  ⟨mem_visibleMenus_openA, by decide,
    ((at_most_one_menu_visible {} openA).2 readingsTop triggerB "/a"
      mem_visibleMenus_openA (by decide)).2.2.2.2.2.2⟩

/-! ## Placement of the top-level menu -/

@[simp] theorem Elem.style_css_eq (e : Elem) (name : String) (value : CssValue) :
    (e.css name value).style = setEntries e.style name value := by
  cases e; rfl

/-- The inline style of a placed menu. -/
theorem style_placed (r : PositionReadings) (opts : Options) (menu : Elem) :
    getEntries (placed r opts menu).style "left" = some (CssValue.num (placedLeft r opts)) ∧
      getEntries (placed r opts menu).style "top" = some (CssValue.num (placedTop r opts)) := by
  unfold placed
  simp only [Elem.style_reveal, Elem.style_css_eq]
  constructor
  · rw [getEntries_setEntries_of_ne _ _ _ _ (by decide), getEntries_setEntries_self]
  · rw [getEntries_setEntries_self]

/-- The two placements, evaluated: below a trigger near the top of the
window, above a trigger low in the window. -/
theorem placedTop_evaluated :
    placedTop readingsTop {} = 50 ∧ placedTop readingsLow {} = 300 ∧
      placedLeft readingsLow {} = 10 := by
  refine ⟨?_, ?_, ?_⟩ <;> norm_num [placedTop, placedLeft, readingsTop, readingsLow]

/-! ## Placement of a submenu -/

/-- A call on the child menus of an item that keeps their markup acts on each
of them and on nothing else. -/
theorem childMenus_onChildMenus (opts : Options) (f : Elem → Elem)
    (hf : ∀ e, (f e).markup = e.markup) (parent : Elem) :
    childMenus opts (onChildMenus opts f parent) = (childMenus opts parent).map f := by
  cases parent with
  | mk m a c t st sh h ch =>
    simp only [childMenus, onChildMenus, Elem.children]
    induction ch with
    | nil => rfl
    | cons e rest ih =>
      by_cases he : matchesMenu opts e = true
      · have he2 : matchesMenu opts (f e) = true := by
          unfold matchesMenu at he ⊢
          rw [hf]; exact he
        simp only [List.map_cons, he, if_true, List.filter_cons_of_pos he2,
          List.filter_cons_of_pos he]
        rw [ih]
      · have he3 : matchesMenu opts e = false := by simpa using he
        simp only [List.map_cons, he3, Bool.false_eq_true, if_false,
          List.filter_cons_of_neg he]
        exact ih

@[simp] theorem childMenus_addClass (opts : Options) (parent : Elem) (name : String) :
    childMenus opts (parent.addClass name) = childMenus opts parent := by
  unfold childMenus
  rw [Elem.children_addClass]

@[simp] theorem Elem.mem_classes_addClass_self (e : Elem) (name : String) :
    name ∈ (e.addClass name).classes := by
  cases e with
  | mk m a c t st sh h ch =>
    simp only [Elem.addClass, Elem.classes]
    by_cases hc : name ∈ c <;> simp [hc]

@[simp] theorem Elem.not_mem_classes_removeClass_self (e : Elem) (name : String) :
    name ∉ (e.removeClass name).classes := by
  cases e with
  | mk m a c t st sh h ch =>
    simp [Elem.removeClass, Elem.classes]

/-- The class `push-left` after `onPositionChild`: every child menu of the
item carries it exactly when `parentRight + menu.outerWidth() >= winWidth`. -/
theorem pushLeft_onPositionChild (r : ChildReadings) (s : Flyout) (parent : Elem) :
    (childMenus s.options (onPositionChild r s parent).1).map
        (fun menu => menu.hasClass "push-left")
      = (childMenus s.options parent).map
        (fun _ => decide (r.parentLeft + r.parentWidth + r.menuWidth ≥ r.windowWidth)) := by
  unfold onPositionChild
  simp only []
  rw [childMenus_onChildMenus _ _ (fun e => Elem.markup_reveal e), childMenus_addClass,
    childMenus_onChildMenus, List.map_map, List.map_map]
  · apply List.map_congr_left
    intro menu _
    simp only [Function.comp]
    by_cases h : r.parentLeft + r.parentWidth + r.menuWidth ≥ r.windowWidth
    · simp only [h, if_true, decide_True]
      split <;> simp [Elem.hasClass]
    · simp only [h, if_false, decide_False]
      split <;> simp [Elem.hasClass]
  · intro e
    split <;> split <;> simp

/-- C7, the code at the failing input.  The horizontal flip of
`onPositionChild`, evaluated where the submenu fits exactly (`R + W = VW`,
here 800 + 200 = 1000): the submenu, which did not carry the class before,
carries `push-left` after the call, because the source tests
`hWidth >= winWidth`. -/
theorem onPositionChild_exact_fit_pushes_left :
    readingsExactFit.parentLeft + readingsExactFit.parentWidth + readingsExactFit.menuWidth
        = readingsExactFit.windowWidth ∧
      (childMenus {} itemWithSubmenu).map (fun menu => menu.hasClass "push-left") = [false] ∧
      (childMenus {} (onPositionChild readingsExactFit (Flyout.init {}) itemWithSubmenu).1).map
        (fun menu => menu.hasClass "push-left") = [true] := by
  have hfit : readingsExactFit.parentLeft + readingsExactFit.parentWidth
      + readingsExactFit.menuWidth = readingsExactFit.windowWidth := by
    norm_num [readingsExactFit]
  refine ⟨hfit, by decide, ?_⟩
  have h := pushLeft_onPositionChild readingsExactFit (Flyout.init {}) itemWithSubmenu
  rw [hfit] at h
  simp only [ge_iff_le, le_refl, decide_True] at h
  exact h.trans (by decide)

/-! ## Clearing the active state -/

/-- The call `hide()` when `isVisible()` does not hold: it returns early, with
the class removed from the trigger and `element` as `isVisible()` set it. -/
theorem hide_of_not_visible (s : Flyout) (h : (isVisible s).1 = false) :
    hide s = { unmarkActive s with element := elementAfter s } := by
  obtain ⟨f1, _, _, _⟩ := unmarkActive_frame s
  have hres : (isVisible (unmarkActive s)).1 = false := by
    rw [isVisible_result, elementAfter_unmarkActive, f1, ← isVisible_result]
    exact h
  rw [hide_eq, hres, isVisible_state, elementAfter_unmarkActive]
  simp

/-- The state in which the target "/a" was activated by hovering and its menu
was built but not revealed yet. -/
theorem run_load_show (m : Elem) (hb : (_buildMenu {} Parent.body specTree).1 = some m) :
    runAll (Flyout.init {}) [Op.load twoTargets, Op.show readingsTop triggerA]
      = markActive { load (Flyout.init {}) twoTargets 0 with
          node := some triggerA, current := some "/a",
          menus := (load (Flyout.init {}) twoTargets 0).menus.set "/a" m } := by
  have h1 := show_of_built readingsTop (load (Flyout.init {}) twoTargets 0) triggerA "/a"
    specTree m (by decide) rfl rfl rfl hb (by decide)
  simp only [runAll, Op.run, h1, Outcome.state]

/-- In that state `hide()` returns early: the menu of "/a" is concealed. -/
theorem hide_run_load_show (m : Elem) (hb : (_buildMenu {} Parent.body specTree).1 = some m) :
    hide (runAll (Flyout.init {}) [Op.load twoTargets, Op.show readingsTop triggerA])
      = { unmarkActive (markActive { load (Flyout.init {}) twoTargets 0 with
            node := some triggerA, current := some "/a",
            menus := (load (Flyout.init {}) twoTargets 0).menus.set "/a" m }) with
          element := some "/a" } := by
  have hsh := shown_buildMenu _ _ _ _ hb
  rw [run_load_show m hb]
  have hel : elementAfter (markActive { load (Flyout.init {}) twoTargets 0 with
      node := some triggerA, current := some "/a",
      menus := (load (Flyout.init {}) twoTargets 0).menus.set "/a" m }) = some "/a" := by
    unfold elementAfter
    rw [if_pos]
    · rfl
    · refine ⟨rfl, ?_⟩
      show (lookup ((load (Flyout.init {}) twoTargets 0).menus.set "/a" m) (some "/a")).isSome = true
      rw [lookup, JsObject.get_set_self]
      rfl
  have hvis : (isVisible (markActive { load (Flyout.init {}) twoTargets 0 with
      node := some triggerA, current := some "/a",
      menus := (load (Flyout.init {}) twoTargets 0).menus.set "/a" m })).1 = false := by
    rw [isVisible_result, hel]
    show (match lookup ((load (Flyout.init {}) twoTargets 0).menus.set "/a" m) (some "/a") with
      | some menu => menu.isShown
      | none => false) = false
    rw [lookup, JsObject.get_set_self]
    exact hsh
  rw [hide_of_not_visible _ hvis, hel]

/-- Counterexample to C8 as stated: the target "/a" is activated and its menu
built but never revealed; `hide()` then returns early and leaves `current`
and `element` set. -/
theorem hide_keeps_active_state_when_not_revealed :
    (hide (runAll (Flyout.init {}) [Op.load twoTargets, Op.show readingsTop triggerA])).current
        = some "/a" ∧
      (hide (runAll (Flyout.init {}) [Op.load twoTargets, Op.show readingsTop triggerA])).element
        = some "/a" := by
  obtain ⟨m, hb, _⟩ := children_buildMenu {} Parent.body specTree _ rfl (by decide)
  rw [hide_run_load_show m hb]
  exact ⟨rfl, rfl⟩

/-- C8, amended. When `hide()` runs while the current menu is visible
(`isVisible()` holds), both `current` and `element` are null after it; when it
runs while no current menu is visible it returns early: `current` stays as it
is and `element` is what `isVisible()` made it (the cached menu of the current
target if there is one, else what it was). -/
theorem hide_clears_pair_when_visible (s : Flyout) :
    ((isVisible s).1 = true → (hide s).current = none ∧ (hide s).element = none) ∧
      ((isVisible s).1 = false →
        (hide s).current = s.current ∧ (hide s).element = elementAfter s) := by
  constructor
  · intro hv
    rcases hide_cases s with ⟨h, _⟩ | ⟨_, _, _, _, _, _, _, hc, he, _⟩
    · rw [hv] at h
      exact absurd h (by simp)
    · exact ⟨hc, he⟩
  · intro hv
    rw [hide_of_not_visible s hv]
    exact ⟨(unmarkActive_frame s).2.1, rfl⟩

/-- C8, amended, at a visible menu and at a concealed one. -/
theorem hide_clears_pair_when_visible_witness :
    ((isVisible (position readingsLow withMenuA).state).1 = true ∧
        (hide (position readingsLow withMenuA).state).current = none ∧
        (hide (position readingsLow withMenuA).state).element = none) ∧
      ((isVisible withMenuA).1 = false ∧
        (hide withMenuA).current = withMenuA.current ∧
        (hide withMenuA).element = elementAfter withMenuA) :=
  ⟨⟨by decide,
      (hide_clears_pair_when_visible (position readingsLow withMenuA).state).1 (by decide)⟩,
    ⟨by decide, (hide_clears_pair_when_visible withMenuA).2 (by decide)⟩⟩

/-! ## Activation without a menu -/

/-- The method `_buildMenu` returns null for a node without children. -/
theorem buildMenu_of_not_hasChildren (opts : Options) (parent : Parent) (data : SitemapNode)
    (h : hasChildren data = false) : (_buildMenu opts parent data).1 = none := by
  rw [buildMenu_eq_none_iff]
  unfold hasChildren at h
  cases hc : data.children with
  | none => exact Or.inl rfl
  | some cs =>
    rw [hc] at h
    exact Or.inr ⟨cs, rfl, by simpa using h⟩

/-- The call `hide()` adds no menu to the cache and removes none. -/
theorem hide_menus_isSome (s : Flyout) (k : String) :
    ((hide s).menus.get k).isSome = (s.menus.get k).isSome := by
  rcases hide_cases s with ⟨_, hm, _, _⟩ | ⟨_, c, mc, _, hget, _, hm, _, _, _⟩
  · rw [hm]
  · rw [hm]
    by_cases hkc : k = c
    · rw [hkc, JsObject.get_set_self, hget]
      rfl
    · rw [JsObject.get_set_of_ne _ _ _ _ hkc]

/-- The events `hide()` fires: none, or `hiding` and `hidden`. -/
theorem hide_events (s : Flyout) :
    (hide s).events = s.events ∨ (hide s).events = s.events ++ ["hiding", "hidden"] := by
  rcases hide_cases s with ⟨_, _, _, he⟩ | ⟨_, _, _, _, _, _, _, _, _, he⟩
  · exact Or.inl he
  · exact Or.inr he

/-- The first part of `show` adds no menu to the cache and removes none, and
fires at most `hiding` and `hidden`. -/
theorem showPrelude_menus_events (s : Flyout) (node : Trigger) :
    (∀ k, ((showPrelude s node).menus.get k).isSome = (s.menus.get k).isSome) ∧
      ((showPrelude s node).events = s.events ∨
        (showPrelude s node).events = s.events ++ ["hiding", "hidden"]) := by
  rcases showPrelude_cases s node with ⟨_, _, h⟩ | ⟨_, h⟩
  · rw [h]
    obtain ⟨h1, _, _, _, _, _, h7, _⟩ := startTimer_frame (hide s) "show" s.options.showDelay
    constructor
    · intro k
      show ((startTimer (hide s) "show" s.options.showDelay).menus.get k).isSome = _
      rw [h1]
      exact hide_menus_isSome s k
    · show (startTimer (hide s) "show" s.options.showDelay).events = _ ∨
        (startTimer (hide s) "show" s.options.showDelay).events = _
      rw [h7]
      exact hide_events s
  · rw [h]
    exact ⟨fun _ => rfl, Or.inl rfl⟩

/-- Activation of a target without an own entry in the menu cache and without
an own entry with children in the URL index: `_getMenu` finds and builds
nothing, and `show(node)` returns right after it. -/
theorem show_of_no_menu (r r' : PositionReadings) (s : Flyout) (node : Trigger)
    (hcache : lookup s.menus (targetOf node) = none)
    (hdata : ∀ key data, targetOf node = some key → s.dataMap.get key = some data →
      hasChildren data = false) :
    (_getMenu (showPrelude s node)).1 = none ∧
      (_getMenu (showPrelude s node)).2.menus = (showPrelude s node).menus ∧
      «show» r s node = Outcome.returned (_getMenu (showPrelude s node)).2 ∧
      (∀ k, ((«show» r s node).state.menus.get k).isSome = (s.menus.get k).isSome) ∧
      («show» r s node).state.node = some node ∧
      («show» r s node).state.current = targetOf node ∧
      ((«show» r s node).state.events = s.events ∨
        («show» r s node).state.events = s.events ++ ["hiding", "hidden"]) ∧
      position r' («show» r s node).state = Outcome.returned («show» r s node).state := by
  obtain ⟨fd, fo, _, fn⟩ := showPrelude_frame s node
  obtain ⟨hkeys, hev⟩ := showPrelude_menus_events s node
  have htarget : _getTarget (showPrelude s node) none = targetOf node :=
    getTarget_none _ node fn
  have hcache2 : lookup (showPrelude s node).menus (_getTarget (showPrelude s node) none)
      = none := by
    rw [htarget]
    cases ht : targetOf node with
    | none => rfl
    | some key =>
      rw [ht] at hcache
      simp only [lookup] at hcache ⊢
      have := hkeys key
      rw [hcache] at this
      exact Option.not_isSome_iff_eq_none.mp (by rw [this]; simp)
  have hget := getMenu_of_none (showPrelude s node) hcache2 (by
    intro key data ht hd
    rw [htarget] at ht
    rw [fd] at hd
    exact buildMenu_of_not_hasChildren _ _ _ (hdata key data ht hd))
  have hshow : «show» r s node = Outcome.returned (_getMenu (showPrelude s node)).2 := by
    rw [show_eq, hget]
  have hstate : («show» r s node).state
      = { showPrelude s node with current := targetOf node } := by
    rw [hshow, hget, htarget]
    rfl
  refine ⟨by rw [hget], by rw [hget], hshow, ?_, ?_, ?_, ?_, ?_⟩
  · intro k
    rw [hstate]
    exact hkeys k
  · rw [hstate]
    exact fn
  · rw [hstate]
  · rw [hstate]
    exact hev
  · apply position_of_no_menu
    rw [hstate]
    show lookup (showPrelude s node).menus (targetOf node) = none
    rw [← htarget]
    exact hcache2

/-- C9, amended. For a target that names no member of `Object.prototype`, in
a state whose current target and current element name none either and whose
URL index still has `Object.prototype` as its prototype, when the target has
no menu in the cache and either no entry in the URL index or an indexed node
with absent or empty children: `_getMenu` returns null and adds no entry to
the menu cache; `show(node)` returns right after `_getMenu`, so it neither
marks the trigger nor calls `position`, and fires neither `showing` nor
`shown`; the cache has the same keys as before; and a later `position()`
changes nothing, so it reveals nothing and fires nothing. -/
theorem no_menu_nothing_shown (r r' : PositionReadings) (s : Flyout) (node : Trigger)
    (key : String) (ht : targetOf node = some key)
    (hkey : key ∉ objectPrototypeKeys)
    (hstate : ∀ c, s.current = some c ∨ s.element = some c → c ∉ objectPrototypeKeys)
    (hproto : s.dataMapProto = none)
    (hcache : s.menus.get key = none)
    (hdata : ∀ data, s.dataMap.get key = some data → hasChildren data = false) :
    (_getMenu (showPrelude s node)).1 = none ∧
      (_getMenu (showPrelude s node)).2.menus = (showPrelude s node).menus ∧
      «show» r s node = Outcome.returned (_getMenu (showPrelude s node)).2 ∧
      (∀ k, ((«show» r s node).state.menus.get k).isSome = (s.menus.get k).isSome) ∧
      («show» r s node).state.node = some node ∧
      («show» r s node).state.current = some key ∧
      ((«show» r s node).state.events = s.events ∨
        («show» r s node).state.events = s.events ++ ["hiding", "hidden"]) ∧
      position r' («show» r s node).state = Outcome.returned («show» r s node).state := by
  have h := show_of_no_menu r r' s node (by rw [ht]; exact hcache) (by
    intro k data hk hd
    rw [ht] at hk
    rw [← Option.some.inj hk] at hd
    exact hdata data hd)
  rw [ht] at h
  exact h

/-- The call `show(node)`, not in click mode, when nothing is to be hidden
first and the menu of the target is cached: the trigger is marked. -/
theorem show_of_cached (r : PositionReadings) (s : Flyout) (node : Trigger) (m : Elem)
    (hno : ¬ (truthy s.current = true ∧ targetOf node ≠ s.current))
    (hm : lookup s.menus (targetOf node) = some m)
    (hmode : s.options.mode ≠ "click") :
    «show» r s node = Outcome.returned
      (markActive { s with node := some node, current := targetOf node }) := by
  have hpre : showPrelude s node = { s with node := some node } := by
    rcases showPrelude_cases s node with ⟨h1, h2, _⟩ | ⟨_, h⟩
    · exact absurd ⟨h1, h2⟩ hno
    · exact h
  have hget := getMenu_of_cached { s with node := some node } m
    (by rw [getTarget_none _ node rfl]; exact hm)
  rw [getTarget_none _ node rfl] at hget
  rw [show_eq, hpre, hget]
  simp only []
  rw [if_neg hmode]

/-- Counterexample to C9 as stated: the menu of "/a" is built and cached, then
the data is loaded again with "/a" as a node without children.  The indexed
node of "/a" has no children, yet `_getMenu` returns the cached menu and
`show(node)` marks the trigger. -/
theorem cached_menu_wins_over_childless_node :
    ((runAll (Flyout.init {}) staleOps).dataMap.get "/a").map hasChildren = some false ∧
      (_getMenu { runAll (Flyout.init {}) staleOps with node := some triggerA }).1.isSome
        = true ∧
      («show» readingsTop (runAll (Flyout.init {}) staleOps) triggerA).state.node.map
        Trigger.classes = some ["is-active"] := by
  obtain ⟨m, hb, _⟩ := children_buildMenu {} Parent.body specTree _ rfl (by decide)
  have hrun : runAll (Flyout.init {}) staleOps
      = load (hide (runAll (Flyout.init {}) [Op.load twoTargets,
          Op.show readingsTop triggerA])) leafA 0 := rfl
  have hhide := hide_run_load_show m hb
  obtain ⟨_, _, _, fm, fc, _, _, fo, _⟩ := load_frame
    (hide (runAll (Flyout.init {}) [Op.load twoTargets, Op.show readingsTop triggerA])) leafA 0
  have hmenus : (runAll (Flyout.init {}) staleOps).menus.get "/a" = some m := by
    rw [hrun, fm, hhide]
    exact JsObject.get_set_self _ _ _
  have hcur : (runAll (Flyout.init {}) staleOps).current = some "/a" := by
    rw [hrun, fc, hhide]
    rfl
  have hopt : (runAll (Flyout.init {}) staleOps).options.mode ≠ "click" := by
    rw [hrun, fo, hhide]
    show (load (Flyout.init {}) twoTargets 0).options.mode ≠ "click"
    decide
  refine ⟨?_, ?_, ?_⟩
  · rw [hrun, get_dataMap_load _ leafA 0 "/a" (by decide) (by decide)]
    rfl
  · rw [getMenu_of_cached _ m (by rw [getTarget_none _ triggerA rfl]; exact hmenus)]
    rfl
  · rw [show_of_cached readingsTop _ triggerA m (by rw [hcur]; exact fun h => h.2 rfl)
      hmenus hopt]
    rfl
/-- C9, amended, at a target whose node has no children and at a target the
sitemap does not have. -/
theorem no_menu_nothing_shown_witness :
    ((load (Flyout.init {}) twoTargets 0).menus.get "/a/1" = none ∧
        ((load (Flyout.init {}) twoTargets 0).dataMap.get "/a/1").map hasChildren
          = some false ∧
        («show» readingsTop (load (Flyout.init {}) twoTargets 0) triggerLeaf).state.node
          = some triggerLeaf ∧
        position readingsLow
            («show» readingsTop (load (Flyout.init {}) twoTargets 0) triggerLeaf).state
          = Outcome.returned
            («show» readingsTop (load (Flyout.init {}) twoTargets 0) triggerLeaf).state) ∧
      ((load (Flyout.init {}) twoTargets 0).menus.get "/nowhere" = none ∧
        (load (Flyout.init {}) twoTargets 0).dataMap.get "/nowhere" = none ∧
        («show» readingsTop (load (Flyout.init {}) twoTargets 0) triggerUnknown).state.node
          = some triggerUnknown) :=
  have hcur : ∀ c, (load (Flyout.init {}) twoTargets 0).current = some c ∨
      (load (Flyout.init {}) twoTargets 0).element = some c →
      c ∉ objectPrototypeKeys := fun c hc => by
        rw [(load_frame _ _ _).2.2.2.2.1, (load_frame _ _ _).2.2.2.2.2.1] at hc
        simp [Flyout.init] at hc
  have hleaf : ∀ data, (load (Flyout.init {}) twoTargets 0).dataMap.get "/a/1" = some data →
      hasChildren data = false := by
    intro data hd
    have h1 : (load (Flyout.init {}) twoTargets 0).dataMap.get "/a/1"
        = some (.mk (some "/a/1") "One" none none none none) := rfl
    rw [h1] at hd
    rw [← Option.some.inj hd]
    rfl
  have hunknown : ∀ data,
      (load (Flyout.init {}) twoTargets 0).dataMap.get "/nowhere" = some data →
      hasChildren data = false := by
    intro data hd
    have h1 : (load (Flyout.init {}) twoTargets 0).dataMap.get "/nowhere" = none := rfl
    rw [h1] at hd
    exact absurd hd (by simp)
  ⟨⟨rfl, rfl,
      (no_menu_nothing_shown readingsTop readingsLow (load (Flyout.init {}) twoTargets 0)
        triggerLeaf "/a/1" rfl (by decide) hcur rfl rfl hleaf).2.2.2.2.1,
      (no_menu_nothing_shown readingsTop readingsLow (load (Flyout.init {}) twoTargets 0)
        triggerLeaf "/a/1" rfl (by decide) hcur rfl rfl hleaf).2.2.2.2.2.2.2⟩,
    ⟨rfl, rfl,
      (no_menu_nothing_shown readingsTop readingsLow (load (Flyout.init {}) twoTargets 0)
        triggerUnknown "/nowhere" rfl (by decide) hcur rfl rfl hunknown).2.2.2.2.1⟩⟩

/-! ## End to end -/

theorem attrAll_frame (pairs : List (String × String)) (e : Elem) :
    (e.attrAll pairs).markup = e.markup ∧ (e.attrAll pairs).text = e.text ∧
      (e.attrAll pairs).children = e.children := by
  unfold Elem.attrAll
  induction pairs generalizing e with
  | nil => exact ⟨rfl, rfl, rfl⟩
  | cons p rest ih =>
    rw [List.foldl_cons]
    obtain ⟨h1, h2, h3⟩ := ih (e.attr p.1 p.2)
    rw [h1, h2, h3]
    simp

@[simp] theorem Elem.attrs_attr_eq (e : Elem) (name value : String) :
    (e.attr name value).attrs = setEntries e.attrs (lowerCase name) value := by
  cases e; rfl

/-- An attribute that none of the pairs set names, in whatever letter case, is
as it was. -/
theorem getEntries_attrAll (pairs : List (String × String)) (e : Elem) (name : String)
    (h : ∀ p ∈ pairs, lowerCase p.1 ≠ name) :
    getEntries (e.attrAll pairs).attrs name = getEntries e.attrs name := by
  unfold Elem.attrAll
  induction pairs generalizing e with
  | nil => rfl
  | cons p rest ih =>
    rw [List.foldl_cons, ih _ (fun q hq => h q (List.mem_cons_of_mem _ hq)),
      Elem.attrs_attr_eq,
      getEntries_setEntries_of_ne _ _ _ _ (Ne.symm (h p (List.mem_cons_self _ _)))]

/-- The tag of a child that carries a url, seen without the attributes the
child declares. -/
theorem viewOfTag_buildTag (child : SitemapNode) (hu : truthy child.url = true)
    (ha : ∀ attributes, child.attributes = some attributes →
      ∀ p ∈ attributes, lowerCase p.1 ≠ "href" ∧ lowerCase p.1 ≠ "role") :
    viewOfTag (buildTag child) = linkOf child := by
  obtain ⟨u, hurl⟩ : ∃ u, child.url = some u := by
    cases h : child.url with
    | none => rw [h] at hu; exact absurd hu (by simp [truthy])
    | some u => exact ⟨u, rfl⟩
  unfold buildTag viewOfTag linkOf
  simp only [hu, if_true]
  cases hattr : child.attributes with
  | none =>
    simp only [hurl, Option.getD_some, Elem.markup_prepend, Elem.markup_attr,
      Elem.markup_setText, Elem.markup_create, Elem.text_prepend, Elem.text_attr,
      Elem.attrs_prepend, Elem.attrs_attr_eq, Elem.attrs_setText]
    rfl
  | some attributes =>
    have h1 := ha attributes hattr
    obtain ⟨f1, f2, _⟩ := attrAll_frame attributes
      ((((Elem.create "<a/>").setText child.title).attr "href" (child.url.getD "")).attr
        "role" "menuitem" |>.prepend ((Elem.create "<span/>").addClass
          (if truthy child.icon then child.icon.getD "" else "caret-right")))
    simp only []
    rw [f1, f2, getEntries_attrAll _ _ "href" (fun p hp => (h1 p hp).1),
      getEntries_attrAll _ _ "role" (fun p hp => (h1 p hp).2)]
    simp only [hurl, Option.getD_some, Elem.markup_prepend, Elem.markup_attr,
      Elem.markup_setText, Elem.markup_create, Elem.text_prepend, Elem.text_attr,
      Elem.attrs_prepend, Elem.attrs_attr_eq, Elem.attrs_setText]
    rfl

/-- The children of the list item `buildItem` makes: the tag. -/
theorem children_buildItem (opts : Options) (child : SitemapNode) :
    (buildItem opts child).children = [buildTag child] := by
  unfold buildItem
  simp only []
  split <;> split <;> simp

/-- The parent after `_buildMenu`: as it was, or with the menu appended. -/
theorem parent_buildMenu (opts : Options) (li : Elem) (data : SitemapNode) :
    ((_buildMenu opts (Parent.item li) data).2.itemOr li).children = li.children ∨
      ∃ menu, ((_buildMenu opts (Parent.item li) data).2.itemOr li).children
        = li.children ++ [menu] := by
  rw [_buildMenu_eq]
  split
  · exact Or.inl rfl
  · split
    · exact Or.inl rfl
    · right
      unfold finishMenu
      simp only [Parent.append, Parent.itemOr]
      exact ⟨_, Elem.children_append_eq _ _⟩

/-- The first child of a finished list item is the tag of the child. -/
theorem tagView_finishItem (opts : Options) (child : SitemapNode) :
    tagView (finishItem opts child) = some (viewOfTag (buildTag child)) := by
  unfold tagView finishItem
  simp only []
  split
  · simp only [Elem.children_onEvent, Elem.children_aria, Elem.children_addClass]
    rcases parent_buildMenu opts (buildItem opts child) child with h | ⟨menu, h⟩
    · rw [h, children_buildItem]; rfl
    · rw [h, children_buildItem]; rfl
  · rw [children_buildItem]; rfl
@[simp] theorem children_placed (r : PositionReadings) (opts : Options) (menu : Elem) :
    (placed r opts menu).children = menu.children := by
  unfold placed
  simp

/-- Activating a target whose node has children and no cached menu: the menu
`_buildMenu` returns for the node is cached under the target, with the
children it was built with. -/
theorem show_builds_menu (r : PositionReadings) (s : Flyout) (T n : SitemapNode) (u : String)
    (cs : List SitemapNode) (node : Trigger)
    (hu : u ≠ "") (hp : u ≠ "__proto__") (hlast : lastWithUrl T u = some n)
    (hcs : n.children = some cs)
    (hne : cs.length ≠ 0) (ht : targetOf node = some u) (hcache : s.menus.get u = none) :
    ∃ m, («show» r (load s T 0) node).state.menus.get u = some m ∧
      m.children = (computeGroups cs s.options.itemLimit).map (buildList s.options) := by
  obtain ⟨_, _, _, lm, _, _, _, lo, _⟩ := load_frame s T 0
  have hdata : (load s T 0).dataMap.get u = some n := by
    rw [get_dataMap_load s T 0 u hu hp]
    unfold lastWithUrl at hlast
    rw [hlast]
    rfl
  obtain ⟨fd, fo, _, fn⟩ := showPrelude_frame (load s T 0) node
  obtain ⟨hkeys, _⟩ := showPrelude_menus_events (load s T 0) node
  have htarget : _getTarget (showPrelude (load s T 0) node) none = some u :=
    (getTarget_none _ node fn).trans ht
  have hcache2 : (showPrelude (load s T 0) node).menus.get u = none := by
    have := hkeys u
    rw [lm, hcache] at this
    exact Option.not_isSome_iff_eq_none.mp (by rw [this]; simp)
  obtain ⟨m, hb, hch⟩ := children_buildMenu (showPrelude (load s T 0) node).options
    Parent.body n cs hcs hne
  have hget := getMenu_of_built (showPrelude (load s T 0) node) u n m htarget hcache2
    (by rw [fd]; exact hdata) hb
  rw [fo, lo] at hch
  rw [show_eq, hget]
  simp only []
  split
  · have hnode : ∃ n', (markActive
        { showPrelude (load s T 0) node with
          current := some u,
          menus := (showPrelude (load s T 0) node).menus.set u m }).node = some n' := by
      simp [markActive, fn]
    obtain ⟨n', hn'⟩ := hnode
    rw [position_of_menu r _ u m n' rfl (JsObject.get_set_self _ _ _) hn']
    refine ⟨_, JsObject.get_set_self _ _ _, ?_⟩
    rw [children_placed]
    exact hch
  · exact ⟨m, JsObject.get_set_self _ _ _, hch⟩
/-- The groups of at most `limit` children: the children, as one group. -/
theorem computeGroups_of_le {α : Type} (children : List α) (limit : Nat)
    (h : children.length ≤ limit) : computeGroups children limit = [children] := by
  unfold computeGroups
  rw [dif_neg]
  intro hc
  omega

/-- The views of the tags of the items of a list. -/
theorem tagView_buildList (opts : Options) (group : List SitemapNode) :
    (buildList opts group).children.map tagView
      = group.map (fun c => some (viewOfTag (buildTag c))) := by
  rw [children_buildList, List.map_map]
  apply List.map_congr_left
  intro c _
  exact tagView_finishItem opts c

/-- The name of an attribute is taken in lower case: a child that declares
`HREF` overrides the `href` of its link. -/
theorem buildTag_attribute_name_lower_case :
    lowerCase "HREF" = "href" ∧ lowerCase "Role" = "role" ∧
      viewOfTag (buildTag (.mk (some "/a/1") "One" none none none
          (some [("HREF", "/elsewhere")])))
        = { markup := "<a/>", text := some "One", href := some "/elsewhere",
            role := some "menuitem" } := by
  decide

/-- Names `setAttribute` accepts, and names for which it throws. -/
theorem attributeName_evaluated :
    attributeName "data-x" = true ∧ attributeName "target" = true ∧
      attributeName "" = false ∧ attributeName "a b" = false := by
  decide

/-- Counterexample to C10 as stated: the node "/a" has one child, which
carries the url "/a/1" and declares the attribute `href`; activating "/a" with
the default limit builds one group with one link, and the `href` of the link
is the declared attribute, not the url of the child. -/
theorem attributes_override_href :
    overrideChild.url = some "/a/1" ∧
      ∃ menu ul, («show» readingsTop (load (Flyout.init {}) overrideTree 0) triggerA).state.menus.get
          "/a" = some menu ∧
        menu.children = [ul] ∧
        ul.children.map tagView
          = [some { markup := "<a/>", text := some "One", href := some "/elsewhere",
                    role := some "menuitem" }] := by
  refine ⟨rfl, ?_⟩
  obtain ⟨m, hget, hch⟩ := show_builds_menu readingsTop (Flyout.init {}) overrideTree
    overrideTree "/a" [overrideChild] triggerA (by decide) (by decide) rfl rfl (by decide) rfl rfl
  refine ⟨m, buildList {} [overrideChild], hget, ?_, ?_⟩
  · rw [hch]
    rfl
  · rw [tagView_buildList]
    decide

/-- C10, amended. For every tree loaded with `load`, into a state whose
current target and current element name no member of `Object.prototype`,
whose node at the url `u` (the last node that carries it; `u` is not empty and
names no member of `Object.prototype`) has `k` children, `1 ≤ k ≤ itemLimit`,
that all carry a url and declare neither `href` nor `role`, in any letter
case, among their attributes, every attribute declared below the node having a
name `setAttribute` accepts: activating the target `u`, which has no cached
menu, builds and caches a menu with exactly one group container holding
exactly `k` items, each a link with role `menuitem` and `href` the url of the
child, labelled with the title of the child, in the order of the children. -/
theorem activation_builds_one_group (r : PositionReadings) (s : Flyout) (T n : SitemapNode)
    (u : String) (cs : List SitemapNode) (node : Trigger)
    (hu : u ≠ "") (hkey : u ∉ objectPrototypeKeys)
    (hstate : ∀ c, s.current = some c ∨ s.element = some c → c ∉ objectPrototypeKeys)
    (hlast : lastWithUrl T u = some n) (hcs : n.children = some cs)
    (hk1 : 1 ≤ cs.length) (hk2 : cs.length ≤ s.options.itemLimit)
    (hurl : ∀ c ∈ cs, truthy c.url = true)
    (hattr : ∀ c ∈ cs, ∀ attributes, c.attributes = some attributes →
      ∀ p ∈ attributes, lowerCase p.1 ≠ "href" ∧ lowerCase p.1 ≠ "role")
    (hnames : ∀ c ∈ preorderAll cs, ∀ attributes, c.attributes = some attributes →
      ∀ p ∈ attributes, attributeName p.1 = true)
    (ht : targetOf node = some u) (hcache : s.menus.get u = none) :
    ∃ menu ul, («show» r (load s T 0) node).state.menus.get u = some menu ∧
      menu.children = [ul] ∧ groupContainers menu = [ul] ∧
      ul.children.length = cs.length ∧
      ul.children.map tagView = cs.map (fun c => some (linkOf c)) := by
  have hp : u ≠ "__proto__" := fun h => hkey (by rw [h]; decide)
  obtain ⟨m, hget, hch⟩ :=
    show_builds_menu r s T n u cs node hu hp hlast hcs (by omega) ht hcache
  rw [computeGroups_of_le cs _ hk2] at hch
  refine ⟨m, buildList s.options cs, hget, hch, ?_, ?_, ?_⟩
  · unfold groupContainers
    rw [hch]
    simp
  · rw [children_buildList, List.length_map]
  · rw [tagView_buildList]
    apply List.map_congr_left
    intro c hc
    rw [viewOfTag_buildTag c (hurl c hc) (hattr c hc)]

/-- C10, amended, at the scenario of the specification: one group with the
items "One" and "Two", in that order. -/
theorem activation_builds_one_group_witness :
    ∃ menu ul, («show» readingsTop (load (Flyout.init {}) specTree 0) triggerA).state.menus.get
        "/a" = some menu ∧
      menu.children = [ul] ∧ groupContainers menu = [ul] ∧
      ul.children.length = 2 ∧
      ul.children.map tagView
        = [some { markup := "<a/>", text := some "One", href := some "/a/1",
                  role := some "menuitem" },
           some { markup := "<a/>", text := some "Two", href := some "/a/2",
                  role := some "menuitem" }] :=
  activation_builds_one_group readingsTop (Flyout.init {}) specTree specTree "/a"
    [.mk (some "/a/1") "One" none none none none, .mk (some "/a/2") "Two" none none none none]
    triggerA (by decide) (by decide) (by intro c hc; simp [Flyout.init] at hc) rfl rfl
    (by decide) (by decide)
    (by intro c hc; simp at hc; rcases hc with h | h <;> subst h <;> rfl)
    (by intro c hc attributes ha; simp at hc; rcases hc with h | h <;> subst h <;> cases ha)
    (by
      intro c hc attributes ha
      simp [preorderAll, preorder] at hc
      rcases hc with h | h <;> subst h <;> cases ha)
    rfl rfl

/-! ## The vertical flip of a submenu -/

/-- The inline `top` after `onPositionChild`: every child menu of the item
gets `'-' + (menu.outerHeight() - parentHeight) + 'px'` when the top of the
parent is past the middle of window height plus scroll offset, else 0. -/
theorem top_onPositionChild (r : ChildReadings) (s : Flyout) (parent : Elem) :
    (childMenus s.options (onPositionChild r s parent).1).map
        (fun menu => getEntries menu.style "top")
      = (childMenus s.options parent).map
        (fun _ => some (if r.parentTop > (r.windowHeight + r.scrollTop) / 2 then
          CssValue.concat "-" (r.menuHeight - r.parentHeight) "px"
        else CssValue.num 0)) := by
  unfold onPositionChild
  simp only []
  rw [childMenus_onChildMenus _ _ (fun e => Elem.markup_reveal e), childMenus_addClass,
    childMenus_onChildMenus, List.map_map, List.map_map]
  · apply List.map_congr_left
    intro menu _
    simp only [Function.comp, Elem.style_reveal]
    split
    · rw [Elem.style_css_eq, getEntries_setEntries_self]
    · rw [Elem.style_css_eq, getEntries_setEntries_self]
  · intro e
    split <;> split <;> simp

/-- C11, the code at the failing input.  The parent item lies below the middle
of the window and its submenu is shorter than it (`MH = 20`, `PH = 30`): the
value `onPositionChild` gives to `css('top', _)` is the string
`'-' + (-10) + 'px'`, that is "--10px", which is no CSS length; the length
`-(MH - PH) px` would be 10px. -/
theorem onPositionChild_short_submenu_top :
    readingsShortSubmenu.parentTop
        > (readingsShortSubmenu.windowHeight + readingsShortSubmenu.scrollTop) / 2 ∧
      readingsShortSubmenu.menuHeight < readingsShortSubmenu.parentHeight ∧
      (childMenus {} (onPositionChild readingsShortSubmenu (Flyout.init {}) itemWithSubmenu).1).map
          (fun menu => getEntries menu.style "top")
        = [some (CssValue.concat "-" (-10) "px")] ∧
      (CssValue.concat "-" (-10) "px").render = some "--10px" ∧
      (CssValue.concat "-" (-10) "px").length = none ∧
      -(readingsShortSubmenu.menuHeight - readingsShortSubmenu.parentHeight) = 10 := by
  have hpast : readingsShortSubmenu.parentTop
      > (readingsShortSubmenu.windowHeight + readingsShortSubmenu.scrollTop) / 2 := by
    norm_num [readingsShortSubmenu]
  have hdiff : readingsShortSubmenu.menuHeight - readingsShortSubmenu.parentHeight = -10 := by
    norm_num [readingsShortSubmenu]
  refine ⟨hpast, by norm_num [readingsShortSubmenu], ?_, ?_, ?_, by rw [hdiff]; norm_num⟩
  · have h := top_onPositionChild readingsShortSubmenu (Flyout.init {}) itemWithSubmenu
    rw [if_pos hpast, hdiff] at h
    exact h.trans (by decide)
  · have hden : (-10 : ℚ).den = 1 := by norm_num
    have hnum : (-10 : ℚ).num = -10 := by norm_num
    simp only [CssValue.render, numberString, hden, hnum, if_true, Option.map_some']
    decide
  · have h2 : ¬ ("-" : String) = "" := by decide
    simp only [CssValue.length, if_true, h2, if_false]
    norm_num
/-- Where the claim holds: for a submenu at least as high as its parent item
the inline `top` after `onPositionChild` is the length `-(MH - PH)` when the
parent is past the middle, and it is 0 when the parent is not past it. -/
theorem top_length_onPositionChild (r : ChildReadings) (s : Flyout) (parent : Elem)
    (h : r.parentHeight ≤ r.menuHeight ∨ ¬ r.parentTop > (r.windowHeight + r.scrollTop) / 2) :
    (childMenus s.options (onPositionChild r s parent).1).map
        (fun menu => (getEntries menu.style "top").bind CssValue.length)
      = (childMenus s.options parent).map
        (fun _ => some (if r.parentTop > (r.windowHeight + r.scrollTop) / 2 then
          -(r.menuHeight - r.parentHeight) else 0)) := by
  have key := congrArg (List.map (fun v : Option CssValue => v.bind CssValue.length))
    (top_onPositionChild r s parent)
  rw [List.map_map, List.map_map] at key
  refine Eq.trans key ?_
  apply List.map_congr_left
  intro menu _
  simp only [Function.comp, Option.some_bind]
  have h2 : ¬ ("-" : String) = "" := by decide
  by_cases hp : r.parentTop > (r.windowHeight + r.scrollTop) / 2
  · have hle : 0 ≤ r.menuHeight - r.parentHeight := by
      rcases h with h | h
      · exact sub_nonneg.mpr h
      · exact absurd hp h
    simp only [hp, if_true, CssValue.length, h2, if_false, hle]
  · simp only [hp, if_false, CssValue.length]

/-! ## The menu cache is written once -/

theorem SameEntry.trans {a b c : Elem} (h1 : SameEntry a b) (h2 : SameEntry b c) :
    SameEntry a c := by
  induction h2 with
  | same => exact h1
  | concealed x _ ih => exact SameEntry.concealed x ih
  | placed r opts x _ ih => exact SameEntry.placed r opts x ih

/-- The same entry has the same markup, attributes, classes, text, handlers
and children. -/
theorem SameEntry.built {a b : Elem} (h : SameEntry a b) :
    b.markup = a.markup ∧ b.attrs = a.attrs ∧ b.classes = a.classes ∧ b.text = a.text ∧
      b.handlers = a.handlers ∧ b.children = a.children := by
  induction h with
  | same => exact ⟨rfl, rfl, rfl, rfl, rfl, rfl⟩
  | concealed x _ ih => simpa using ih
  | placed r opts x _ ih => simpa [Toolkit.placed] using ih

/-- The entry of a key after `hide()`. -/
theorem hide_entry (s : Flyout) (t : String) (m : Elem) (hm : s.menus.get t = some m) :
    ∃ m', (hide s).menus.get t = some m' ∧ SameEntry m m' := by
  rcases hide_cases s with ⟨_, h, _, _⟩ | ⟨_, k, mk, _, hk, _, h, _, _, _⟩
  · rw [h]
    exact ⟨m, hm, SameEntry.same⟩
  · rw [h]
    by_cases htk : t = k
    · subst htk
      rw [hm, Option.some.injEq] at hk
      subst hk
      exact ⟨m.conceal, JsObject.get_set_self _ _ _, SameEntry.concealed m SameEntry.same⟩
    · rw [JsObject.get_set_of_ne _ _ _ _ htk]
      exact ⟨m, hm, SameEntry.same⟩

/-- The entry of a key after `position()`. -/
theorem position_entry (r : PositionReadings) (s : Flyout) (t : String) (m : Elem)
    (hm : s.menus.get t = some m) :
    ∃ m', (position r s).state.menus.get t = some m' ∧ SameEntry m m' := by
  rcases position_menus r s with h | ⟨c, mc, _, hc, h⟩
  · rw [h]
    exact ⟨m, hm, SameEntry.same⟩
  · rw [h]
    by_cases htc : t = c
    · subst htc
      rw [hm, Option.some.injEq] at hc
      subst hc
      exact ⟨placed r s.options m, JsObject.get_set_self _ _ _,
        SameEntry.placed r s.options m SameEntry.same⟩
    · rw [JsObject.get_set_of_ne _ _ _ _ htc]
      exact ⟨m, hm, SameEntry.same⟩

/-- The entry of a key after `_getMenu()`: as it was, whatever the target. -/
theorem getMenu_entry (s : Flyout) (t : String) (m : Elem) (hm : s.menus.get t = some m) :
    (_getMenu s).2.menus.get t = some m := by
  rcases getMenu_menus s with h | ⟨key, _, mb, _, hnone, _, _, _, h⟩
  · rw [h]
    exact hm
  · rw [h]
    have htk : t ≠ key := by
      intro heq
      rw [heq, hnone] at hm
      exact absurd hm (by simp)
    rw [JsObject.get_set_of_ne _ _ _ _ htk]
    exact hm

/-- The entry of a key after the first part of `show`. -/
theorem showPrelude_entry (s : Flyout) (node : Trigger) (t : String) (m : Elem)
    (hm : s.menus.get t = some m) :
    ∃ m', (showPrelude s node).menus.get t = some m' ∧ SameEntry m m' := by
  rcases showPrelude_cases s node with ⟨_, _, h⟩ | ⟨_, h⟩
  · rw [h]
    obtain ⟨m', h1, h2⟩ := hide_entry s t m hm
    refine ⟨m', ?_, h2⟩
    show (startTimer (hide s) "show" s.options.showDelay).menus.get t = some m'
    rw [(startTimer_frame (hide s) "show" s.options.showDelay).1]
    exact h1
  · rw [h]
    exact ⟨m, hm, SameEntry.same⟩

/-- The entry of a key after `show(node)`. -/
theorem show_entry (r : PositionReadings) (s : Flyout) (node : Trigger) (t : String)
    (m : Elem) (hm : s.menus.get t = some m) :
    ∃ m', («show» r s node).state.menus.get t = some m' ∧ SameEntry m m' := by
  obtain ⟨m1, h1, e1⟩ := showPrelude_entry s node t m hm
  have h2 := getMenu_entry (showPrelude s node) t m1 h1
  rw [show_eq]
  split
  · exact ⟨m1, h2, e1⟩
  · split
    · obtain ⟨m3, h3, e3⟩ := position_entry r (markActive (_getMenu (showPrelude s node)).2)
        t m1 h2
      exact ⟨m3, h3, e1.trans e3⟩
    · exact ⟨m1, h2, e1⟩

/-- The entry of a key after a timeout fires. -/
theorem fireTimeout_entry (r : PositionReadings) (s : Flyout) (id : Nat) (t : String)
    (m : Elem) (hm : s.menus.get t = some m) :
    ∃ m', (fireTimeout r s id).state.menus.get t = some m' ∧ SameEntry m m' := by
  unfold fireTimeout
  split
  · exact ⟨m, hm, SameEntry.same⟩
  · simp only []
    split
    · exact position_entry r _ t m hm
    · exact hide_entry _ t m hm

/-- The entry of a key after any call. -/
theorem run_entry (op : Op) (s : Flyout) (t : String) (m : Elem)
    (hm : s.menus.get t = some m) :
    ∃ m', (op.run s).state.menus.get t = some m' ∧ SameEntry m m' := by
  cases op with
  | load data =>
    refine ⟨m, ?_, SameEntry.same⟩
    show (load s data 0).menus.get t = some m
    rw [(load_frame s data 0).2.2.2.1]
    exact hm
  | «show» r node => exact show_entry r s node t m hm
  | hide => exact hide_entry s t m hm
  | position r => exact position_entry r s t m hm
  | startTimer key delay =>
    refine ⟨m, ?_, SameEntry.same⟩
    show (startTimer s key delay).menus.get t = some m
    rw [(startTimer_frame s key delay).1]
    exact hm
  | clearTimer key =>
    refine ⟨m, ?_, SameEntry.same⟩
    show (clearTimer s key).menus.get t = some m
    rw [(clearTimer_frame s key).1]
    exact hm
  | onEnter =>
    refine ⟨m, ?_, SameEntry.same⟩
    show (startTimer (clearTimer s "hide") "show" s.options.showDelay).menus.get t = some m
    rw [(startTimer_frame _ _ _).1, (clearTimer_frame s "hide").1]
    exact hm
  | onLeave =>
    refine ⟨m, ?_, SameEntry.same⟩
    show (startTimer (clearTimer s "show") "hide" s.options.showDelay).menus.get t = some m
    rw [(startTimer_frame _ _ _).1, (clearTimer_frame s "show").1]
    exact hm
  | fire r id => exact fireTimeout_entry r s id t m hm

/-- The entry of a key after any sequence of calls. -/
theorem runAll_entry (ops : List Op) (s : Flyout) (t : String) (m : Elem)
    (hm : s.menus.get t = some m) :
    ∃ m', (runAll s ops).menus.get t = some m' ∧ SameEntry m m' := by
  induction ops generalizing s m with
  | nil => exact ⟨m, hm, SameEntry.same⟩
  | cons op rest ih =>
    obtain ⟨m1, h1, e1⟩ := run_entry op s t m hm
    obtain ⟨m2, h2, e2⟩ := ih (op.run s).state m1 h1
    exact ⟨m2, h2, e1.trans e2⟩
/-- C12. For every target `t` with an entry `m` in the menu cache: after any
sequence of later calls (`load` with any data, `show`, `hide`, `position`,
`startTimer`, `clearTimer`, the handlers, timers firing) `menus[t]` is still
that entry, the same element on which at most `conceal()` and
`css({left, top}).reveal()` were called; `load`, `startTimer`, `clearTimer`
and `_getMenu` leave it exactly as it is; and whenever the target is `t`,
also right after `load` has replaced the data and the URL index, `_getMenu`
returns the cached entry and changes nothing but `current`: it does not build
a menu again. -/
theorem menu_cache_write_once (s : Flyout) (t : String) (m : Elem)
    (hm : s.menus.get t = some m) :
    (∀ ops : List Op, ∃ m', (runAll s ops).menus.get t = some m' ∧ SameEntry m m') ∧
      (∀ (T : SitemapNode) (key : String) (delay : Nat),
        (load s T 0).menus.get t = some m ∧ (startTimer s key delay).menus.get t = some m ∧
          (clearTimer s key).menus.get t = some m ∧ (_getMenu s).2.menus.get t = some m) ∧
      (∀ (ops : List Op) (T : SitemapNode), _getTarget (runAll s ops) none = some t →
        ∃ m', SameEntry m m' ∧
          _getMenu (load (runAll s ops) T 0)
            = (some m', { load (runAll s ops) T 0 with current := some t })) := by
  refine ⟨fun ops => runAll_entry ops s t m hm, ?_, ?_⟩
  · intro T key delay
    refine ⟨?_, ?_, ?_, getMenu_entry s t m hm⟩
    · rw [(load_frame s T 0).2.2.2.1]; exact hm
    · rw [(startTimer_frame s key delay).1]; exact hm
    · rw [(clearTimer_frame s key).1]; exact hm
  · intro ops T htarget
    obtain ⟨m', h1, e1⟩ := runAll_entry ops s t m hm
    obtain ⟨_, _, _, lm, _, _, ln, _, _⟩ := load_frame (runAll s ops) T 0
    have ht2 : _getTarget (load (runAll s ops) T 0) none = some t := by
      unfold _getTarget at htarget ⊢
      rw [ln]
      exact htarget
    refine ⟨m', e1, ?_⟩
    have := getMenu_of_cached (load (runAll s ops) T 0) m' (by
      rw [ht2, lm]
      exact h1)
    rw [ht2] at this
    exact this

/-- C12 at a flyout with a cached menu for "/a": the entry after a reload
that makes "/a" a leaf, the show timer firing and `hide()`; and `_getMenu`
right after the reload. -/
theorem menu_cache_write_once_witness :
    withMenuA.menus.get "/a" = some (menuShell {} Parent.body).conceal ∧
      (∃ m', (runAll withMenuA [Op.load leafA, Op.position readingsLow, Op.hide]).menus.get "/a"
          = some m' ∧ SameEntry (menuShell {} Parent.body).conceal m') ∧
      (_getTarget (runAll withMenuA []) none = some "/a" ∧
        ∃ m', SameEntry (menuShell {} Parent.body).conceal m' ∧
          _getMenu (load (runAll withMenuA []) leafA 0)
            = (some m', { load (runAll withMenuA []) leafA 0 with current := some "/a" })) :=
  ⟨rfl,
    (menu_cache_write_once withMenuA "/a" (menuShell {} Parent.body).conceal rfl).1
      [Op.load leafA, Op.position readingsLow, Op.hide],
    rfl,
    (menu_cache_write_once withMenuA "/a" (menuShell {} Parent.body).conceal rfl).2.2
      [] leafA rfl⟩

/-! ## Tooltip: precedence of the element storage -/

/-- A stored value that is not the empty string is what `_read` returns,
whatever the option is; the callback or attribute is not consulted. -/
theorem Tooltip.read_of_stored_truthy (options : Tooltip.ReadOptions) (node : Tooltip.Node)
    (type : String) (v : String)
    (hs : node.storage.get ("tooltip:" ++ type) = some v) (hv : v ≠ "") :
    Tooltip._read options node type = some v := by
  unfold Tooltip._read Tooltip.retrieve
  simp only [hs]
  rw [if_pos (by simp [truthy, hv])]

/-- When nothing is stored, or the empty string is, `_read` returns what the
option gives: the result of the callback, or the attribute. -/
theorem Tooltip.read_of_stored_falsy (options : Tooltip.ReadOptions) (node : Tooltip.Node)
    (type : String) (hs : truthy (node.storage.get ("tooltip:" ++ type)) = false) :
    Tooltip._read options node type
      = match (if type = "title" then options.getTitle else options.getContent) with
        | Tooltip.Reader.callback f => f node
        | Tooltip.Reader.attribute name => node.attributes.get name := by
  unfold Tooltip._read Tooltip.retrieve
  simp only [hs]
  rfl

/-- C13, the code at the failing input.  The storage of the node holds the
empty string under `tooltip:title` and the node has the attribute
`title="Hello"`: `_read('title')` returns "Hello", read from the attribute,
not the stored value; with a callback as `getTitle` the callback is consulted
and its result returned.  A stored value that is not empty is returned. -/
theorem Tooltip.read_ignores_stored_empty_string :
    Tooltip.retrieve emptyTitleNode "tooltip:title" = some "" ∧
      Tooltip._read {} emptyTitleNode "title" = some "Hello" ∧
      Tooltip._read { getTitle := Tooltip.Reader.callback (fun _ => some "From callback") }
        emptyTitleNode "title" = some "From callback" ∧
      Tooltip._read {} storedTitleNode "title" = some "Stored" := by
  refine ⟨?_, ?_, ?_, ?_⟩ <;> decide

end Toolkit
